import Mathlib

/-!
# PassEncrypter: the AES-128 block cipher and its ECB driver

A shallow embedding of `src/PassEncrypter.cpp`.  Bytes (`unsigned char`) are natural
numbers below 256, buffers are lists of bytes, a pointer `p + i` into a buffer is the
list `p.drop i`, and a read `p[i]` is `p.getD i 0`.  Functions that mutate a 16-byte
state in place return the new state.  Lengths and loop counters (`int`) are natural
numbers: the line buffer holds at most 1023 characters and every length in the
program stays far below 2^31, so no `int` operation wraps.

`structures.h`, which declares the lookup tables and `KeyExpansion`, is not among the
sources; these are modelled from the specification and marked as such.
-/

set_option maxRecDepth 100000

namespace PassEncrypter

/-! ## Lookup tables (structures.h) -/

/-- Modelled from the spec: the table `s` of structures.h (absent from the sources), the FIPS-197 forward S-box, `s[b]` at index `b`. -/
def s : List Nat :=
  [ 0x63, 0x7c, 0x77, 0x7b, 0xf2, 0x6b, 0x6f, 0xc5, 0x30, 0x01, 0x67, 0x2b, 0xfe, 0xd7, 0xab, 0x76,
   0xca, 0x82, 0xc9, 0x7d, 0xfa, 0x59, 0x47, 0xf0, 0xad, 0xd4, 0xa2, 0xaf, 0x9c, 0xa4, 0x72, 0xc0,
   0xb7, 0xfd, 0x93, 0x26, 0x36, 0x3f, 0xf7, 0xcc, 0x34, 0xa5, 0xe5, 0xf1, 0x71, 0xd8, 0x31, 0x15,
   0x04, 0xc7, 0x23, 0xc3, 0x18, 0x96, 0x05, 0x9a, 0x07, 0x12, 0x80, 0xe2, 0xeb, 0x27, 0xb2, 0x75,
   0x09, 0x83, 0x2c, 0x1a, 0x1b, 0x6e, 0x5a, 0xa0, 0x52, 0x3b, 0xd6, 0xb3, 0x29, 0xe3, 0x2f, 0x84,
   0x53, 0xd1, 0x00, 0xed, 0x20, 0xfc, 0xb1, 0x5b, 0x6a, 0xcb, 0xbe, 0x39, 0x4a, 0x4c, 0x58, 0xcf,
   0xd0, 0xef, 0xaa, 0xfb, 0x43, 0x4d, 0x33, 0x85, 0x45, 0xf9, 0x02, 0x7f, 0x50, 0x3c, 0x9f, 0xa8,
   0x51, 0xa3, 0x40, 0x8f, 0x92, 0x9d, 0x38, 0xf5, 0xbc, 0xb6, 0xda, 0x21, 0x10, 0xff, 0xf3, 0xd2,
   0xcd, 0x0c, 0x13, 0xec, 0x5f, 0x97, 0x44, 0x17, 0xc4, 0xa7, 0x7e, 0x3d, 0x64, 0x5d, 0x19, 0x73,
   0x60, 0x81, 0x4f, 0xdc, 0x22, 0x2a, 0x90, 0x88, 0x46, 0xee, 0xb8, 0x14, 0xde, 0x5e, 0x0b, 0xdb,
   0xe0, 0x32, 0x3a, 0x0a, 0x49, 0x06, 0x24, 0x5c, 0xc2, 0xd3, 0xac, 0x62, 0x91, 0x95, 0xe4, 0x79,
   0xe7, 0xc8, 0x37, 0x6d, 0x8d, 0xd5, 0x4e, 0xa9, 0x6c, 0x56, 0xf4, 0xea, 0x65, 0x7a, 0xae, 0x08,
   0xba, 0x78, 0x25, 0x2e, 0x1c, 0xa6, 0xb4, 0xc6, 0xe8, 0xdd, 0x74, 0x1f, 0x4b, 0xbd, 0x8b, 0x8a,
   0x70, 0x3e, 0xb5, 0x66, 0x48, 0x03, 0xf6, 0x0e, 0x61, 0x35, 0x57, 0xb9, 0x86, 0xc1, 0x1d, 0x9e,
   0xe1, 0xf8, 0x98, 0x11, 0x69, 0xd9, 0x8e, 0x94, 0x9b, 0x1e, 0x87, 0xe9, 0xce, 0x55, 0x28, 0xdf,
   0x8c, 0xa1, 0x89, 0x0d, 0xbf, 0xe6, 0x42, 0x68, 0x41, 0x99, 0x2d, 0x0f, 0xb0, 0x54, 0xbb, 0x16]

/-- Modelled from the spec: the table `inv_s` of structures.h (absent from the sources), the FIPS-197 inverse S-box. -/
def inv_s : List Nat :=
  [ 0x52, 0x09, 0x6a, 0xd5, 0x30, 0x36, 0xa5, 0x38, 0xbf, 0x40, 0xa3, 0x9e, 0x81, 0xf3, 0xd7, 0xfb,
   0x7c, 0xe3, 0x39, 0x82, 0x9b, 0x2f, 0xff, 0x87, 0x34, 0x8e, 0x43, 0x44, 0xc4, 0xde, 0xe9, 0xcb,
   0x54, 0x7b, 0x94, 0x32, 0xa6, 0xc2, 0x23, 0x3d, 0xee, 0x4c, 0x95, 0x0b, 0x42, 0xfa, 0xc3, 0x4e,
   0x08, 0x2e, 0xa1, 0x66, 0x28, 0xd9, 0x24, 0xb2, 0x76, 0x5b, 0xa2, 0x49, 0x6d, 0x8b, 0xd1, 0x25,
   0x72, 0xf8, 0xf6, 0x64, 0x86, 0x68, 0x98, 0x16, 0xd4, 0xa4, 0x5c, 0xcc, 0x5d, 0x65, 0xb6, 0x92,
   0x6c, 0x70, 0x48, 0x50, 0xfd, 0xed, 0xb9, 0xda, 0x5e, 0x15, 0x46, 0x57, 0xa7, 0x8d, 0x9d, 0x84,
   0x90, 0xd8, 0xab, 0x00, 0x8c, 0xbc, 0xd3, 0x0a, 0xf7, 0xe4, 0x58, 0x05, 0xb8, 0xb3, 0x45, 0x06,
   0xd0, 0x2c, 0x1e, 0x8f, 0xca, 0x3f, 0x0f, 0x02, 0xc1, 0xaf, 0xbd, 0x03, 0x01, 0x13, 0x8a, 0x6b,
   0x3a, 0x91, 0x11, 0x41, 0x4f, 0x67, 0xdc, 0xea, 0x97, 0xf2, 0xcf, 0xce, 0xf0, 0xb4, 0xe6, 0x73,
   0x96, 0xac, 0x74, 0x22, 0xe7, 0xad, 0x35, 0x85, 0xe2, 0xf9, 0x37, 0xe8, 0x1c, 0x75, 0xdf, 0x6e,
   0x47, 0xf1, 0x1a, 0x71, 0x1d, 0x29, 0xc5, 0x89, 0x6f, 0xb7, 0x62, 0x0e, 0xaa, 0x18, 0xbe, 0x1b,
   0xfc, 0x56, 0x3e, 0x4b, 0xc6, 0xd2, 0x79, 0x20, 0x9a, 0xdb, 0xc0, 0xfe, 0x78, 0xcd, 0x5a, 0xf4,
   0x1f, 0xdd, 0xa8, 0x33, 0x88, 0x07, 0xc7, 0x31, 0xb1, 0x12, 0x10, 0x59, 0x27, 0x80, 0xec, 0x5f,
   0x60, 0x51, 0x7f, 0xa9, 0x19, 0xb5, 0x4a, 0x0d, 0x2d, 0xe5, 0x7a, 0x9f, 0x93, 0xc9, 0x9c, 0xef,
   0xa0, 0xe0, 0x3b, 0x4d, 0xae, 0x2a, 0xf5, 0xb0, 0xc8, 0xeb, 0xbb, 0x3c, 0x83, 0x53, 0x99, 0x61,
   0x17, 0x2b, 0x04, 0x7e, 0xba, 0x77, 0xd6, 0x26, 0xe1, 0x69, 0x14, 0x63, 0x55, 0x21, 0x0c, 0x7d]

/-- Modelled from the spec: the table `mul2` of structures.h (absent from the sources), `mul2[b]` being the product of `b` and 2 in GF(2^8) modulo x^8+x^4+x^3+x+1. -/
def mul2 : List Nat :=
  [ 0x00, 0x02, 0x04, 0x06, 0x08, 0x0a, 0x0c, 0x0e, 0x10, 0x12, 0x14, 0x16, 0x18, 0x1a, 0x1c, 0x1e,
   0x20, 0x22, 0x24, 0x26, 0x28, 0x2a, 0x2c, 0x2e, 0x30, 0x32, 0x34, 0x36, 0x38, 0x3a, 0x3c, 0x3e,
   0x40, 0x42, 0x44, 0x46, 0x48, 0x4a, 0x4c, 0x4e, 0x50, 0x52, 0x54, 0x56, 0x58, 0x5a, 0x5c, 0x5e,
   0x60, 0x62, 0x64, 0x66, 0x68, 0x6a, 0x6c, 0x6e, 0x70, 0x72, 0x74, 0x76, 0x78, 0x7a, 0x7c, 0x7e,
   0x80, 0x82, 0x84, 0x86, 0x88, 0x8a, 0x8c, 0x8e, 0x90, 0x92, 0x94, 0x96, 0x98, 0x9a, 0x9c, 0x9e,
   0xa0, 0xa2, 0xa4, 0xa6, 0xa8, 0xaa, 0xac, 0xae, 0xb0, 0xb2, 0xb4, 0xb6, 0xb8, 0xba, 0xbc, 0xbe,
   0xc0, 0xc2, 0xc4, 0xc6, 0xc8, 0xca, 0xcc, 0xce, 0xd0, 0xd2, 0xd4, 0xd6, 0xd8, 0xda, 0xdc, 0xde,
   0xe0, 0xe2, 0xe4, 0xe6, 0xe8, 0xea, 0xec, 0xee, 0xf0, 0xf2, 0xf4, 0xf6, 0xf8, 0xfa, 0xfc, 0xfe,
   0x1b, 0x19, 0x1f, 0x1d, 0x13, 0x11, 0x17, 0x15, 0x0b, 0x09, 0x0f, 0x0d, 0x03, 0x01, 0x07, 0x05,
   0x3b, 0x39, 0x3f, 0x3d, 0x33, 0x31, 0x37, 0x35, 0x2b, 0x29, 0x2f, 0x2d, 0x23, 0x21, 0x27, 0x25,
   0x5b, 0x59, 0x5f, 0x5d, 0x53, 0x51, 0x57, 0x55, 0x4b, 0x49, 0x4f, 0x4d, 0x43, 0x41, 0x47, 0x45,
   0x7b, 0x79, 0x7f, 0x7d, 0x73, 0x71, 0x77, 0x75, 0x6b, 0x69, 0x6f, 0x6d, 0x63, 0x61, 0x67, 0x65,
   0x9b, 0x99, 0x9f, 0x9d, 0x93, 0x91, 0x97, 0x95, 0x8b, 0x89, 0x8f, 0x8d, 0x83, 0x81, 0x87, 0x85,
   0xbb, 0xb9, 0xbf, 0xbd, 0xb3, 0xb1, 0xb7, 0xb5, 0xab, 0xa9, 0xaf, 0xad, 0xa3, 0xa1, 0xa7, 0xa5,
   0xdb, 0xd9, 0xdf, 0xdd, 0xd3, 0xd1, 0xd7, 0xd5, 0xcb, 0xc9, 0xcf, 0xcd, 0xc3, 0xc1, 0xc7, 0xc5,
   0xfb, 0xf9, 0xff, 0xfd, 0xf3, 0xf1, 0xf7, 0xf5, 0xeb, 0xe9, 0xef, 0xed, 0xe3, 0xe1, 0xe7, 0xe5]

/-- Modelled from the spec: the table `mul3` of structures.h (absent from the sources), `mul3[b]` being the product of `b` and 3 in GF(2^8) modulo x^8+x^4+x^3+x+1. -/
def mul3 : List Nat :=
  [ 0x00, 0x03, 0x06, 0x05, 0x0c, 0x0f, 0x0a, 0x09, 0x18, 0x1b, 0x1e, 0x1d, 0x14, 0x17, 0x12, 0x11,
   0x30, 0x33, 0x36, 0x35, 0x3c, 0x3f, 0x3a, 0x39, 0x28, 0x2b, 0x2e, 0x2d, 0x24, 0x27, 0x22, 0x21,
   0x60, 0x63, 0x66, 0x65, 0x6c, 0x6f, 0x6a, 0x69, 0x78, 0x7b, 0x7e, 0x7d, 0x74, 0x77, 0x72, 0x71,
   0x50, 0x53, 0x56, 0x55, 0x5c, 0x5f, 0x5a, 0x59, 0x48, 0x4b, 0x4e, 0x4d, 0x44, 0x47, 0x42, 0x41,
   0xc0, 0xc3, 0xc6, 0xc5, 0xcc, 0xcf, 0xca, 0xc9, 0xd8, 0xdb, 0xde, 0xdd, 0xd4, 0xd7, 0xd2, 0xd1,
   0xf0, 0xf3, 0xf6, 0xf5, 0xfc, 0xff, 0xfa, 0xf9, 0xe8, 0xeb, 0xee, 0xed, 0xe4, 0xe7, 0xe2, 0xe1,
   0xa0, 0xa3, 0xa6, 0xa5, 0xac, 0xaf, 0xaa, 0xa9, 0xb8, 0xbb, 0xbe, 0xbd, 0xb4, 0xb7, 0xb2, 0xb1,
   0x90, 0x93, 0x96, 0x95, 0x9c, 0x9f, 0x9a, 0x99, 0x88, 0x8b, 0x8e, 0x8d, 0x84, 0x87, 0x82, 0x81,
   0x9b, 0x98, 0x9d, 0x9e, 0x97, 0x94, 0x91, 0x92, 0x83, 0x80, 0x85, 0x86, 0x8f, 0x8c, 0x89, 0x8a,
   0xab, 0xa8, 0xad, 0xae, 0xa7, 0xa4, 0xa1, 0xa2, 0xb3, 0xb0, 0xb5, 0xb6, 0xbf, 0xbc, 0xb9, 0xba,
   0xfb, 0xf8, 0xfd, 0xfe, 0xf7, 0xf4, 0xf1, 0xf2, 0xe3, 0xe0, 0xe5, 0xe6, 0xef, 0xec, 0xe9, 0xea,
   0xcb, 0xc8, 0xcd, 0xce, 0xc7, 0xc4, 0xc1, 0xc2, 0xd3, 0xd0, 0xd5, 0xd6, 0xdf, 0xdc, 0xd9, 0xda,
   0x5b, 0x58, 0x5d, 0x5e, 0x57, 0x54, 0x51, 0x52, 0x43, 0x40, 0x45, 0x46, 0x4f, 0x4c, 0x49, 0x4a,
   0x6b, 0x68, 0x6d, 0x6e, 0x67, 0x64, 0x61, 0x62, 0x73, 0x70, 0x75, 0x76, 0x7f, 0x7c, 0x79, 0x7a,
   0x3b, 0x38, 0x3d, 0x3e, 0x37, 0x34, 0x31, 0x32, 0x23, 0x20, 0x25, 0x26, 0x2f, 0x2c, 0x29, 0x2a,
   0x0b, 0x08, 0x0d, 0x0e, 0x07, 0x04, 0x01, 0x02, 0x13, 0x10, 0x15, 0x16, 0x1f, 0x1c, 0x19, 0x1a]

/-- Modelled from the spec: the table `mul9` of structures.h (absent from the sources), `mul9[b]` being the product of `b` and 9 in GF(2^8) modulo x^8+x^4+x^3+x+1. -/
def mul9 : List Nat :=
  [ 0x00, 0x09, 0x12, 0x1b, 0x24, 0x2d, 0x36, 0x3f, 0x48, 0x41, 0x5a, 0x53, 0x6c, 0x65, 0x7e, 0x77,
   0x90, 0x99, 0x82, 0x8b, 0xb4, 0xbd, 0xa6, 0xaf, 0xd8, 0xd1, 0xca, 0xc3, 0xfc, 0xf5, 0xee, 0xe7,
   0x3b, 0x32, 0x29, 0x20, 0x1f, 0x16, 0x0d, 0x04, 0x73, 0x7a, 0x61, 0x68, 0x57, 0x5e, 0x45, 0x4c,
   0xab, 0xa2, 0xb9, 0xb0, 0x8f, 0x86, 0x9d, 0x94, 0xe3, 0xea, 0xf1, 0xf8, 0xc7, 0xce, 0xd5, 0xdc,
   0x76, 0x7f, 0x64, 0x6d, 0x52, 0x5b, 0x40, 0x49, 0x3e, 0x37, 0x2c, 0x25, 0x1a, 0x13, 0x08, 0x01,
   0xe6, 0xef, 0xf4, 0xfd, 0xc2, 0xcb, 0xd0, 0xd9, 0xae, 0xa7, 0xbc, 0xb5, 0x8a, 0x83, 0x98, 0x91,
   0x4d, 0x44, 0x5f, 0x56, 0x69, 0x60, 0x7b, 0x72, 0x05, 0x0c, 0x17, 0x1e, 0x21, 0x28, 0x33, 0x3a,
   0xdd, 0xd4, 0xcf, 0xc6, 0xf9, 0xf0, 0xeb, 0xe2, 0x95, 0x9c, 0x87, 0x8e, 0xb1, 0xb8, 0xa3, 0xaa,
   0xec, 0xe5, 0xfe, 0xf7, 0xc8, 0xc1, 0xda, 0xd3, 0xa4, 0xad, 0xb6, 0xbf, 0x80, 0x89, 0x92, 0x9b,
   0x7c, 0x75, 0x6e, 0x67, 0x58, 0x51, 0x4a, 0x43, 0x34, 0x3d, 0x26, 0x2f, 0x10, 0x19, 0x02, 0x0b,
   0xd7, 0xde, 0xc5, 0xcc, 0xf3, 0xfa, 0xe1, 0xe8, 0x9f, 0x96, 0x8d, 0x84, 0xbb, 0xb2, 0xa9, 0xa0,
   0x47, 0x4e, 0x55, 0x5c, 0x63, 0x6a, 0x71, 0x78, 0x0f, 0x06, 0x1d, 0x14, 0x2b, 0x22, 0x39, 0x30,
   0x9a, 0x93, 0x88, 0x81, 0xbe, 0xb7, 0xac, 0xa5, 0xd2, 0xdb, 0xc0, 0xc9, 0xf6, 0xff, 0xe4, 0xed,
   0x0a, 0x03, 0x18, 0x11, 0x2e, 0x27, 0x3c, 0x35, 0x42, 0x4b, 0x50, 0x59, 0x66, 0x6f, 0x74, 0x7d,
   0xa1, 0xa8, 0xb3, 0xba, 0x85, 0x8c, 0x97, 0x9e, 0xe9, 0xe0, 0xfb, 0xf2, 0xcd, 0xc4, 0xdf, 0xd6,
   0x31, 0x38, 0x23, 0x2a, 0x15, 0x1c, 0x07, 0x0e, 0x79, 0x70, 0x6b, 0x62, 0x5d, 0x54, 0x4f, 0x46]

/-- Modelled from the spec: the table `mul11` of structures.h (absent from the sources), `mul11[b]` being the product of `b` and 11 in GF(2^8) modulo x^8+x^4+x^3+x+1. -/
def mul11 : List Nat :=
  [ 0x00, 0x0b, 0x16, 0x1d, 0x2c, 0x27, 0x3a, 0x31, 0x58, 0x53, 0x4e, 0x45, 0x74, 0x7f, 0x62, 0x69,
   0xb0, 0xbb, 0xa6, 0xad, 0x9c, 0x97, 0x8a, 0x81, 0xe8, 0xe3, 0xfe, 0xf5, 0xc4, 0xcf, 0xd2, 0xd9,
   0x7b, 0x70, 0x6d, 0x66, 0x57, 0x5c, 0x41, 0x4a, 0x23, 0x28, 0x35, 0x3e, 0x0f, 0x04, 0x19, 0x12,
   0xcb, 0xc0, 0xdd, 0xd6, 0xe7, 0xec, 0xf1, 0xfa, 0x93, 0x98, 0x85, 0x8e, 0xbf, 0xb4, 0xa9, 0xa2,
   0xf6, 0xfd, 0xe0, 0xeb, 0xda, 0xd1, 0xcc, 0xc7, 0xae, 0xa5, 0xb8, 0xb3, 0x82, 0x89, 0x94, 0x9f,
   0x46, 0x4d, 0x50, 0x5b, 0x6a, 0x61, 0x7c, 0x77, 0x1e, 0x15, 0x08, 0x03, 0x32, 0x39, 0x24, 0x2f,
   0x8d, 0x86, 0x9b, 0x90, 0xa1, 0xaa, 0xb7, 0xbc, 0xd5, 0xde, 0xc3, 0xc8, 0xf9, 0xf2, 0xef, 0xe4,
   0x3d, 0x36, 0x2b, 0x20, 0x11, 0x1a, 0x07, 0x0c, 0x65, 0x6e, 0x73, 0x78, 0x49, 0x42, 0x5f, 0x54,
   0xf7, 0xfc, 0xe1, 0xea, 0xdb, 0xd0, 0xcd, 0xc6, 0xaf, 0xa4, 0xb9, 0xb2, 0x83, 0x88, 0x95, 0x9e,
   0x47, 0x4c, 0x51, 0x5a, 0x6b, 0x60, 0x7d, 0x76, 0x1f, 0x14, 0x09, 0x02, 0x33, 0x38, 0x25, 0x2e,
   0x8c, 0x87, 0x9a, 0x91, 0xa0, 0xab, 0xb6, 0xbd, 0xd4, 0xdf, 0xc2, 0xc9, 0xf8, 0xf3, 0xee, 0xe5,
   0x3c, 0x37, 0x2a, 0x21, 0x10, 0x1b, 0x06, 0x0d, 0x64, 0x6f, 0x72, 0x79, 0x48, 0x43, 0x5e, 0x55,
   0x01, 0x0a, 0x17, 0x1c, 0x2d, 0x26, 0x3b, 0x30, 0x59, 0x52, 0x4f, 0x44, 0x75, 0x7e, 0x63, 0x68,
   0xb1, 0xba, 0xa7, 0xac, 0x9d, 0x96, 0x8b, 0x80, 0xe9, 0xe2, 0xff, 0xf4, 0xc5, 0xce, 0xd3, 0xd8,
   0x7a, 0x71, 0x6c, 0x67, 0x56, 0x5d, 0x40, 0x4b, 0x22, 0x29, 0x34, 0x3f, 0x0e, 0x05, 0x18, 0x13,
   0xca, 0xc1, 0xdc, 0xd7, 0xe6, 0xed, 0xf0, 0xfb, 0x92, 0x99, 0x84, 0x8f, 0xbe, 0xb5, 0xa8, 0xa3]

/-- Modelled from the spec: the table `mul13` of structures.h (absent from the sources), `mul13[b]` being the product of `b` and 13 in GF(2^8) modulo x^8+x^4+x^3+x+1. -/
def mul13 : List Nat :=
  [ 0x00, 0x0d, 0x1a, 0x17, 0x34, 0x39, 0x2e, 0x23, 0x68, 0x65, 0x72, 0x7f, 0x5c, 0x51, 0x46, 0x4b,
   0xd0, 0xdd, 0xca, 0xc7, 0xe4, 0xe9, 0xfe, 0xf3, 0xb8, 0xb5, 0xa2, 0xaf, 0x8c, 0x81, 0x96, 0x9b,
   0xbb, 0xb6, 0xa1, 0xac, 0x8f, 0x82, 0x95, 0x98, 0xd3, 0xde, 0xc9, 0xc4, 0xe7, 0xea, 0xfd, 0xf0,
   0x6b, 0x66, 0x71, 0x7c, 0x5f, 0x52, 0x45, 0x48, 0x03, 0x0e, 0x19, 0x14, 0x37, 0x3a, 0x2d, 0x20,
   0x6d, 0x60, 0x77, 0x7a, 0x59, 0x54, 0x43, 0x4e, 0x05, 0x08, 0x1f, 0x12, 0x31, 0x3c, 0x2b, 0x26,
   0xbd, 0xb0, 0xa7, 0xaa, 0x89, 0x84, 0x93, 0x9e, 0xd5, 0xd8, 0xcf, 0xc2, 0xe1, 0xec, 0xfb, 0xf6,
   0xd6, 0xdb, 0xcc, 0xc1, 0xe2, 0xef, 0xf8, 0xf5, 0xbe, 0xb3, 0xa4, 0xa9, 0x8a, 0x87, 0x90, 0x9d,
   0x06, 0x0b, 0x1c, 0x11, 0x32, 0x3f, 0x28, 0x25, 0x6e, 0x63, 0x74, 0x79, 0x5a, 0x57, 0x40, 0x4d,
   0xda, 0xd7, 0xc0, 0xcd, 0xee, 0xe3, 0xf4, 0xf9, 0xb2, 0xbf, 0xa8, 0xa5, 0x86, 0x8b, 0x9c, 0x91,
   0x0a, 0x07, 0x10, 0x1d, 0x3e, 0x33, 0x24, 0x29, 0x62, 0x6f, 0x78, 0x75, 0x56, 0x5b, 0x4c, 0x41,
   0x61, 0x6c, 0x7b, 0x76, 0x55, 0x58, 0x4f, 0x42, 0x09, 0x04, 0x13, 0x1e, 0x3d, 0x30, 0x27, 0x2a,
   0xb1, 0xbc, 0xab, 0xa6, 0x85, 0x88, 0x9f, 0x92, 0xd9, 0xd4, 0xc3, 0xce, 0xed, 0xe0, 0xf7, 0xfa,
   0xb7, 0xba, 0xad, 0xa0, 0x83, 0x8e, 0x99, 0x94, 0xdf, 0xd2, 0xc5, 0xc8, 0xeb, 0xe6, 0xf1, 0xfc,
   0x67, 0x6a, 0x7d, 0x70, 0x53, 0x5e, 0x49, 0x44, 0x0f, 0x02, 0x15, 0x18, 0x3b, 0x36, 0x21, 0x2c,
   0x0c, 0x01, 0x16, 0x1b, 0x38, 0x35, 0x22, 0x2f, 0x64, 0x69, 0x7e, 0x73, 0x50, 0x5d, 0x4a, 0x47,
   0xdc, 0xd1, 0xc6, 0xcb, 0xe8, 0xe5, 0xf2, 0xff, 0xb4, 0xb9, 0xae, 0xa3, 0x80, 0x8d, 0x9a, 0x97]

/-- Modelled from the spec: the table `mul14` of structures.h (absent from the sources), `mul14[b]` being the product of `b` and 14 in GF(2^8) modulo x^8+x^4+x^3+x+1. -/
def mul14 : List Nat :=
  [ 0x00, 0x0e, 0x1c, 0x12, 0x38, 0x36, 0x24, 0x2a, 0x70, 0x7e, 0x6c, 0x62, 0x48, 0x46, 0x54, 0x5a,
   0xe0, 0xee, 0xfc, 0xf2, 0xd8, 0xd6, 0xc4, 0xca, 0x90, 0x9e, 0x8c, 0x82, 0xa8, 0xa6, 0xb4, 0xba,
   0xdb, 0xd5, 0xc7, 0xc9, 0xe3, 0xed, 0xff, 0xf1, 0xab, 0xa5, 0xb7, 0xb9, 0x93, 0x9d, 0x8f, 0x81,
   0x3b, 0x35, 0x27, 0x29, 0x03, 0x0d, 0x1f, 0x11, 0x4b, 0x45, 0x57, 0x59, 0x73, 0x7d, 0x6f, 0x61,
   0xad, 0xa3, 0xb1, 0xbf, 0x95, 0x9b, 0x89, 0x87, 0xdd, 0xd3, 0xc1, 0xcf, 0xe5, 0xeb, 0xf9, 0xf7,
   0x4d, 0x43, 0x51, 0x5f, 0x75, 0x7b, 0x69, 0x67, 0x3d, 0x33, 0x21, 0x2f, 0x05, 0x0b, 0x19, 0x17,
   0x76, 0x78, 0x6a, 0x64, 0x4e, 0x40, 0x52, 0x5c, 0x06, 0x08, 0x1a, 0x14, 0x3e, 0x30, 0x22, 0x2c,
   0x96, 0x98, 0x8a, 0x84, 0xae, 0xa0, 0xb2, 0xbc, 0xe6, 0xe8, 0xfa, 0xf4, 0xde, 0xd0, 0xc2, 0xcc,
   0x41, 0x4f, 0x5d, 0x53, 0x79, 0x77, 0x65, 0x6b, 0x31, 0x3f, 0x2d, 0x23, 0x09, 0x07, 0x15, 0x1b,
   0xa1, 0xaf, 0xbd, 0xb3, 0x99, 0x97, 0x85, 0x8b, 0xd1, 0xdf, 0xcd, 0xc3, 0xe9, 0xe7, 0xf5, 0xfb,
   0x9a, 0x94, 0x86, 0x88, 0xa2, 0xac, 0xbe, 0xb0, 0xea, 0xe4, 0xf6, 0xf8, 0xd2, 0xdc, 0xce, 0xc0,
   0x7a, 0x74, 0x66, 0x68, 0x42, 0x4c, 0x5e, 0x50, 0x0a, 0x04, 0x16, 0x18, 0x32, 0x3c, 0x2e, 0x20,
   0xec, 0xe2, 0xf0, 0xfe, 0xd4, 0xda, 0xc8, 0xc6, 0x9c, 0x92, 0x80, 0x8e, 0xa4, 0xaa, 0xb8, 0xb6,
   0x0c, 0x02, 0x10, 0x1e, 0x34, 0x3a, 0x28, 0x26, 0x7c, 0x72, 0x60, 0x6e, 0x44, 0x4a, 0x58, 0x56,
   0x37, 0x39, 0x2b, 0x25, 0x0f, 0x01, 0x13, 0x1d, 0x47, 0x49, 0x5b, 0x55, 0x7f, 0x71, 0x63, 0x6d,
   0xd7, 0xd9, 0xcb, 0xc5, 0xef, 0xe1, 0xf3, 0xfd, 0xa7, 0xa9, 0xbb, 0xb5, 0x9f, 0x91, 0x83, 0x8d]

/-! ## Key schedule (structures.h) -/

/-- Modelled from the spec: the value reached from 1 by `n` field doublings
(multiplications by 2 in GF(2^8), read off the table `mul2`), from which the round
constants of `KeyExpansion` (structures.h, absent from the sources) are derived. -/
def doublings : Nat → Nat
  | 0 => 1
  | n + 1 => mul2.getD (doublings n) 0

/-- Modelled from the spec: the round constant `Rcon[r]` used by `KeyExpansion`
(structures.h, absent from the sources), "derived from field-doubling starting
at 1": `Rcon[1] = 1` and `Rcon[r + 1]` is the double of `Rcon[r]`. -/
def Rcon (r : Nat) : Nat :=
  doublings (r - 1)

/-- Word `i` (bytes `4i .. 4i+3`) of a round key. -/
def word (rk : List Nat) (i : Nat) : List Nat :=
  (List.range 4).map fun j => rk.getD (4 * i + j) 0

/-- Bytewise XOR of two 4-byte words. -/
def xorWord (a b : List Nat) : List Nat :=
  (List.range 4).map fun j => a.getD j 0 ^^^ b.getD j 0

/-- Rotate the bytes of a word left by one position. -/
def rotWord (w : List Nat) : List Nat :=
  [w.getD 1 0, w.getD 2 0, w.getD 3 0, w.getD 0 0]

/-- Substitute each byte of a word via the forward S-box. -/
def subWord (w : List Nat) : List Nat :=
  (List.range 4).map fun j => s.getD (w.getD j 0) 0

/-- Modelled from the spec: one step of the key schedule of `KeyExpansion`
(structures.h, absent from the sources).  The first word of round key `r` is the
last word of round key `r - 1`, rotated left by one byte, substituted through the
S-box, XORed with the round constant `Rcon[r]` and with the first word of round
key `r - 1`; each remaining word is the corresponding word of round key `r - 1`
XORed with the preceding word of round key `r`. -/
def nextRoundKey (r : Nat) (prev : List Nat) : List Nat :=
  let w0 := xorWord (xorWord (subWord (rotWord (word prev 3))) [Rcon r, 0, 0, 0]) (word prev 0)
  let w1 := xorWord (word prev 1) w0
  let w2 := xorWord (word prev 2) w1
  let w3 := xorWord (word prev 3) w2
  w0 ++ w1 ++ w2 ++ w3

/-- Modelled from the spec: round key `r` of `KeyExpansion`; round key 0 is the key
itself. -/
def roundKeyOf (key : List Nat) : Nat → List Nat
  | 0 => (List.range 16).map fun i => key.getD i 0
  | r + 1 => nextRoundKey (r + 1) (roundKeyOf key r)

/-- Modelled from the spec: `KeyExpansion(key, expandedKey)` of structures.h (absent
from the sources), the 176 bytes of the eleven round keys 0..10 in order. -/
def KeyExpansion (key : List Nat) : List Nat :=
  (List.range 11).flatMap (roundKeyOf key)

/-! ## Round steps -/

/-- The source's `AddRoundKey`: `state[i] ^= roundKey[i]` for `i = 0..15`. -/
def AddRoundKey (state roundKey : List Nat) : List Nat :=
  (List.range 16).map fun i => state.getD i 0 ^^^ roundKey.getD i 0

/-- The source's `SubBytes`: `state[i] = s[state[i]]` for `i = 0..15`. -/
def SubBytes (state : List Nat) : List Nat :=
  (List.range 16).map fun i => s.getD (state.getD i 0) 0

/-- The source's `ShiftRows`: the sixteen assignments to `tmp`, then the copy back. -/
def ShiftRows (state : List Nat) : List Nat :=
  [state.getD 0 0, state.getD 5 0, state.getD 10 0, state.getD 15 0,
   state.getD 4 0, state.getD 9 0, state.getD 14 0, state.getD 3 0,
   state.getD 8 0, state.getD 13 0, state.getD 2 0, state.getD 7 0,
   state.getD 12 0, state.getD 1 0, state.getD 6 0, state.getD 11 0]

/-- One column of the source's `MixColumns`, the four assignments `tmp[j..j+3]`.
All operands are bytes, so the store into `unsigned char tmp[]` does not truncate. -/
def mixColumn (state : List Nat) (j : Nat) : List Nat :=
  [mul2.getD (state.getD j 0) 0 ^^^ mul3.getD (state.getD (j + 1) 0) 0
      ^^^ state.getD (j + 2) 0 ^^^ state.getD (j + 3) 0,
   state.getD j 0 ^^^ mul2.getD (state.getD (j + 1) 0) 0
      ^^^ mul3.getD (state.getD (j + 2) 0) 0 ^^^ state.getD (j + 3) 0,
   state.getD j 0 ^^^ state.getD (j + 1) 0
      ^^^ mul2.getD (state.getD (j + 2) 0) 0 ^^^ mul3.getD (state.getD (j + 3) 0) 0,
   mul3.getD (state.getD j 0) 0 ^^^ state.getD (j + 1) 0
      ^^^ state.getD (j + 2) 0 ^^^ mul2.getD (state.getD (j + 3) 0) 0]

/-- The source's `MixColumns`: `tmp[0..15]` computed column by column, copied back. -/
def MixColumns (state : List Nat) : List Nat :=
  mixColumn state 0 ++ mixColumn state 4 ++ mixColumn state 8 ++ mixColumn state 12

/-- The source's `Round`. -/
def Round (state key : List Nat) : List Nat :=
  AddRoundKey (MixColumns (ShiftRows (SubBytes state))) key

/-- The source's `FinalRound`: a round without `MixColumns`. -/
def FinalRound (state key : List Nat) : List Nat :=
  AddRoundKey (ShiftRows (SubBytes state)) key

/-- The source's `AESEncrypt`: copy sixteen message bytes into the state, the initial
`AddRoundKey` with `expandedKey`, nine `Round`s with `expandedKey + 16 * (i + 1)`
for `i = 0..8`, `FinalRound` with `expandedKey + 160`; the result is the sixteen
bytes written to `encryptedMessage`. -/
def AESEncrypt (message expandedKey : List Nat) : List Nat :=
  let state := (List.range 16).map fun i => message.getD i 0
  let state := AddRoundKey state expandedKey
  let state := (List.range 9).foldl
    (fun st i => Round st (expandedKey.drop (16 * (i + 1)))) state
  let state := FinalRound state (expandedKey.drop 160)
  (List.range 16).map fun i => state.getD i 0

/-- The source's `SubRoundKey`: `state[i] ^= roundKey[i]` for `i = 0..15`. -/
def SubRoundKey (state roundKey : List Nat) : List Nat :=
  (List.range 16).map fun i => state.getD i 0 ^^^ roundKey.getD i 0

/-- One column of the source's `InverseMixColumns`, the four assignments `tmp[j..j+3]`. -/
def inverseMixColumn (state : List Nat) (j : Nat) : List Nat :=
  [mul14.getD (state.getD j 0) 0 ^^^ mul11.getD (state.getD (j + 1) 0) 0
      ^^^ mul13.getD (state.getD (j + 2) 0) 0 ^^^ mul9.getD (state.getD (j + 3) 0) 0,
   mul9.getD (state.getD j 0) 0 ^^^ mul14.getD (state.getD (j + 1) 0) 0
      ^^^ mul11.getD (state.getD (j + 2) 0) 0 ^^^ mul13.getD (state.getD (j + 3) 0) 0,
   mul13.getD (state.getD j 0) 0 ^^^ mul9.getD (state.getD (j + 1) 0) 0
      ^^^ mul14.getD (state.getD (j + 2) 0) 0 ^^^ mul11.getD (state.getD (j + 3) 0) 0,
   mul11.getD (state.getD j 0) 0 ^^^ mul13.getD (state.getD (j + 1) 0) 0
      ^^^ mul9.getD (state.getD (j + 2) 0) 0 ^^^ mul14.getD (state.getD (j + 3) 0) 0]

/-- The source's `InverseMixColumns`. -/
def InverseMixColumns (state : List Nat) : List Nat :=
  inverseMixColumn state 0 ++ inverseMixColumn state 4
    ++ inverseMixColumn state 8 ++ inverseMixColumn state 12

/-- The source's `ShiftRowsInverse`: the sixteen assignments to `tmp`, then the copy back. -/
def ShiftRowsInverse (state : List Nat) : List Nat :=
  [state.getD 0 0, state.getD 13 0, state.getD 10 0, state.getD 7 0,
   state.getD 4 0, state.getD 1 0, state.getD 14 0, state.getD 11 0,
   state.getD 8 0, state.getD 5 0, state.getD 2 0, state.getD 15 0,
   state.getD 12 0, state.getD 9 0, state.getD 6 0, state.getD 3 0]

/-- The source's `SubBytesInverse`: `state[i] = inv_s[state[i]]` for `i = 0..15`. -/
def SubBytesInverse (state : List Nat) : List Nat :=
  (List.range 16).map fun i => inv_s.getD (state.getD i 0) 0

/-- The source's `RoundInverse`. -/
def RoundInverse (state key : List Nat) : List Nat :=
  SubBytesInverse (ShiftRowsInverse (InverseMixColumns (SubRoundKey state key)))

/-- The source's `InitialRoundInverse`: an inverse round without `InverseMixColumns`. -/
def InitialRoundInverse (state key : List Nat) : List Nat :=
  SubBytesInverse (ShiftRowsInverse (SubRoundKey state key))

/-- The source's `AESDecrypt`: copy sixteen bytes into the state, `InitialRoundInverse`
with `expandedKey + 160`, `RoundInverse` with `expandedKey + 16 * (i + 1)` for
`i = 8` down to `0`, the final `SubRoundKey` with `expandedKey`; the result is the
sixteen bytes written to `decryptedMessage`. -/
def AESDecrypt (encryptedMessage expandedKey : List Nat) : List Nat :=
  let state := (List.range 16).map fun i => encryptedMessage.getD i 0
  let state := InitialRoundInverse state (expandedKey.drop 160)
  let state := [8, 7, 6, 5, 4, 3, 2, 1, 0].foldl
    (fun st i => RoundInverse st (expandedKey.drop (16 * (i + 1)))) state
  let state := SubRoundKey state expandedKey
  (List.range 16).map fun i => state.getD i 0

/-! ## The `enc` and `dec` commands of `main` -/

/-- C `strlen`: the number of bytes before the first NUL of the line buffer
(a buffer that ends without a NUL is read as NUL-terminated). -/
def strlen (message : List Nat) : Nat :=
  (message.takeWhile fun b => b != 0).length

/-- The padded length computed by the `enc` command from `originalLen`:
`if ((paddedMessageLen % 16) != 0) paddedMessageLen = (paddedMessageLen / 16 + 1) * 16`.
The line buffer holds at most 1023 characters, so `int` arithmetic does not overflow. -/
def paddedMessageLen (originalLen : Nat) : Nat :=
  if originalLen % 16 ≠ 0 then (originalLen / 16 + 1) * 16 else originalLen

/-- The buffer `paddedMessage` filled by the `enc` command: for each
`i < paddedMessageLen`, `0` when `i >= originalLen` and `message[i]` otherwise. -/
def paddedMessage (message : List Nat) : List Nat :=
  (List.range (paddedMessageLen (strlen message))).map fun i =>
    if i ≥ strlen message then 0 else message.getD i 0

/-- Consecutive byte stores `buf[i] = b₀; buf[i+1] = b₁; ...`.  `buf` is the modelled
extent of memory: a store past its end is outside the model and leaves `buf` as is. -/
def storeBytes (buf : List Nat) (i : Nat) : List Nat → List Nat
  | [] => buf
  | b :: bs => storeBytes (buf.set i b) (i + 1) bs

/-- The key-reading loop of both commands, `while (stream >> hex >> c) { key[i] = c; i++; }`:
`values` are the `unsigned int`s the stream yields, each stored as an `unsigned char`
(so modulo 256) at the next index.  `mem` is the memory starting at `key`: its first
sixteen bytes are the array `key[16]` (uninitialised before the loop), the rest what
follows it. -/
def readKey (mem values : List Nat) : List Nat :=
  storeBytes mem 0 (values.map fun c => c % 256)

/-- The offsets visited by `for (int i = 0; i < len; i += 16)`, started at `i` and run
for at most `fuel` iterations. -/
def blockLoop (len : Nat) : Nat → Nat → List Nat
  | 0, _ => []
  | fuel + 1, i => if i < len then i :: blockLoop len fuel (i + 16) else []

/-- The offsets at which the block loops of `main` call the cipher for a loop bound
`len`; `len` iterations of fuel are more than the loop can make. -/
def blockOffsets (len : Nat) : List Nat :=
  blockLoop len len 0

/-- The block loop of the `enc` command:
`for (i = 0; i < paddedMessageLen; i += 16) AESEncrypt(paddedMessage + i, expandedKey, encryptedMessage + i)`.
`encryptedMessage` is the freshly allocated output buffer. -/
def encryptBlocks (paddedMessage expandedKey : List Nat) (paddedMessageLen : Nat)
    (encryptedMessage : List Nat) : List Nat :=
  (blockOffsets paddedMessageLen).foldl
    (fun out i => storeBytes out i (AESEncrypt (paddedMessage.drop i) expandedKey))
    encryptedMessage

/-- The output loop of the `enc` command: each of the `paddedMessageLen` bytes printed
as `hex << (int) byte` (lower-case hexadecimal, no leading zero) followed by a space. -/
def hexOutput (encryptedMessage : List Nat) (paddedMessageLen : Nat) : List Char :=
  (List.range paddedMessageLen).flatMap fun i =>
    Nat.toDigits 16 (encryptedMessage.getD i 0) ++ [' ']

/-- The `enc` command from the message line to the printed line.  `message` is the
line buffer, `keyMem` the memory at `key` before the key is read, `keyValues` the
values the key line yields, `out0` the fresh `encryptedMessage` buffer.  There is no
branch that rejects an input: every run reaches `KeyExpansion` and the output loop. -/
def encryptCommand (message keyMem keyValues out0 : List Nat) : List Char :=
  let paddedLen := paddedMessageLen (strlen message)
  let padded := paddedMessage message
  let key := readKey keyMem keyValues
  let expandedKey := KeyExpansion key
  hexOutput (encryptBlocks padded expandedKey paddedLen out0) paddedLen

/-- The block loop of the `dec` command:
`for (i = 0; i < messageLen; i += 16) AESDecrypt(encryptedMessage + i, expandedKey, decryptedMessage + i)`.
`encryptedMessage` is the memory starting at that pointer, `decryptedMessage` the
freshly allocated output buffer. -/
def decryptBlocks (encryptedMessage expandedKey : List Nat) (messageLen : Nat)
    (decryptedMessage : List Nat) : List Nat :=
  (blockOffsets messageLen).foldl
    (fun out i => storeBytes out i (AESDecrypt (encryptedMessage.drop i) expandedKey))
    decryptedMessage

/-- The `dec` command from the hex line to the printed bytes.  `encryptedText` is the
hex line, `cipherValues` the values the stream yields from it, `heap` the memory at
`encryptedMessage` (`encryptedText.length() / 2` allocated bytes and what follows),
`keyMem` and `keyValues` as for `enc`, `out0` the fresh `decryptedMessage` buffer of
`messageLen = encryptedText.length()` bytes, `pLengthInt` the number of bytes to print.
The loop bound `messageLen` is the length of the text, not the number of bytes. -/
def decryptCommand (encryptedText : List Char) (cipherValues heap keyMem keyValues
    out0 : List Nat) (pLengthInt : Nat) : List Nat :=
  let encryptedMessage := storeBytes heap 0 (cipherValues.map fun c => c % 256)
  let key := readKey keyMem keyValues
  let expandedKey := KeyExpansion key
  let messageLen := encryptedText.length
  let decryptedMessage := decryptBlocks encryptedMessage expandedKey messageLen out0
  (List.range pLengthInt).map fun i => decryptedMessage.getD i 0

/-! ## The forward pipeline as the specification words it -/

/-- Round key `r` of an expanded key: its bytes `[16r, 16r + 16)`. -/
def roundKey (expandedKey : List Nat) (r : Nat) : List Nat :=
  (expandedKey.drop (16 * r)).take 16

/-- The forward pipeline of section 4.3 of the specification, step by step:
AddRoundKey with round key 0; for `r = 1..9` SubBytes, ShiftRows, MixColumns,
AddRoundKey with round key `r`; then SubBytes, ShiftRows, AddRoundKey with round
key 10. -/
def specEncrypt (block expandedKey : List Nat) : List Nat :=
  let st := AddRoundKey block (roundKey expandedKey 0)
  let st := [1, 2, 3, 4, 5, 6, 7, 8, 9].foldl
    (fun st r => AddRoundKey (MixColumns (ShiftRows (SubBytes st))) (roundKey expandedKey r)) st
  AddRoundKey (ShiftRows (SubBytes st)) (roundKey expandedKey 10)

/-- The offsets into `expandedKey` of the round keys `AESEncrypt` passes to
`AddRoundKey`, in call order: `expandedKey`, `expandedKey + 16 * (i + 1)` for
`i = 0..8`, `expandedKey + 160`. -/
def encryptKeyOffsets : List Nat :=
  [0] ++ (List.range 9).map (fun i => 16 * (i + 1)) ++ [160]

/-! ## The inverse pipeline and the round steps as the specification words them -/

/-- The inverse pipeline of section 4.4 of the specification, step by step:
AddRoundKey with round key 10, inverse ShiftRows, inverse SubBytes; for `r = 9` down
to `1` AddRoundKey with round key `r`, InverseMixColumns, inverse ShiftRows, inverse
SubBytes; then AddRoundKey with round key 0. -/
def specDecrypt (block expandedKey : List Nat) : List Nat :=
  let st := SubBytesInverse (ShiftRowsInverse (AddRoundKey block (roundKey expandedKey 10)))
  let st := [9, 8, 7, 6, 5, 4, 3, 2, 1].foldl
    (fun st r => SubBytesInverse (ShiftRowsInverse (InverseMixColumns
      (AddRoundKey st (roundKey expandedKey r))))) st
  AddRoundKey st (roundKey expandedKey 0)

/-- Bytewise XOR of a state with a round key, as the specification words AddRoundKey. -/
def xorBytes (state roundKey : List Nat) : List Nat :=
  List.zipWith (fun a k => a ^^^ k) state roundKey

/-- Doubling in GF(2^8): multiplication by `x`, reduced modulo
`x^8 + x^4 + x^3 + x + 1` (0x11b) when the degree reaches 8. -/
def xtime (a : Nat) : Nat :=
  if 2 * a < 256 then 2 * a else (2 * a) ^^^ 0x11b

/-- Shift-and-add multiplication over GF(2), `n` bits of the second factor. -/
def gfMulBits : Nat → Nat → Nat → Nat
  | 0, _, _ => 0
  | n + 1, a, b => (if b % 2 = 1 then a else 0) ^^^ gfMulBits n (xtime a) (b / 2)

/-- Multiplication in GF(2^8) modulo `x^8 + x^4 + x^3 + x + 1`: the XOR, over the bits
`i` of `b`, of `a` doubled `i` times. -/
def gfMul (a b : Nat) : Nat :=
  gfMulBits 8 a b

/-- The MixColumns column transform as the specification words it: `[c0, c1, c2, c3]`
becomes `[2*c0 + 3*c1 + c2 + c3, c0 + 2*c1 + 3*c2 + c3, c0 + c1 + 2*c2 + 3*c3,
3*c0 + c1 + c2 + 2*c3]`, with `+` XOR and `*` multiplication in GF(2^8). -/
def specMixColumn (c0 c1 c2 c3 : Nat) : List Nat :=
  [gfMul c0 2 ^^^ gfMul c1 3 ^^^ c2 ^^^ c3,
   c0 ^^^ gfMul c1 2 ^^^ gfMul c2 3 ^^^ c3,
   c0 ^^^ c1 ^^^ gfMul c2 2 ^^^ gfMul c3 3,
   gfMul c0 3 ^^^ c1 ^^^ c2 ^^^ gfMul c3 2]

/-- Entry `(i, j)` of the circulant 4x4 matrix with first row `row`. -/
def circulant (row : List Nat) (i j : Nat) : Nat :=
  row.getD ((j + 4 - i) % 4) 0

/-- Entry `(i, j)` of the product of two 4x4 matrices over GF(2^8). -/
def gfMatMul (A B : Nat → Nat → Nat) (i j : Nat) : Nat :=
  gfMul (A i 0) (B 0 j) ^^^ gfMul (A i 1) (B 1 j) ^^^ gfMul (A i 2) (B 2 j)
    ^^^ gfMul (A i 3) (B 3 j)

/-! ## Auxiliary definitions for the proofs -/

/-- A buffer of bytes: every entry is below 256. -/
def Bytes (l : List Nat) : Prop := ∀ b ∈ l, b < 256

instance : DecidablePred Bytes :=
  fun l => inferInstanceAs (Decidable (∀ b ∈ l, b < 256))

/-- The first sixteen bytes at a pointer, as the block functions copy them. -/
def first16 (p : List Nat) : List Nat :=
  (List.range 16).map fun i => p.getD i 0

/-- The GF(2)-linear byte map with images `v[0], ..., v[7]` of the bits 1, 2, ..., 128:
the XOR of the `v[k]` over the set bits `k` of `b`. -/
def bitMix (v : List Nat) (b : Nat) : Nat :=
  (if b.testBit 0 then v.getD 0 0 else 0) ^^^ (if b.testBit 1 then v.getD 1 0 else 0)
    ^^^ (if b.testBit 2 then v.getD 2 0 else 0) ^^^ (if b.testBit 3 then v.getD 3 0 else 0)
    ^^^ (if b.testBit 4 then v.getD 4 0 else 0) ^^^ (if b.testBit 5 then v.getD 5 0 else 0)
    ^^^ (if b.testBit 6 then v.getD 6 0 else 0) ^^^ (if b.testBit 7 then v.getD 7 0 else 0)

/-- Images of the bits 1, 2, ..., 128 under multiplication by 2 in GF(2^8). -/
def bits2 : List Nat := [0x02, 0x04, 0x08, 0x10, 0x20, 0x40, 0x80, 0x1b]

/-- Images of the bits under multiplication by 3. -/
def bits3 : List Nat := [0x03, 0x06, 0x0c, 0x18, 0x30, 0x60, 0xc0, 0x9b]

/-- Images of the bits under multiplication by 9. -/
def bits9 : List Nat := [0x09, 0x12, 0x24, 0x48, 0x90, 0x3b, 0x76, 0xec]

/-- Images of the bits under multiplication by 11. -/
def bits11 : List Nat := [0x0b, 0x16, 0x2c, 0x58, 0xb0, 0x7b, 0xf6, 0xf7]

/-- Images of the bits under multiplication by 13. -/
def bits13 : List Nat := [0x0d, 0x1a, 0x34, 0x68, 0xd0, 0xbb, 0x6d, 0xda]

/-- Images of the bits under multiplication by 14. -/
def bits14 : List Nat := [0x0e, 0x1c, 0x38, 0x70, 0xe0, 0xdb, 0xad, 0x41]

/-- Check `p i v` for every entry `v` of a table, `i` being its index counted from
the given start. -/
def checkFrom (p : Nat → Nat → Bool) : Nat → List Nat → Bool
  | _, [] => true
  | i, v :: vs => p i v && checkFrom p (i + 1) vs

/-! # Theorems -/

/-! ## Facts about buffers -/

theorem checkFrom_spec (p : Nat → Nat → Bool) :
    ∀ (l : List Nat) (i : Nat), checkFrom p i l = true →
      ∀ k, k < l.length → p (i + k) (l.getD k 0) = true := by
  intro l
  induction l with
  | nil => intro i _ k hk; simp at hk
  | cons v vs ih =>
    intro i h k hk
    simp only [checkFrom, Bool.and_eq_true] at h
    cases k with
    | zero => simpa using h.1
    | succ k =>
      have := ih (i + 1) h.2 k (by simpa using hk)
      simpa [Nat.add_assoc, Nat.add_comm 1 k] using this

theorem getD_lt_of_all (t : List Nat) (h : t.all (fun v => decide (v < 256)) = true)
    (b : Nat) : t.getD b 0 < 256 := by
  rw [List.all_eq_true] at h
  by_cases hb : b < t.length
  · rw [List.getD_eq_getElem _ _ hb]
    simpa using h _ (List.getElem_mem hb)
  · rw [List.getD_eq_default _ _ (by omega)]
    omega

theorem s_lt (b : Nat) : s.getD b 0 < 256 := getD_lt_of_all s (by decide!) b
theorem inv_s_lt (b : Nat) : inv_s.getD b 0 < 256 := getD_lt_of_all inv_s (by decide!) b
theorem mul2_lt (b : Nat) : mul2.getD b 0 < 256 := getD_lt_of_all mul2 (by decide!) b
theorem mul3_lt (b : Nat) : mul3.getD b 0 < 256 := getD_lt_of_all mul3 (by decide!) b
theorem mul9_lt (b : Nat) : mul9.getD b 0 < 256 := getD_lt_of_all mul9 (by decide!) b
theorem mul11_lt (b : Nat) : mul11.getD b 0 < 256 := getD_lt_of_all mul11 (by decide!) b
theorem mul13_lt (b : Nat) : mul13.getD b 0 < 256 := getD_lt_of_all mul13 (by decide!) b
theorem mul14_lt (b : Nat) : mul14.getD b 0 < 256 := getD_lt_of_all mul14 (by decide!) b

theorem inv_s_s (b : Nat) (hb : b < 256) : inv_s.getD (s.getD b 0) 0 = b := by
  have h := checkFrom_spec (fun i v => inv_s.getD v 0 == i) s 0 (by decide!) b (by simpa using hb)
  simpa using h

theorem s_inv_s (b : Nat) (hb : b < 256) : s.getD (inv_s.getD b 0) 0 = b := by
  have h := checkFrom_spec (fun i v => s.getD v 0 == i) inv_s 0 (by decide!) b (by simpa using hb)
  simpa using h

theorem mul2_bits (b : Nat) (hb : b < 256) : mul2.getD b 0 = bitMix bits2 b := by
  have h := checkFrom_spec (fun i v => v == bitMix bits2 i) mul2 0 (by decide!) b (by simpa using hb)
  simpa using h

theorem mul3_bits (b : Nat) (hb : b < 256) : mul3.getD b 0 = bitMix bits3 b := by
  have h := checkFrom_spec (fun i v => v == bitMix bits3 i) mul3 0 (by decide!) b (by simpa using hb)
  simpa using h

theorem mul9_bits (b : Nat) (hb : b < 256) : mul9.getD b 0 = bitMix bits9 b := by
  have h := checkFrom_spec (fun i v => v == bitMix bits9 i) mul9 0 (by decide!) b (by simpa using hb)
  simpa using h

theorem mul11_bits (b : Nat) (hb : b < 256) : mul11.getD b 0 = bitMix bits11 b := by
  have h := checkFrom_spec (fun i v => v == bitMix bits11 i) mul11 0 (by decide!) b (by simpa using hb)
  simpa using h

theorem mul13_bits (b : Nat) (hb : b < 256) : mul13.getD b 0 = bitMix bits13 b := by
  have h := checkFrom_spec (fun i v => v == bitMix bits13 i) mul13 0 (by decide!) b (by simpa using hb)
  simpa using h

theorem mul14_bits (b : Nat) (hb : b < 256) : mul14.getD b 0 = bitMix bits14 b := by
  have h := checkFrom_spec (fun i v => v == bitMix bits14 i) mul14 0 (by decide!) b (by simpa using hb)
  simpa using h

theorem ite_bxor (p q : Bool) (c : Nat) :
    (if (p ^^ q) = true then c else 0) = (if p = true then c else 0) ^^^ (if q = true then c else 0) := by
  cases p <;> cases q <;> simp

theorem bitMix_xor (v : List Nat) (x y : Nat) :
    bitMix v (x ^^^ y) = bitMix v x ^^^ bitMix v y := by
  unfold bitMix
  simp only [Nat.testBit_xor, ite_bxor]
  ac_rfl

theorem xor_lt (x y : Nat) (hx : x < 256) (hy : y < 256) : x ^^^ y < 256 :=
  Nat.xor_lt_two_pow (n := 8) hx hy

theorem bitMix_xor4 (v : List Nat) (w x y z : Nat) :
    bitMix v (w ^^^ x ^^^ y ^^^ z) = bitMix v w ^^^ bitMix v x ^^^ bitMix v y ^^^ bitMix v z := by
  rw [bitMix_xor, bitMix_xor, bitMix_xor]

/-! ## Linear byte maps are decided by their values at the eight bits -/

theorem bitMix_basis : ∀ x, x < 256 → bitMix [1, 2, 4, 8, 16, 32, 64, 128] x = x := by
  decide!

theorem bitMix_zero (x : Nat) : bitMix [0, 0, 0, 0, 0, 0, 0, 0] x = 0 := by
  have e : bitMix [0, 0, 0, 0, 0, 0, 0, 0] x =
      (if x.testBit 0 then 0 else 0) ^^^ (if x.testBit 1 then 0 else 0)
        ^^^ (if x.testBit 2 then 0 else 0) ^^^ (if x.testBit 3 then 0 else 0)
        ^^^ (if x.testBit 4 then 0 else 0) ^^^ (if x.testBit 5 then 0 else 0)
        ^^^ (if x.testBit 6 then 0 else 0) ^^^ (if x.testBit 7 then 0 else 0) := rfl
  rw [e]
  simp

theorem additive_eq (f : Nat → Nat) (hf : ∀ x y, f (x ^^^ y) = f x ^^^ f y) (v : List Nat)
    (hv : [f 1, f 2, f 4, f 8, f 16, f 32, f 64, f 128] = v) (x : Nat) (hx : x < 256) :
    f x = bitMix v x := by
  have h0 : f 0 = 0 := by
    have := hf 0 0
    simpa using this
  have hite : ∀ (c : Bool) (a : Nat),
      f (if c = true then a else 0) = if c = true then f a else 0 := by
    intro c a
    cases c <;> simp [h0]
  have e1 : bitMix [1, 2, 4, 8, 16, 32, 64, 128] x =
      (if x.testBit 0 then 1 else 0) ^^^ (if x.testBit 1 then 2 else 0)
        ^^^ (if x.testBit 2 then 4 else 0) ^^^ (if x.testBit 3 then 8 else 0)
        ^^^ (if x.testBit 4 then 16 else 0) ^^^ (if x.testBit 5 then 32 else 0)
        ^^^ (if x.testBit 6 then 64 else 0) ^^^ (if x.testBit 7 then 128 else 0) := rfl
  have e2 : bitMix [f 1, f 2, f 4, f 8, f 16, f 32, f 64, f 128] x =
      (if x.testBit 0 then f 1 else 0) ^^^ (if x.testBit 1 then f 2 else 0)
        ^^^ (if x.testBit 2 then f 4 else 0) ^^^ (if x.testBit 3 then f 8 else 0)
        ^^^ (if x.testBit 4 then f 16 else 0) ^^^ (if x.testBit 5 then f 32 else 0)
        ^^^ (if x.testBit 6 then f 64 else 0) ^^^ (if x.testBit 7 then f 128 else 0) := rfl
  rw [← hv, e2]
  conv_lhs => rw [← bitMix_basis x hx, e1]
  simp only [hf, hite]

theorem xor4_lt (w x y z : Nat) (hw : w < 256) (hx : x < 256) (hy : y < 256) (hz : z < 256) :
    w ^^^ x ^^^ y ^^^ z < 256 :=
  xor_lt _ _ (xor_lt _ _ (xor_lt _ _ hw hx) hy) hz

theorem imc_0_a (x : Nat) (hx : x < 256) :
    bitMix bits14 (bitMix bits2 x) ^^^ bitMix bits11 x ^^^ bitMix bits13 x ^^^ bitMix bits9 (bitMix bits3 x) = x := by
  have h := additive_eq (fun x => bitMix bits14 (bitMix bits2 x) ^^^ bitMix bits11 x ^^^ bitMix bits13 x ^^^ bitMix bits9 (bitMix bits3 x))
    (by intro x y; simp only [bitMix_xor]; ac_rfl) [1, 2, 4, 8, 16, 32, 64, 128] (by decide!) x hx
  rw [bitMix_basis x hx] at h
  exact h

theorem imc_0_b (x : Nat) (hx : x < 256) :
    bitMix bits14 (bitMix bits3 x) ^^^ bitMix bits11 (bitMix bits2 x) ^^^ bitMix bits13 x ^^^ bitMix bits9 x = 0 := by
  have h := additive_eq (fun x => bitMix bits14 (bitMix bits3 x) ^^^ bitMix bits11 (bitMix bits2 x) ^^^ bitMix bits13 x ^^^ bitMix bits9 x)
    (by intro x y; simp only [bitMix_xor]; ac_rfl) [0, 0, 0, 0, 0, 0, 0, 0] (by decide!) x hx
  rw [bitMix_zero x] at h
  exact h

theorem imc_0_c (x : Nat) (hx : x < 256) :
    bitMix bits14 x ^^^ bitMix bits11 (bitMix bits3 x) ^^^ bitMix bits13 (bitMix bits2 x) ^^^ bitMix bits9 x = 0 := by
  have h := additive_eq (fun x => bitMix bits14 x ^^^ bitMix bits11 (bitMix bits3 x) ^^^ bitMix bits13 (bitMix bits2 x) ^^^ bitMix bits9 x)
    (by intro x y; simp only [bitMix_xor]; ac_rfl) [0, 0, 0, 0, 0, 0, 0, 0] (by decide!) x hx
  rw [bitMix_zero x] at h
  exact h

theorem imc_0_d (x : Nat) (hx : x < 256) :
    bitMix bits14 x ^^^ bitMix bits11 x ^^^ bitMix bits13 (bitMix bits3 x) ^^^ bitMix bits9 (bitMix bits2 x) = 0 := by
  have h := additive_eq (fun x => bitMix bits14 x ^^^ bitMix bits11 x ^^^ bitMix bits13 (bitMix bits3 x) ^^^ bitMix bits9 (bitMix bits2 x))
    (by intro x y; simp only [bitMix_xor]; ac_rfl) [0, 0, 0, 0, 0, 0, 0, 0] (by decide!) x hx
  rw [bitMix_zero x] at h
  exact h

theorem imc_1_a (x : Nat) (hx : x < 256) :
    bitMix bits9 (bitMix bits2 x) ^^^ bitMix bits14 x ^^^ bitMix bits11 x ^^^ bitMix bits13 (bitMix bits3 x) = 0 := by
  have h := additive_eq (fun x => bitMix bits9 (bitMix bits2 x) ^^^ bitMix bits14 x ^^^ bitMix bits11 x ^^^ bitMix bits13 (bitMix bits3 x))
    (by intro x y; simp only [bitMix_xor]; ac_rfl) [0, 0, 0, 0, 0, 0, 0, 0] (by decide!) x hx
  rw [bitMix_zero x] at h
  exact h

theorem imc_1_b (x : Nat) (hx : x < 256) :
    bitMix bits9 (bitMix bits3 x) ^^^ bitMix bits14 (bitMix bits2 x) ^^^ bitMix bits11 x ^^^ bitMix bits13 x = x := by
  have h := additive_eq (fun x => bitMix bits9 (bitMix bits3 x) ^^^ bitMix bits14 (bitMix bits2 x) ^^^ bitMix bits11 x ^^^ bitMix bits13 x)
    (by intro x y; simp only [bitMix_xor]; ac_rfl) [1, 2, 4, 8, 16, 32, 64, 128] (by decide!) x hx
  rw [bitMix_basis x hx] at h
  exact h

theorem imc_1_c (x : Nat) (hx : x < 256) :
    bitMix bits9 x ^^^ bitMix bits14 (bitMix bits3 x) ^^^ bitMix bits11 (bitMix bits2 x) ^^^ bitMix bits13 x = 0 := by
  have h := additive_eq (fun x => bitMix bits9 x ^^^ bitMix bits14 (bitMix bits3 x) ^^^ bitMix bits11 (bitMix bits2 x) ^^^ bitMix bits13 x)
    (by intro x y; simp only [bitMix_xor]; ac_rfl) [0, 0, 0, 0, 0, 0, 0, 0] (by decide!) x hx
  rw [bitMix_zero x] at h
  exact h

theorem imc_1_d (x : Nat) (hx : x < 256) :
    bitMix bits9 x ^^^ bitMix bits14 x ^^^ bitMix bits11 (bitMix bits3 x) ^^^ bitMix bits13 (bitMix bits2 x) = 0 := by
  have h := additive_eq (fun x => bitMix bits9 x ^^^ bitMix bits14 x ^^^ bitMix bits11 (bitMix bits3 x) ^^^ bitMix bits13 (bitMix bits2 x))
    (by intro x y; simp only [bitMix_xor]; ac_rfl) [0, 0, 0, 0, 0, 0, 0, 0] (by decide!) x hx
  rw [bitMix_zero x] at h
  exact h

theorem imc_2_a (x : Nat) (hx : x < 256) :
    bitMix bits13 (bitMix bits2 x) ^^^ bitMix bits9 x ^^^ bitMix bits14 x ^^^ bitMix bits11 (bitMix bits3 x) = 0 := by
  have h := additive_eq (fun x => bitMix bits13 (bitMix bits2 x) ^^^ bitMix bits9 x ^^^ bitMix bits14 x ^^^ bitMix bits11 (bitMix bits3 x))
    (by intro x y; simp only [bitMix_xor]; ac_rfl) [0, 0, 0, 0, 0, 0, 0, 0] (by decide!) x hx
  rw [bitMix_zero x] at h
  exact h

theorem imc_2_b (x : Nat) (hx : x < 256) :
    bitMix bits13 (bitMix bits3 x) ^^^ bitMix bits9 (bitMix bits2 x) ^^^ bitMix bits14 x ^^^ bitMix bits11 x = 0 := by
  have h := additive_eq (fun x => bitMix bits13 (bitMix bits3 x) ^^^ bitMix bits9 (bitMix bits2 x) ^^^ bitMix bits14 x ^^^ bitMix bits11 x)
    (by intro x y; simp only [bitMix_xor]; ac_rfl) [0, 0, 0, 0, 0, 0, 0, 0] (by decide!) x hx
  rw [bitMix_zero x] at h
  exact h

theorem imc_2_c (x : Nat) (hx : x < 256) :
    bitMix bits13 x ^^^ bitMix bits9 (bitMix bits3 x) ^^^ bitMix bits14 (bitMix bits2 x) ^^^ bitMix bits11 x = x := by
  have h := additive_eq (fun x => bitMix bits13 x ^^^ bitMix bits9 (bitMix bits3 x) ^^^ bitMix bits14 (bitMix bits2 x) ^^^ bitMix bits11 x)
    (by intro x y; simp only [bitMix_xor]; ac_rfl) [1, 2, 4, 8, 16, 32, 64, 128] (by decide!) x hx
  rw [bitMix_basis x hx] at h
  exact h

theorem imc_2_d (x : Nat) (hx : x < 256) :
    bitMix bits13 x ^^^ bitMix bits9 x ^^^ bitMix bits14 (bitMix bits3 x) ^^^ bitMix bits11 (bitMix bits2 x) = 0 := by
  have h := additive_eq (fun x => bitMix bits13 x ^^^ bitMix bits9 x ^^^ bitMix bits14 (bitMix bits3 x) ^^^ bitMix bits11 (bitMix bits2 x))
    (by intro x y; simp only [bitMix_xor]; ac_rfl) [0, 0, 0, 0, 0, 0, 0, 0] (by decide!) x hx
  rw [bitMix_zero x] at h
  exact h

theorem imc_3_a (x : Nat) (hx : x < 256) :
    bitMix bits11 (bitMix bits2 x) ^^^ bitMix bits13 x ^^^ bitMix bits9 x ^^^ bitMix bits14 (bitMix bits3 x) = 0 := by
  have h := additive_eq (fun x => bitMix bits11 (bitMix bits2 x) ^^^ bitMix bits13 x ^^^ bitMix bits9 x ^^^ bitMix bits14 (bitMix bits3 x))
    (by intro x y; simp only [bitMix_xor]; ac_rfl) [0, 0, 0, 0, 0, 0, 0, 0] (by decide!) x hx
  rw [bitMix_zero x] at h
  exact h

theorem imc_3_b (x : Nat) (hx : x < 256) :
    bitMix bits11 (bitMix bits3 x) ^^^ bitMix bits13 (bitMix bits2 x) ^^^ bitMix bits9 x ^^^ bitMix bits14 x = 0 := by
  have h := additive_eq (fun x => bitMix bits11 (bitMix bits3 x) ^^^ bitMix bits13 (bitMix bits2 x) ^^^ bitMix bits9 x ^^^ bitMix bits14 x)
    (by intro x y; simp only [bitMix_xor]; ac_rfl) [0, 0, 0, 0, 0, 0, 0, 0] (by decide!) x hx
  rw [bitMix_zero x] at h
  exact h

theorem imc_3_c (x : Nat) (hx : x < 256) :
    bitMix bits11 x ^^^ bitMix bits13 (bitMix bits3 x) ^^^ bitMix bits9 (bitMix bits2 x) ^^^ bitMix bits14 x = 0 := by
  have h := additive_eq (fun x => bitMix bits11 x ^^^ bitMix bits13 (bitMix bits3 x) ^^^ bitMix bits9 (bitMix bits2 x) ^^^ bitMix bits14 x)
    (by intro x y; simp only [bitMix_xor]; ac_rfl) [0, 0, 0, 0, 0, 0, 0, 0] (by decide!) x hx
  rw [bitMix_zero x] at h
  exact h

theorem imc_3_d (x : Nat) (hx : x < 256) :
    bitMix bits11 x ^^^ bitMix bits13 x ^^^ bitMix bits9 (bitMix bits3 x) ^^^ bitMix bits14 (bitMix bits2 x) = x := by
  have h := additive_eq (fun x => bitMix bits11 x ^^^ bitMix bits13 x ^^^ bitMix bits9 (bitMix bits3 x) ^^^ bitMix bits14 (bitMix bits2 x))
    (by intro x y; simp only [bitMix_xor]; ac_rfl) [1, 2, 4, 8, 16, 32, 64, 128] (by decide!) x hx
  rw [bitMix_basis x hx] at h
  exact h

/-- InverseMixColumns after MixColumns, row 0 of a column. -/
theorem imc_row0 (a b c d : Nat) (ha : a < 256) (hb : b < 256) (hc : c < 256)
    (hd : d < 256) :
    mul14.getD (mul2.getD a 0 ^^^ mul3.getD b 0 ^^^ c ^^^ d) 0
      ^^^ mul11.getD (a ^^^ mul2.getD b 0 ^^^ mul3.getD c 0 ^^^ d) 0
      ^^^ mul13.getD (a ^^^ b ^^^ mul2.getD c 0 ^^^ mul3.getD d 0) 0
      ^^^ mul9.getD (mul3.getD a 0 ^^^ b ^^^ c ^^^ mul2.getD d 0) 0 = a := by
  have hm0 : mul2.getD a 0 ^^^ mul3.getD b 0 ^^^ c ^^^ d < 256 :=
    xor4_lt _ _ _ _ (mul2_lt a) (mul3_lt b) hc hd
  have hm1 : a ^^^ mul2.getD b 0 ^^^ mul3.getD c 0 ^^^ d < 256 :=
    xor4_lt _ _ _ _ ha (mul2_lt b) (mul3_lt c) hd
  have hm2 : a ^^^ b ^^^ mul2.getD c 0 ^^^ mul3.getD d 0 < 256 :=
    xor4_lt _ _ _ _ ha hb (mul2_lt c) (mul3_lt d)
  have hm3 : mul3.getD a 0 ^^^ b ^^^ c ^^^ mul2.getD d 0 < 256 :=
    xor4_lt _ _ _ _ (mul3_lt a) hb hc (mul2_lt d)
  rw [mul14_bits _ hm0, mul11_bits _ hm1, mul13_bits _ hm2, mul9_bits _ hm3]
  simp only [mul2_bits a ha, mul2_bits b hb, mul2_bits c hc, mul2_bits d hd, mul3_bits a ha, mul3_bits b hb, mul3_bits c hc, mul3_bits d hd, bitMix_xor4]
  calc _ = (bitMix bits14 (bitMix bits2 a) ^^^ bitMix bits11 a ^^^ bitMix bits13 a ^^^ bitMix bits9 (bitMix bits3 a))
        ^^^ (bitMix bits14 (bitMix bits3 b) ^^^ bitMix bits11 (bitMix bits2 b) ^^^ bitMix bits13 b ^^^ bitMix bits9 b)
        ^^^ (bitMix bits14 c ^^^ bitMix bits11 (bitMix bits3 c) ^^^ bitMix bits13 (bitMix bits2 c) ^^^ bitMix bits9 c)
        ^^^ (bitMix bits14 d ^^^ bitMix bits11 d ^^^ bitMix bits13 (bitMix bits3 d) ^^^ bitMix bits9 (bitMix bits2 d)) := by ac_rfl
    _ = a := by
      rw [imc_0_a a ha, imc_0_b b hb, imc_0_c c hc, imc_0_d d hd]
      simp

/-- InverseMixColumns after MixColumns, row 1 of a column. -/
theorem imc_row1 (a b c d : Nat) (ha : a < 256) (hb : b < 256) (hc : c < 256)
    (hd : d < 256) :
    mul9.getD (mul2.getD a 0 ^^^ mul3.getD b 0 ^^^ c ^^^ d) 0
      ^^^ mul14.getD (a ^^^ mul2.getD b 0 ^^^ mul3.getD c 0 ^^^ d) 0
      ^^^ mul11.getD (a ^^^ b ^^^ mul2.getD c 0 ^^^ mul3.getD d 0) 0
      ^^^ mul13.getD (mul3.getD a 0 ^^^ b ^^^ c ^^^ mul2.getD d 0) 0 = b := by
  have hm0 : mul2.getD a 0 ^^^ mul3.getD b 0 ^^^ c ^^^ d < 256 :=
    xor4_lt _ _ _ _ (mul2_lt a) (mul3_lt b) hc hd
  have hm1 : a ^^^ mul2.getD b 0 ^^^ mul3.getD c 0 ^^^ d < 256 :=
    xor4_lt _ _ _ _ ha (mul2_lt b) (mul3_lt c) hd
  have hm2 : a ^^^ b ^^^ mul2.getD c 0 ^^^ mul3.getD d 0 < 256 :=
    xor4_lt _ _ _ _ ha hb (mul2_lt c) (mul3_lt d)
  have hm3 : mul3.getD a 0 ^^^ b ^^^ c ^^^ mul2.getD d 0 < 256 :=
    xor4_lt _ _ _ _ (mul3_lt a) hb hc (mul2_lt d)
  rw [mul9_bits _ hm0, mul14_bits _ hm1, mul11_bits _ hm2, mul13_bits _ hm3]
  simp only [mul2_bits a ha, mul2_bits b hb, mul2_bits c hc, mul2_bits d hd, mul3_bits a ha, mul3_bits b hb, mul3_bits c hc, mul3_bits d hd, bitMix_xor4]
  calc _ = (bitMix bits9 (bitMix bits2 a) ^^^ bitMix bits14 a ^^^ bitMix bits11 a ^^^ bitMix bits13 (bitMix bits3 a))
        ^^^ (bitMix bits9 (bitMix bits3 b) ^^^ bitMix bits14 (bitMix bits2 b) ^^^ bitMix bits11 b ^^^ bitMix bits13 b)
        ^^^ (bitMix bits9 c ^^^ bitMix bits14 (bitMix bits3 c) ^^^ bitMix bits11 (bitMix bits2 c) ^^^ bitMix bits13 c)
        ^^^ (bitMix bits9 d ^^^ bitMix bits14 d ^^^ bitMix bits11 (bitMix bits3 d) ^^^ bitMix bits13 (bitMix bits2 d)) := by ac_rfl
    _ = b := by
      rw [imc_1_a a ha, imc_1_b b hb, imc_1_c c hc, imc_1_d d hd]
      simp

/-- InverseMixColumns after MixColumns, row 2 of a column. -/
theorem imc_row2 (a b c d : Nat) (ha : a < 256) (hb : b < 256) (hc : c < 256)
    (hd : d < 256) :
    mul13.getD (mul2.getD a 0 ^^^ mul3.getD b 0 ^^^ c ^^^ d) 0
      ^^^ mul9.getD (a ^^^ mul2.getD b 0 ^^^ mul3.getD c 0 ^^^ d) 0
      ^^^ mul14.getD (a ^^^ b ^^^ mul2.getD c 0 ^^^ mul3.getD d 0) 0
      ^^^ mul11.getD (mul3.getD a 0 ^^^ b ^^^ c ^^^ mul2.getD d 0) 0 = c := by
  have hm0 : mul2.getD a 0 ^^^ mul3.getD b 0 ^^^ c ^^^ d < 256 :=
    xor4_lt _ _ _ _ (mul2_lt a) (mul3_lt b) hc hd
  have hm1 : a ^^^ mul2.getD b 0 ^^^ mul3.getD c 0 ^^^ d < 256 :=
    xor4_lt _ _ _ _ ha (mul2_lt b) (mul3_lt c) hd
  have hm2 : a ^^^ b ^^^ mul2.getD c 0 ^^^ mul3.getD d 0 < 256 :=
    xor4_lt _ _ _ _ ha hb (mul2_lt c) (mul3_lt d)
  have hm3 : mul3.getD a 0 ^^^ b ^^^ c ^^^ mul2.getD d 0 < 256 :=
    xor4_lt _ _ _ _ (mul3_lt a) hb hc (mul2_lt d)
  rw [mul13_bits _ hm0, mul9_bits _ hm1, mul14_bits _ hm2, mul11_bits _ hm3]
  simp only [mul2_bits a ha, mul2_bits b hb, mul2_bits c hc, mul2_bits d hd, mul3_bits a ha, mul3_bits b hb, mul3_bits c hc, mul3_bits d hd, bitMix_xor4]
  calc _ = (bitMix bits13 (bitMix bits2 a) ^^^ bitMix bits9 a ^^^ bitMix bits14 a ^^^ bitMix bits11 (bitMix bits3 a))
        ^^^ (bitMix bits13 (bitMix bits3 b) ^^^ bitMix bits9 (bitMix bits2 b) ^^^ bitMix bits14 b ^^^ bitMix bits11 b)
        ^^^ (bitMix bits13 c ^^^ bitMix bits9 (bitMix bits3 c) ^^^ bitMix bits14 (bitMix bits2 c) ^^^ bitMix bits11 c)
        ^^^ (bitMix bits13 d ^^^ bitMix bits9 d ^^^ bitMix bits14 (bitMix bits3 d) ^^^ bitMix bits11 (bitMix bits2 d)) := by ac_rfl
    _ = c := by
      rw [imc_2_a a ha, imc_2_b b hb, imc_2_c c hc, imc_2_d d hd]
      simp

/-- InverseMixColumns after MixColumns, row 3 of a column. -/
theorem imc_row3 (a b c d : Nat) (ha : a < 256) (hb : b < 256) (hc : c < 256)
    (hd : d < 256) :
    mul11.getD (mul2.getD a 0 ^^^ mul3.getD b 0 ^^^ c ^^^ d) 0
      ^^^ mul13.getD (a ^^^ mul2.getD b 0 ^^^ mul3.getD c 0 ^^^ d) 0
      ^^^ mul9.getD (a ^^^ b ^^^ mul2.getD c 0 ^^^ mul3.getD d 0) 0
      ^^^ mul14.getD (mul3.getD a 0 ^^^ b ^^^ c ^^^ mul2.getD d 0) 0 = d := by
  have hm0 : mul2.getD a 0 ^^^ mul3.getD b 0 ^^^ c ^^^ d < 256 :=
    xor4_lt _ _ _ _ (mul2_lt a) (mul3_lt b) hc hd
  have hm1 : a ^^^ mul2.getD b 0 ^^^ mul3.getD c 0 ^^^ d < 256 :=
    xor4_lt _ _ _ _ ha (mul2_lt b) (mul3_lt c) hd
  have hm2 : a ^^^ b ^^^ mul2.getD c 0 ^^^ mul3.getD d 0 < 256 :=
    xor4_lt _ _ _ _ ha hb (mul2_lt c) (mul3_lt d)
  have hm3 : mul3.getD a 0 ^^^ b ^^^ c ^^^ mul2.getD d 0 < 256 :=
    xor4_lt _ _ _ _ (mul3_lt a) hb hc (mul2_lt d)
  rw [mul11_bits _ hm0, mul13_bits _ hm1, mul9_bits _ hm2, mul14_bits _ hm3]
  simp only [mul2_bits a ha, mul2_bits b hb, mul2_bits c hc, mul2_bits d hd, mul3_bits a ha, mul3_bits b hb, mul3_bits c hc, mul3_bits d hd, bitMix_xor4]
  calc _ = (bitMix bits11 (bitMix bits2 a) ^^^ bitMix bits13 a ^^^ bitMix bits9 a ^^^ bitMix bits14 (bitMix bits3 a))
        ^^^ (bitMix bits11 (bitMix bits3 b) ^^^ bitMix bits13 (bitMix bits2 b) ^^^ bitMix bits9 b ^^^ bitMix bits14 b)
        ^^^ (bitMix bits11 c ^^^ bitMix bits13 (bitMix bits3 c) ^^^ bitMix bits9 (bitMix bits2 c) ^^^ bitMix bits14 c)
        ^^^ (bitMix bits11 d ^^^ bitMix bits13 d ^^^ bitMix bits9 (bitMix bits3 d) ^^^ bitMix bits14 (bitMix bits2 d)) := by ac_rfl
    _ = d := by
      rw [imc_3_a a ha, imc_3_b b hb, imc_3_c c hc, imc_3_d d hd]
      simp
/-! ## Sixteen-byte blocks -/

theorem list16 (l : List Nat) (h : l.length = 16) :
    ∃ a0 a1 a2 a3 a4 a5 a6 a7 a8 a9 a10 a11 a12 a13 a14 a15,
      l = [a0, a1, a2, a3, a4, a5, a6, a7, a8, a9, a10, a11, a12, a13, a14, a15] := by
  match l, h with
  | [a0, a1, a2, a3, a4, a5, a6, a7, a8, a9, a10, a11, a12, a13, a14, a15], _ =>
    exact ⟨a0, a1, a2, a3, a4, a5, a6, a7, a8, a9, a10, a11, a12, a13, a14, a15, rfl⟩

theorem getD_lt_of_bytes (l : List Nat) (h : Bytes l) (i : Nat) : l.getD i 0 < 256 := by
  by_cases hi : i < l.length
  · rw [List.getD_eq_getElem _ _ hi]
    exact h _ (List.getElem_mem hi)
  · rw [List.getD_eq_default _ _ (by omega)]
    omega

theorem bytes_drop (l : List Nat) (h : Bytes l) (k : Nat) : Bytes (l.drop k) :=
  fun b hb => h b (List.mem_of_mem_drop hb)

theorem bytes_append (l₁ l₂ : List Nat) (h₁ : Bytes l₁) (h₂ : Bytes l₂) : Bytes (l₁ ++ l₂) := by
  intro b hb
  rcases List.mem_append.1 hb with h | h
  · exact h₁ b h
  · exact h₂ b h

theorem bytes_map_range (n : Nat) (f : Nat → Nat) (h : ∀ i, f i < 256) :
    Bytes ((List.range n).map f) := by
  intro b hb
  obtain ⟨i, _, rfl⟩ := List.mem_map.1 hb
  exact h i

theorem first16_length (p : List Nat) : (first16 p).length = 16 := by
  simp [first16]

theorem first16_bytes (p : List Nat) (h : Bytes p) : Bytes (first16 p) :=
  bytes_map_range 16 _ (getD_lt_of_bytes p h)

theorem first16_of_length (p : List Nat) (h : p.length = 16) : first16 p = p := by
  obtain ⟨a0, a1, a2, a3, a4, a5, a6, a7, a8, a9, a10, a11, a12, a13, a14, a15, rfl⟩ :=
    list16 p h
  rfl

theorem first16_getD (p : List Nat) (i : Nat) (hi : i < 16) :
    (first16 p).getD i 0 = p.getD i 0 := by
  unfold first16
  rw [List.getD_eq_getElem _ _ (by simpa using hi)]
  simp

theorem AddRoundKey_length (st key : List Nat) : (AddRoundKey st key).length = 16 := by
  simp [AddRoundKey]

theorem AddRoundKey_bytes (st key : List Nat) (hs : Bytes st) (hk : Bytes key) :
    Bytes (AddRoundKey st key) :=
  bytes_map_range 16 _ fun i =>
    xor_lt _ _ (getD_lt_of_bytes st hs i) (getD_lt_of_bytes key hk i)

theorem SubBytes_length (st : List Nat) : (SubBytes st).length = 16 := by
  simp [SubBytes]

theorem SubBytes_bytes (st : List Nat) : Bytes (SubBytes st) :=
  bytes_map_range 16 _ fun _ => s_lt _

theorem SubBytesInverse_length (st : List Nat) : (SubBytesInverse st).length = 16 := by
  simp [SubBytesInverse]

theorem SubBytesInverse_bytes (st : List Nat) : Bytes (SubBytesInverse st) :=
  bytes_map_range 16 _ fun _ => inv_s_lt _

theorem ShiftRows_length (st : List Nat) : (ShiftRows st).length = 16 := rfl

theorem ShiftRows_bytes (st : List Nat) (h : Bytes st) : Bytes (ShiftRows st) := by
  intro b hb
  simp only [ShiftRows, List.mem_cons, List.mem_singleton, List.not_mem_nil, or_false] at hb
  rcases hb with h | h | h | h | h | h | h | h | h | h | h | h | h | h | h | h <;>
    (rw [h]; exact getD_lt_of_bytes st ‹Bytes st› _)

theorem ShiftRowsInverse_length (st : List Nat) : (ShiftRowsInverse st).length = 16 := rfl

theorem ShiftRowsInverse_bytes (st : List Nat) (h : Bytes st) : Bytes (ShiftRowsInverse st) := by
  intro b hb
  simp only [ShiftRowsInverse, List.mem_cons, List.mem_singleton, List.not_mem_nil,
    or_false] at hb
  rcases hb with h | h | h | h | h | h | h | h | h | h | h | h | h | h | h | h <;>
    (rw [h]; exact getD_lt_of_bytes st ‹Bytes st› _)

theorem mixColumn_bytes (st : List Nat) (h : Bytes st) (j : Nat) : Bytes (mixColumn st j) := by
  have g := getD_lt_of_bytes st h
  intro b hb
  simp only [mixColumn, List.mem_cons, List.mem_singleton, List.not_mem_nil, or_false] at hb
  rcases hb with e | e | e | e <;> rw [e]
  · exact xor4_lt _ _ _ _ (mul2_lt _) (mul3_lt _) (g _) (g _)
  · exact xor4_lt _ _ _ _ (g _) (mul2_lt _) (mul3_lt _) (g _)
  · exact xor4_lt _ _ _ _ (g _) (g _) (mul2_lt _) (mul3_lt _)
  · exact xor4_lt _ _ _ _ (mul3_lt _) (g _) (g _) (mul2_lt _)

theorem MixColumns_length (st : List Nat) : (MixColumns st).length = 16 := rfl

theorem MixColumns_bytes (st : List Nat) (h : Bytes st) : Bytes (MixColumns st) :=
  bytes_append _ _ (bytes_append _ _ (bytes_append _ _ (mixColumn_bytes st h 0)
    (mixColumn_bytes st h 4)) (mixColumn_bytes st h 8)) (mixColumn_bytes st h 12)

theorem inverseMixColumn_bytes (st : List Nat) (j : Nat) : Bytes (inverseMixColumn st j) := by
  intro b hb
  simp only [inverseMixColumn, List.mem_cons, List.mem_singleton, List.not_mem_nil,
    or_false] at hb
  rcases hb with e | e | e | e <;> rw [e]
  · exact xor4_lt _ _ _ _ (mul14_lt _) (mul11_lt _) (mul13_lt _) (mul9_lt _)
  · exact xor4_lt _ _ _ _ (mul9_lt _) (mul14_lt _) (mul11_lt _) (mul13_lt _)
  · exact xor4_lt _ _ _ _ (mul13_lt _) (mul9_lt _) (mul14_lt _) (mul11_lt _)
  · exact xor4_lt _ _ _ _ (mul11_lt _) (mul13_lt _) (mul9_lt _) (mul14_lt _)

theorem InverseMixColumns_length (st : List Nat) : (InverseMixColumns st).length = 16 := rfl

theorem InverseMixColumns_bytes (st : List Nat) : Bytes (InverseMixColumns st) :=
  bytes_append _ _ (bytes_append _ _ (bytes_append _ _ (inverseMixColumn_bytes st 0)
    (inverseMixColumn_bytes st 4)) (inverseMixColumn_bytes st 8)) (inverseMixColumn_bytes st 12)

/-! ## Each step is undone by its inverse -/

theorem SubRoundKey_AddRoundKey (st key : List Nat) (h : st.length = 16) :
    SubRoundKey (AddRoundKey st key) key = st := by
  obtain ⟨a0, a1, a2, a3, a4, a5, a6, a7, a8, a9, a10, a11, a12, a13, a14, a15, rfl⟩ :=
    list16 st h
  have e : SubRoundKey (AddRoundKey
      [a0, a1, a2, a3, a4, a5, a6, a7, a8, a9, a10, a11, a12, a13, a14, a15] key) key =
      [a0 ^^^ key.getD 0 0 ^^^ key.getD 0 0, a1 ^^^ key.getD 1 0 ^^^ key.getD 1 0,
       a2 ^^^ key.getD 2 0 ^^^ key.getD 2 0, a3 ^^^ key.getD 3 0 ^^^ key.getD 3 0,
       a4 ^^^ key.getD 4 0 ^^^ key.getD 4 0, a5 ^^^ key.getD 5 0 ^^^ key.getD 5 0,
       a6 ^^^ key.getD 6 0 ^^^ key.getD 6 0, a7 ^^^ key.getD 7 0 ^^^ key.getD 7 0,
       a8 ^^^ key.getD 8 0 ^^^ key.getD 8 0, a9 ^^^ key.getD 9 0 ^^^ key.getD 9 0,
       a10 ^^^ key.getD 10 0 ^^^ key.getD 10 0, a11 ^^^ key.getD 11 0 ^^^ key.getD 11 0,
       a12 ^^^ key.getD 12 0 ^^^ key.getD 12 0, a13 ^^^ key.getD 13 0 ^^^ key.getD 13 0,
       a14 ^^^ key.getD 14 0 ^^^ key.getD 14 0, a15 ^^^ key.getD 15 0 ^^^ key.getD 15 0] := rfl
  rw [e]
  simp only [Nat.xor_cancel_right]

theorem SubBytesInverse_SubBytes (st : List Nat) (h : st.length = 16) (hb : Bytes st) :
    SubBytesInverse (SubBytes st) = st := by
  obtain ⟨a0, a1, a2, a3, a4, a5, a6, a7, a8, a9, a10, a11, a12, a13, a14, a15, rfl⟩ :=
    list16 st h
  have e : SubBytesInverse (SubBytes
      [a0, a1, a2, a3, a4, a5, a6, a7, a8, a9, a10, a11, a12, a13, a14, a15]) =
      [inv_s.getD (s.getD a0 0) 0, inv_s.getD (s.getD a1 0) 0, inv_s.getD (s.getD a2 0) 0,
       inv_s.getD (s.getD a3 0) 0, inv_s.getD (s.getD a4 0) 0, inv_s.getD (s.getD a5 0) 0,
       inv_s.getD (s.getD a6 0) 0, inv_s.getD (s.getD a7 0) 0, inv_s.getD (s.getD a8 0) 0,
       inv_s.getD (s.getD a9 0) 0, inv_s.getD (s.getD a10 0) 0, inv_s.getD (s.getD a11 0) 0,
       inv_s.getD (s.getD a12 0) 0, inv_s.getD (s.getD a13 0) 0, inv_s.getD (s.getD a14 0) 0,
       inv_s.getD (s.getD a15 0) 0] := rfl
  rw [e, inv_s_s a0 (hb _ (by simp)), inv_s_s a1 (hb _ (by simp)), inv_s_s a2 (hb _ (by simp)),
    inv_s_s a3 (hb _ (by simp)), inv_s_s a4 (hb _ (by simp)), inv_s_s a5 (hb _ (by simp)),
    inv_s_s a6 (hb _ (by simp)), inv_s_s a7 (hb _ (by simp)), inv_s_s a8 (hb _ (by simp)),
    inv_s_s a9 (hb _ (by simp)), inv_s_s a10 (hb _ (by simp)), inv_s_s a11 (hb _ (by simp)),
    inv_s_s a12 (hb _ (by simp)), inv_s_s a13 (hb _ (by simp)), inv_s_s a14 (hb _ (by simp)),
    inv_s_s a15 (hb _ (by simp))]

theorem SubBytes_SubBytesInverse (st : List Nat) (h : st.length = 16) (hb : Bytes st) :
    SubBytes (SubBytesInverse st) = st := by
  obtain ⟨a0, a1, a2, a3, a4, a5, a6, a7, a8, a9, a10, a11, a12, a13, a14, a15, rfl⟩ :=
    list16 st h
  have e : SubBytes (SubBytesInverse
      [a0, a1, a2, a3, a4, a5, a6, a7, a8, a9, a10, a11, a12, a13, a14, a15]) =
      [s.getD (inv_s.getD a0 0) 0, s.getD (inv_s.getD a1 0) 0, s.getD (inv_s.getD a2 0) 0,
       s.getD (inv_s.getD a3 0) 0, s.getD (inv_s.getD a4 0) 0, s.getD (inv_s.getD a5 0) 0,
       s.getD (inv_s.getD a6 0) 0, s.getD (inv_s.getD a7 0) 0, s.getD (inv_s.getD a8 0) 0,
       s.getD (inv_s.getD a9 0) 0, s.getD (inv_s.getD a10 0) 0, s.getD (inv_s.getD a11 0) 0,
       s.getD (inv_s.getD a12 0) 0, s.getD (inv_s.getD a13 0) 0, s.getD (inv_s.getD a14 0) 0,
       s.getD (inv_s.getD a15 0) 0] := rfl
  rw [e, s_inv_s a0 (hb _ (by simp)), s_inv_s a1 (hb _ (by simp)), s_inv_s a2 (hb _ (by simp)),
    s_inv_s a3 (hb _ (by simp)), s_inv_s a4 (hb _ (by simp)), s_inv_s a5 (hb _ (by simp)),
    s_inv_s a6 (hb _ (by simp)), s_inv_s a7 (hb _ (by simp)), s_inv_s a8 (hb _ (by simp)),
    s_inv_s a9 (hb _ (by simp)), s_inv_s a10 (hb _ (by simp)), s_inv_s a11 (hb _ (by simp)),
    s_inv_s a12 (hb _ (by simp)), s_inv_s a13 (hb _ (by simp)), s_inv_s a14 (hb _ (by simp)),
    s_inv_s a15 (hb _ (by simp))]

theorem ShiftRowsInverse_ShiftRows (st : List Nat) (h : st.length = 16) :
    ShiftRowsInverse (ShiftRows st) = st := by
  obtain ⟨a0, a1, a2, a3, a4, a5, a6, a7, a8, a9, a10, a11, a12, a13, a14, a15, rfl⟩ :=
    list16 st h
  rfl

theorem ShiftRows_ShiftRowsInverse (st : List Nat) (h : st.length = 16) :
    ShiftRows (ShiftRowsInverse st) = st := by
  obtain ⟨a0, a1, a2, a3, a4, a5, a6, a7, a8, a9, a10, a11, a12, a13, a14, a15, rfl⟩ :=
    list16 st h
  rfl


theorem inverseMixColumn_mixColumn (a b c d : Nat) (ha : a < 256) (hb : b < 256)
    (hc : c < 256) (hd : d < 256) :
    inverseMixColumn (mixColumn [a, b, c, d] 0) 0 = [a, b, c, d] := by
  have e : inverseMixColumn (mixColumn [a, b, c, d] 0) 0 =
      [mul14.getD (mul2.getD a 0 ^^^ mul3.getD b 0 ^^^ c ^^^ d) 0
        ^^^ mul11.getD (a ^^^ mul2.getD b 0 ^^^ mul3.getD c 0 ^^^ d) 0
        ^^^ mul13.getD (a ^^^ b ^^^ mul2.getD c 0 ^^^ mul3.getD d 0) 0
        ^^^ mul9.getD (mul3.getD a 0 ^^^ b ^^^ c ^^^ mul2.getD d 0) 0,
       mul9.getD (mul2.getD a 0 ^^^ mul3.getD b 0 ^^^ c ^^^ d) 0
        ^^^ mul14.getD (a ^^^ mul2.getD b 0 ^^^ mul3.getD c 0 ^^^ d) 0
        ^^^ mul11.getD (a ^^^ b ^^^ mul2.getD c 0 ^^^ mul3.getD d 0) 0
        ^^^ mul13.getD (mul3.getD a 0 ^^^ b ^^^ c ^^^ mul2.getD d 0) 0,
       mul13.getD (mul2.getD a 0 ^^^ mul3.getD b 0 ^^^ c ^^^ d) 0
        ^^^ mul9.getD (a ^^^ mul2.getD b 0 ^^^ mul3.getD c 0 ^^^ d) 0
        ^^^ mul14.getD (a ^^^ b ^^^ mul2.getD c 0 ^^^ mul3.getD d 0) 0
        ^^^ mul11.getD (mul3.getD a 0 ^^^ b ^^^ c ^^^ mul2.getD d 0) 0,
       mul11.getD (mul2.getD a 0 ^^^ mul3.getD b 0 ^^^ c ^^^ d) 0
        ^^^ mul13.getD (a ^^^ mul2.getD b 0 ^^^ mul3.getD c 0 ^^^ d) 0
        ^^^ mul9.getD (a ^^^ b ^^^ mul2.getD c 0 ^^^ mul3.getD d 0) 0
        ^^^ mul14.getD (mul3.getD a 0 ^^^ b ^^^ c ^^^ mul2.getD d 0) 0] := rfl
  rw [e, imc_row0 a b c d ha hb hc hd, imc_row1 a b c d ha hb hc hd,
    imc_row2 a b c d ha hb hc hd, imc_row3 a b c d ha hb hc hd]

theorem InverseMixColumns_MixColumns (st : List Nat) (h : st.length = 16) (hb : Bytes st) :
    InverseMixColumns (MixColumns st) = st := by
  obtain ⟨a0, a1, a2, a3, a4, a5, a6, a7, a8, a9, a10, a11, a12, a13, a14, a15, rfl⟩ :=
    list16 st h
  have e : InverseMixColumns (MixColumns
      [a0, a1, a2, a3, a4, a5, a6, a7, a8, a9, a10, a11, a12, a13, a14, a15]) =
      inverseMixColumn (mixColumn [a0, a1, a2, a3] 0) 0
        ++ inverseMixColumn (mixColumn [a4, a5, a6, a7] 0) 0
        ++ inverseMixColumn (mixColumn [a8, a9, a10, a11] 0) 0
        ++ inverseMixColumn (mixColumn [a12, a13, a14, a15] 0) 0 := rfl
  rw [e, inverseMixColumn_mixColumn a0 a1 a2 a3 (hb _ (by simp)) (hb _ (by simp))
      (hb _ (by simp)) (hb _ (by simp)),
    inverseMixColumn_mixColumn a4 a5 a6 a7 (hb _ (by simp)) (hb _ (by simp))
      (hb _ (by simp)) (hb _ (by simp)),
    inverseMixColumn_mixColumn a8 a9 a10 a11 (hb _ (by simp)) (hb _ (by simp))
      (hb _ (by simp)) (hb _ (by simp)),
    inverseMixColumn_mixColumn a12 a13 a14 a15 (hb _ (by simp)) (hb _ (by simp))
      (hb _ (by simp)) (hb _ (by simp))]
  rfl

/-! ## Rounds -/

theorem Round_length (st key : List Nat) : (Round st key).length = 16 :=
  AddRoundKey_length _ _

theorem Round_bytes (st key : List Nat) (hk : Bytes key) : Bytes (Round st key) :=
  AddRoundKey_bytes _ _ (MixColumns_bytes _ (ShiftRows_bytes _ (SubBytes_bytes st))) hk

theorem FinalRound_length (st key : List Nat) : (FinalRound st key).length = 16 :=
  AddRoundKey_length _ _

theorem RoundInverse_Round (st key : List Nat) (h : st.length = 16) (hb : Bytes st) :
    RoundInverse (Round st key) key = st := by
  unfold RoundInverse Round
  rw [SubRoundKey_AddRoundKey _ _ (MixColumns_length _),
    InverseMixColumns_MixColumns _ (ShiftRows_length _) (ShiftRows_bytes _ (SubBytes_bytes st)),
    ShiftRowsInverse_ShiftRows _ (SubBytes_length _), SubBytesInverse_SubBytes _ h hb]

theorem InitialRoundInverse_FinalRound (st key : List Nat) (h : st.length = 16)
    (hb : Bytes st) : InitialRoundInverse (FinalRound st key) key = st := by
  unfold InitialRoundInverse FinalRound
  rw [SubRoundKey_AddRoundKey _ _ (ShiftRows_length _),
    ShiftRowsInverse_ShiftRows _ (SubBytes_length _), SubBytesInverse_SubBytes _ h hb]

theorem rounds_length (ek : List Nat) (l : List Nat) (st : List Nat) (h : st.length = 16) :
    (l.foldl (fun st i => Round st (ek.drop (16 * (i + 1)))) st).length = 16 := by
  induction l generalizing st with
  | nil => simpa using h
  | cons i l ih => exact ih _ (Round_length _ _)

theorem rounds_bytes (ek : List Nat) (hek : Bytes ek) (l : List Nat) (st : List Nat)
    (hb : Bytes st) :
    Bytes (l.foldl (fun st i => Round st (ek.drop (16 * (i + 1)))) st) := by
  induction l generalizing st with
  | nil => simpa using hb
  | cons i l ih => exact ih _ (Round_bytes _ _ (bytes_drop ek hek _))

theorem inverse_rounds (ek : List Nat) (hek : Bytes ek) (l : List Nat) (st : List Nat)
    (h : st.length = 16) (hb : Bytes st) :
    l.reverse.foldl (fun st i => RoundInverse st (ek.drop (16 * (i + 1))))
      (l.foldl (fun st i => Round st (ek.drop (16 * (i + 1)))) st) = st := by
  induction l generalizing st with
  | nil => rfl
  | cons i l ih =>
    simp only [List.reverse_cons, List.foldl_append, List.foldl_cons, List.foldl_nil]
    rw [ih _ (Round_length _ _) (Round_bytes _ _ (bytes_drop ek hek _))]
    exact RoundInverse_Round st _ h hb

/-- Decryption undoes encryption for any expanded key made of bytes: the result is
the sixteen message bytes read by `AESEncrypt`. -/
theorem AESDecrypt_AESEncrypt (message ek : List Nat) (hm : Bytes message) (hek : Bytes ek) :
    AESDecrypt (AESEncrypt message ek) ek = first16 message := by
  have h0 : (AddRoundKey (first16 message) ek).length = 16 := AddRoundKey_length _ _
  have b0 : Bytes (AddRoundKey (first16 message) ek) :=
    AddRoundKey_bytes _ _ (first16_bytes _ hm) hek
  have h9 := rounds_length ek (List.range 9) _ h0
  have b9 := rounds_bytes ek hek (List.range 9) _ b0
  have hrev : [8, 7, 6, 5, 4, 3, 2, 1, 0] = (List.range 9).reverse := by decide
  unfold AESDecrypt AESEncrypt
  simp only []
  rw [hrev]
  change first16 (SubRoundKey (List.foldl _ (InitialRoundInverse (first16 (first16 (FinalRound
    (List.foldl _ (AddRoundKey (first16 message) ek) (List.range 9)) (ek.drop 160))))
    (ek.drop 160)) (List.range 9).reverse) ek) = _
  rw [first16_of_length _ (FinalRound_length _ _), first16_of_length _ (FinalRound_length _ _),
    InitialRoundInverse_FinalRound _ _ h9 b9, inverse_rounds ek hek _ _ h0 b0,
    SubRoundKey_AddRoundKey _ _ (first16_length _),
    first16_of_length _ (first16_length _)]

/-! ## The key schedule produces 176 bytes -/

theorem doublings_lt (n : Nat) : doublings n < 256 := by
  cases n with
  | zero => decide
  | succ n => exact mul2_lt _

theorem xorWord_length (a b : List Nat) : (xorWord a b).length = 4 := by
  simp [xorWord]

theorem xorWord_bytes (a b : List Nat) (ha : Bytes a) (hb : Bytes b) : Bytes (xorWord a b) :=
  bytes_map_range 4 _ fun i => xor_lt _ _ (getD_lt_of_bytes a ha i) (getD_lt_of_bytes b hb i)

theorem word_bytes (rk : List Nat) (h : Bytes rk) (i : Nat) : Bytes (word rk i) :=
  bytes_map_range 4 _ fun _ => getD_lt_of_bytes rk h _

theorem subWord_bytes (w : List Nat) : Bytes (subWord w) :=
  bytes_map_range 4 _ fun _ => s_lt _

theorem rconWord_bytes (r : Nat) : Bytes [Rcon r, 0, 0, 0] := by
  intro b hb
  simp only [List.mem_cons, List.mem_singleton, List.not_mem_nil, or_false] at hb
  rcases hb with e | e | e | e
  · rw [e]; exact doublings_lt _
  all_goals omega

theorem nextRoundKey_length (r : Nat) (prev : List Nat) : (nextRoundKey r prev).length = 16 := by
  simp [nextRoundKey, xorWord_length]

theorem nextRoundKey_bytes (r : Nat) (prev : List Nat) (h : Bytes prev) :
    Bytes (nextRoundKey r prev) := by
  have w0 := xorWord_bytes _ _ (xorWord_bytes _ _ (subWord_bytes (rotWord (word prev 3)))
    (rconWord_bytes r)) (word_bytes prev h 0)
  have w1 := xorWord_bytes _ _ (word_bytes prev h 1) w0
  have w2 := xorWord_bytes _ _ (word_bytes prev h 2) w1
  have w3 := xorWord_bytes _ _ (word_bytes prev h 3) w2
  exact bytes_append _ _ (bytes_append _ _ (bytes_append _ _ w0 w1) w2) w3

theorem roundKeyOf_length (key : List Nat) (r : Nat) : (roundKeyOf key r).length = 16 := by
  cases r with
  | zero => simp [roundKeyOf]
  | succ r => exact nextRoundKey_length _ _

theorem roundKeyOf_bytes (key : List Nat) (h : Bytes key) (r : Nat) :
    Bytes (roundKeyOf key r) := by
  induction r with
  | zero => exact first16_bytes key h
  | succ r ih => exact nextRoundKey_bytes _ _ ih

theorem KeyExpansion_length (key : List Nat) : (KeyExpansion key).length = 176 := by
  have e : List.range 11 = [0, 1, 2, 3, 4, 5, 6, 7, 8, 9, 10] := by decide
  simp [KeyExpansion, e, roundKeyOf_length]

theorem KeyExpansion_bytes (key : List Nat) (h : Bytes key) : Bytes (KeyExpansion key) := by
  intro b hb
  obtain ⟨r, _, hr⟩ := List.mem_flatMap.1 hb
  exact roundKeyOf_bytes key h r b hr

/-! ## Stores and the block loop -/

theorem storeBytes_length (bs : List Nat) :
    ∀ (buf : List Nat) (i : Nat), (storeBytes buf i bs).length = buf.length := by
  induction bs with
  | nil => intro buf i; rfl
  | cons b bs ih => intro buf i; simp [storeBytes, ih]

theorem storeBytes_getElem? (bs : List Nat) :
    ∀ (buf : List Nat) (i a : Nat), (storeBytes buf i bs)[a]? =
      if i ≤ a ∧ a < i + bs.length ∧ a < buf.length then bs[a - i]? else buf[a]? := by
  induction bs with
  | nil =>
    intro buf i a
    have : ¬ (i ≤ a ∧ a < i + ([] : List Nat).length ∧ a < buf.length) := by
      simp only [List.length_nil]
      omega
    rw [if_neg this]
    rfl
  | cons b bs ih =>
    intro buf i a
    rw [storeBytes, ih, List.length_set, List.length_cons]
    by_cases h1 : i + 1 ≤ a ∧ a < i + 1 + bs.length ∧ a < buf.length
    · have h2 : i ≤ a ∧ a < i + (bs.length + 1) ∧ a < buf.length := by omega
      rw [if_pos h1, if_pos h2]
      obtain ⟨k, hk⟩ : ∃ k, a - i = k + 1 := ⟨a - i - 1, by omega⟩
      have hk' : a - (i + 1) = k := by omega
      rw [hk, hk', List.getElem?_cons_succ]
    · rw [if_neg h1]
      by_cases h3 : a = i
      · subst h3
        by_cases h4 : a < buf.length
        · have h2 : a ≤ a ∧ a < a + (bs.length + 1) ∧ a < buf.length := by omega
          rw [if_pos h2, List.getElem?_set_self h4]
          simp
        · have h2 : ¬ (a ≤ a ∧ a < a + (bs.length + 1) ∧ a < buf.length) := by omega
          rw [if_neg h2, List.getElem?_eq_none (by simp; omega), List.getElem?_eq_none (by omega)]
      · have h2 : ¬ (i ≤ a ∧ a < i + (bs.length + 1) ∧ a < buf.length) := by omega
        rw [if_neg h2, List.getElem?_set_ne (by omega)]

theorem storeBytes_getD (bs buf : List Nat) (i a : Nat) :
    (storeBytes buf i bs).getD a 0 =
      if i ≤ a ∧ a < i + bs.length ∧ a < buf.length then bs.getD (a - i) 0 else buf.getD a 0 := by
  simp only [List.getD_eq_getElem?_getD, storeBytes_getElem?]
  split <;> rfl

theorem storeBytes_eq (bs buf : List Nat) (i : Nat) (h : i + bs.length ≤ buf.length) :
    storeBytes buf i bs = buf.take i ++ bs ++ buf.drop (i + bs.length) := by
  apply List.ext_getElem?
  intro a
  rw [storeBytes_getElem?]
  by_cases h1 : a < i
  · have : ¬ (i ≤ a ∧ a < i + bs.length ∧ a < buf.length) := by omega
    rw [if_neg this, List.append_assoc, List.getElem?_append_left (by simp; omega),
      List.getElem?_take_of_lt h1]
  · by_cases h2 : a < i + bs.length
    · have : i ≤ a ∧ a < i + bs.length ∧ a < buf.length := by omega
      rw [if_pos this, List.append_assoc, List.getElem?_append_right (by simp; omega),
        List.getElem?_append_left (by simp; omega)]
      simp [Nat.min_eq_left (show i ≤ buf.length by omega)]
    · have : ¬ (i ≤ a ∧ a < i + bs.length ∧ a < buf.length) := by omega
      rw [if_neg this, List.getElem?_append_right (by simp; omega), List.getElem?_drop]
      congr 1
      simp [Nat.min_eq_left (show i ≤ buf.length by omega)]
      omega

theorem blockLoop_eq (len : Nat) :
    ∀ (fuel i : Nat), len ≤ i + 16 * fuel →
      blockLoop len fuel i = (List.range ((len + 15 - i) / 16)).map fun j => i + 16 * j := by
  intro fuel
  induction fuel with
  | zero =>
    intro i h
    have : (len + 15 - i) / 16 = 0 := by omega
    simp [blockLoop, this]
  | succ fuel ih =>
    intro i h
    rw [blockLoop]
    by_cases hi : i < len
    · rw [if_pos hi, ih (i + 16) (by omega)]
      have : (len + 15 - i) / 16 = (len + 15 - (i + 16)) / 16 + 1 := by omega
      rw [this, List.range_succ_eq_map, List.map_cons, List.map_map]
      congr 1
      apply List.map_congr_left
      intro j _
      simp only [Function.comp, Nat.succ_eq_add_one]
      omega
    · rw [if_neg hi]
      have : (len + 15 - i) / 16 = 0 := by omega
      simp [this]

/-- The block loops run to their guard, not to the end of the fuel: the offsets are
`0, 16, 32, ...` below `len`. -/
theorem blockOffsets_eq (len : Nat) :
    blockOffsets len = (List.range ((len + 15) / 16)).map fun j => 16 * j := by
  unfold blockOffsets
  rw [blockLoop_eq len len 0 (by omega)]
  simp

theorem blockLoop_fuel (len fuel : Nat) (h : len ≤ fuel) :
    blockLoop len fuel 0 = blockOffsets len := by
  unfold blockOffsets
  rw [blockLoop_eq len fuel 0 (by omega), blockLoop_eq len len 0 (by omega)]

theorem storeBlocks_length (f : Nat → List Nat) (offs : List Nat) :
    ∀ buf : List Nat, (offs.foldl (fun out i => storeBytes out i (f i)) buf).length
      = buf.length := by
  induction offs with
  | nil => intro buf; rfl
  | cons i offs ih => intro buf; rw [List.foldl_cons, ih, storeBytes_length]

theorem storeBlocks_getD (f : Nat → List Nat) (hf : ∀ i, (f i).length = 16) (buf : List Nat)
    (n a : Nat) :
    (((List.range n).map fun j => 16 * j).foldl (fun out i => storeBytes out i (f i)) buf).getD
        a 0 =
      if a < 16 * n ∧ a < buf.length then (f (16 * (a / 16))).getD (a % 16) 0
      else buf.getD a 0 := by
  induction n with
  | zero => simp
  | succ n ih =>
    rw [List.range_succ, List.map_append, List.foldl_append, List.map_singleton,
      List.foldl_cons, List.foldl_nil, storeBytes_getD, ih, storeBlocks_length, hf]
    by_cases h1 : 16 * n ≤ a ∧ a < 16 * n + 16 ∧ a < buf.length
    · have h2 : a < 16 * (n + 1) ∧ a < buf.length := by omega
      have h3 : a / 16 = n := by omega
      have h4 : a % 16 = a - 16 * n := by omega
      rw [if_pos h1, if_pos h2, h3, h4]
    · rw [if_neg h1]
      by_cases h2 : a < 16 * n ∧ a < buf.length
      · rw [if_pos h2, if_pos (by omega)]
      · rw [if_neg h2, if_neg (by omega)]

/-! ## The block loops of `enc` and `dec` -/

theorem getD_take (l : List Nat) (n j : Nat) (h : j < n) : (l.take n).getD j 0 = l.getD j 0 := by
  simp [List.getD_eq_getElem?_getD, List.getElem?_take_of_lt h]

theorem getD_drop (l : List Nat) (k j : Nat) : (l.drop k).getD j 0 = l.getD (k + j) 0 := by
  simp [List.getD_eq_getElem?_getD, List.getElem?_drop]

theorem getD_append_left (l₁ l₂ : List Nat) (j : Nat) (h : j < l₁.length) :
    (l₁ ++ l₂).getD j 0 = l₁.getD j 0 := by
  simp [List.getD_eq_getElem?_getD, List.getElem?_append_left h]

theorem map_getD_range (l : List Nat) : ((List.range l.length).map fun i => l.getD i 0) = l := by
  apply List.ext_getElem
  · simp
  · intro i h₁ h₂
    simp [List.getElem?_eq_getElem h₂]

theorem first16_congr (p q : List Nat) (h : ∀ j, j < 16 → p.getD j 0 = q.getD j 0) :
    first16 p = first16 q :=
  List.map_congr_left fun j hj => h j (List.mem_range.1 hj)

theorem first16_take (p : List Nat) : first16 (p.take 16) = first16 p :=
  first16_congr _ _ fun j hj => getD_take p 16 j hj

theorem ext16 (l₁ l₂ : List Nat) (h₁ : l₁.length = 16) (h₂ : l₂.length = 16)
    (h : ∀ j, j < 16 → l₁.getD j 0 = l₂.getD j 0) : l₁ = l₂ := by
  rw [← first16_of_length l₁ h₁, ← first16_of_length l₂ h₂]
  exact first16_congr _ _ h

theorem AESEncrypt_length (message ek : List Nat) : (AESEncrypt message ek).length = 16 :=
  first16_length _

theorem AESDecrypt_length (message ek : List Nat) : (AESDecrypt message ek).length = 16 :=
  first16_length _

theorem AESEncrypt_congr (m₁ m₂ ek : List Nat) (h : first16 m₁ = first16 m₂) :
    AESEncrypt m₁ ek = AESEncrypt m₂ ek := by
  unfold AESEncrypt
  change first16 (FinalRound (List.foldl _ (AddRoundKey (first16 m₁) ek) _) _) =
    first16 (FinalRound (List.foldl _ (AddRoundKey (first16 m₂) ek) _) _)
  rw [h]

theorem AESDecrypt_congr (m₁ m₂ ek : List Nat) (h : first16 m₁ = first16 m₂) :
    AESDecrypt m₁ ek = AESDecrypt m₂ ek := by
  unfold AESDecrypt
  change first16 (SubRoundKey (List.foldl _ (InitialRoundInverse (first16 m₁) _) _) _) =
    first16 (SubRoundKey (List.foldl _ (InitialRoundInverse (first16 m₂) _) _) _)
  rw [h]

theorem encryptBlocks_length (pm ek out0 : List Nat) (len : Nat) :
    (encryptBlocks pm ek len out0).length = out0.length :=
  storeBlocks_length _ _ _

theorem decryptBlocks_length (em ek out0 : List Nat) (len : Nat) :
    (decryptBlocks em ek len out0).length = out0.length :=
  storeBlocks_length _ _ _

/-- Byte `a` of the output of the `enc` block loop is byte `a % 16` of the encryption
of the block at `paddedMessage + 16 * (a / 16)`. -/
theorem encryptBlocks_getD (pm ek out0 : List Nat) (len a : Nat) (h0 : out0.length = len)
    (ha : a < len) :
    (encryptBlocks pm ek len out0).getD a 0 =
      (AESEncrypt (pm.drop (16 * (a / 16))) ek).getD (a % 16) 0 := by
  unfold encryptBlocks
  rw [blockOffsets_eq,
    storeBlocks_getD (fun i => AESEncrypt (pm.drop i) ek) (fun _ => AESEncrypt_length _ _),
    if_pos (by omega)]

/-- Byte `a` of the output of the `dec` block loop, likewise. -/
theorem decryptBlocks_getD (em ek out0 : List Nat) (len a : Nat) (h0 : out0.length = len)
    (ha : a < len) :
    (decryptBlocks em ek len out0).getD a 0 =
      (AESDecrypt (em.drop (16 * (a / 16))) ek).getD (a % 16) 0 := by
  unfold decryptBlocks
  rw [blockOffsets_eq,
    storeBlocks_getD (fun i => AESDecrypt (em.drop i) ek) (fun _ => AESDecrypt_length _ _),
    if_pos (by omega)]

/-- Chunk `i` of the `enc` output is the encryption of chunk `i` of the padded message. -/
theorem encryptBlocks_chunk (pm ek out0 : List Nat) (m i : Nat) (h0 : out0.length = 16 * m)
    (hi : i < m) :
    ((encryptBlocks pm ek (16 * m) out0).drop (16 * i)).take 16 =
      AESEncrypt ((pm.drop (16 * i)).take 16) ek := by
  apply ext16
  · rw [List.length_take, List.length_drop, encryptBlocks_length, h0]
    omega
  · exact AESEncrypt_length _ _
  · intro j hj
    rw [getD_take _ _ _ hj, getD_drop, encryptBlocks_getD _ _ _ _ _ h0 (by omega),
      AESEncrypt_congr _ _ ek (first16_take (pm.drop (16 * i)))]
    have h1 : (16 * i + j) / 16 = i := by omega
    have h2 : (16 * i + j) % 16 = j := by omega
    rw [h1, h2]

/-- Decrypting, with any loop bound that covers the ciphertext, the output of the `enc`
block loop gives back the plaintext in the first `16 * m` bytes, whatever lies
beyond the ciphertext in memory. -/
theorem decryptBlocks_encryptBlocks (P ek enc0 beyond dec0 : List Nat) (m messageLen : Nat)
    (hP : P.length = 16 * m) (hPb : Bytes P) (hek : Bytes ek) (henc : enc0.length = 16 * m)
    (hdec : dec0.length = messageLen) (hlen : 16 * m ≤ messageLen) :
    ((List.range (16 * m)).map fun a =>
      (decryptBlocks (encryptBlocks P ek (16 * m) enc0 ++ beyond) ek messageLen dec0).getD a 0)
      = P := by
  have key : ∀ a, a < 16 * m →
      (decryptBlocks (encryptBlocks P ek (16 * m) enc0 ++ beyond) ek messageLen dec0).getD a 0
        = P.getD a 0 := by
    intro a ha
    rw [decryptBlocks_getD _ _ _ _ _ hdec (by omega)]
    have hc : first16 ((encryptBlocks P ek (16 * m) enc0 ++ beyond).drop (16 * (a / 16))) =
        AESEncrypt (P.drop (16 * (a / 16))) ek := by
      rw [← first16_of_length (AESEncrypt (P.drop (16 * (a / 16))) ek) (AESEncrypt_length _ _)]
      apply first16_congr
      intro j hj
      rw [getD_drop, getD_append_left _ _ _ (by rw [encryptBlocks_length, henc]; omega),
        encryptBlocks_getD _ _ _ _ _ henc (by omega)]
      have h1 : (16 * (a / 16) + j) / 16 = a / 16 := by omega
      have h2 : (16 * (a / 16) + j) % 16 = j := by omega
      rw [h1, h2]
    rw [AESDecrypt_congr _ (AESEncrypt (P.drop (16 * (a / 16))) ek) ek
        (by rw [hc, first16_of_length _ (AESEncrypt_length _ _)]),
      AESDecrypt_AESEncrypt _ _ (bytes_drop P hPb _) hek, first16_getD _ _ (by omega),
      getD_drop]
    congr 1
    omega
  have e₁ : ((List.range (16 * m)).map fun a =>
      (decryptBlocks (encryptBlocks P ek (16 * m) enc0 ++ beyond) ek messageLen dec0).getD a 0)
      = (List.range (16 * m)).map fun a => P.getD a 0 :=
    List.map_congr_left fun a ha => key a (List.mem_range.1 ha)
  have e₂ : ((List.range (16 * m)).map fun a => P.getD a 0) = P := by
    have := map_getD_range P
    rwa [hP] at this
  exact e₁.trans e₂

theorem hexOutput_length_ge (bytes : List Nat) (n : Nat) : n ≤ (hexOutput bytes n).length := by
  unfold hexOutput
  induction n with
  | zero => simp
  | succ n ih =>
    rw [List.range_succ, List.flatMap_append, List.length_append]
    simp only [List.flatMap_cons, List.flatMap_nil, List.append_nil, List.length_append,
      List.length_singleton]
    omega

/-! ## Padding -/

theorem strlen_le (message : List Nat) : strlen message ≤ message.length := by
  unfold strlen
  induction message with
  | nil => simp
  | cons a l ih =>
    rw [List.takeWhile_cons]
    split
    · simpa using ih
    · simp

theorem paddedMessage_length (message : List Nat) :
    (paddedMessage message).length = paddedMessageLen (strlen message) := by
  simp [paddedMessage]

theorem paddedMessageLen_mod (L : Nat) : paddedMessageLen L % 16 = 0 := by
  unfold paddedMessageLen
  split <;> omega

theorem paddedMessageLen_ge (L : Nat) : L ≤ paddedMessageLen L := by
  unfold paddedMessageLen
  split <;> omega

theorem paddedMessage_eq (message : List Nat) :
    paddedMessage message = message.take (strlen message)
      ++ List.replicate (paddedMessageLen (strlen message) - strlen message) 0 := by
  have h1 := strlen_le message
  have h2 := paddedMessageLen_ge (strlen message)
  apply List.ext_getElem
  · rw [paddedMessage_length, List.length_append, List.length_take, List.length_replicate]
    omega
  · intro i hi₁ hi₂
    simp only [paddedMessage, List.getElem_map, List.getElem_range]
    by_cases h : i < strlen message
    · rw [if_neg (by omega), List.getElem_append_left (by simp; omega), List.getElem_take,
        List.getD_eq_getElem _ _ (by omega)]
    · rw [if_pos (by omega), List.getElem_append_right (by simp; omega), List.getElem_replicate]

/-! ## The claims -/

/-- C1: single-block round trip.  For every 16-byte block `B` and every 16-byte key `K`,
the expanded key `KeyExpansion K` has 176 bytes and decrypting the encryption of `B`
under it gives back `B`. -/
theorem single_block_round_trip (B K : List Nat) (hB : B.length = 16) (hBb : Bytes B)
    (_hK : K.length = 16) (hKb : Bytes K) :
    (KeyExpansion K).length = 176 ∧
      AESDecrypt (AESEncrypt B (KeyExpansion K)) (KeyExpansion K) = B := by
  refine ⟨KeyExpansion_length K, ?_⟩
  rw [AESDecrypt_AESEncrypt B _ hBb (KeyExpansion_bytes K hKb), first16_of_length B hB]

theorem single_block_round_trip_witness :
    (KeyExpansion [0, 1, 2, 3, 4, 5, 6, 7, 8, 9, 10, 11, 12, 13, 14, 15]).length = 176 ∧
      AESDecrypt (AESEncrypt
        [0x00, 0x11, 0x22, 0x33, 0x44, 0x55, 0x66, 0x77, 0x88, 0x99, 0xaa, 0xbb, 0xcc, 0xdd, 0xee, 0xff]
        (KeyExpansion [0, 1, 2, 3, 4, 5, 6, 7, 8, 9, 10, 11, 12, 13, 14, 15]))
        (KeyExpansion [0, 1, 2, 3, 4, 5, 6, 7, 8, 9, 10, 11, 12, 13, 14, 15]) =
        [0x00, 0x11, 0x22, 0x33, 0x44, 0x55, 0x66, 0x77, 0x88, 0x99, 0xaa, 0xbb, 0xcc, 0xdd, 0xee, 0xff] :=
  single_block_round_trip _ _ (by decide) (by decide) (by decide) (by decide)

/-- C2: message round trip.  For every 16-byte key `K` and every plaintext `P` whose
length is a positive multiple of 16, the `dec` block loop, run with the expanded key
of `K` on the ciphertext bytes the `enc` block loop produced for `P` and `K` and with
the loop bound `messageLen` the `dec` command uses (the length of the hex line that
`enc` printed), leaves `P` in the first `len(P)` bytes of `decryptedMessage`.  `enc0`
and `dec0` are the fresh output buffers, `beyond` is whatever follows the ciphertext
bytes in memory. -/
theorem message_round_trip (K P enc0 beyond dec0 : List Nat) (_hK : K.length = 16)
    (hKb : Bytes K) (_hPpos : 0 < P.length) (hP : P.length % 16 = 0) (hPb : Bytes P)
    (henc : enc0.length = P.length)
    (hdec : dec0.length =
      (hexOutput (encryptBlocks P (KeyExpansion K) P.length enc0) P.length).length) :
    ((List.range P.length).map fun i =>
      (decryptBlocks (encryptBlocks P (KeyExpansion K) P.length enc0 ++ beyond)
        (KeyExpansion K)
        (hexOutput (encryptBlocks P (KeyExpansion K) P.length enc0) P.length).length
        dec0).getD i 0) = P := by
  obtain ⟨m, hm⟩ : ∃ m, P.length = 16 * m := ⟨P.length / 16, by omega⟩
  have hlen := hexOutput_length_ge (encryptBlocks P (KeyExpansion K) P.length enc0) P.length
  rw [hm] at henc hdec hlen ⊢
  exact decryptBlocks_encryptBlocks P (KeyExpansion K) enc0 beyond dec0 m _ hm hPb
    (KeyExpansion_bytes K hKb) henc hdec hlen

theorem message_round_trip_witness :
    ((List.range 16).map fun i =>
      (decryptBlocks (encryptBlocks
          [104, 101, 108, 108, 111, 32, 119, 111, 114, 108, 100, 33, 33, 33, 33, 33]
          (KeyExpansion [0, 1, 2, 3, 4, 5, 6, 7, 8, 9, 10, 11, 12, 13, 14, 15]) 16
          (List.replicate 16 0) ++ [7, 7, 7])
        (KeyExpansion [0, 1, 2, 3, 4, 5, 6, 7, 8, 9, 10, 11, 12, 13, 14, 15])
        (hexOutput (encryptBlocks
          [104, 101, 108, 108, 111, 32, 119, 111, 114, 108, 100, 33, 33, 33, 33, 33]
          (KeyExpansion [0, 1, 2, 3, 4, 5, 6, 7, 8, 9, 10, 11, 12, 13, 14, 15]) 16
          (List.replicate 16 0)) 16).length
        (List.replicate (hexOutput (encryptBlocks
          [104, 101, 108, 108, 111, 32, 119, 111, 114, 108, 100, 33, 33, 33, 33, 33]
          (KeyExpansion [0, 1, 2, 3, 4, 5, 6, 7, 8, 9, 10, 11, 12, 13, 14, 15]) 16
          (List.replicate 16 0)) 16).length 0)).getD i 0) =
      [104, 101, 108, 108, 111, 32, 119, 111, 114, 108, 100, 33, 33, 33, 33, 33] :=
  message_round_trip [0, 1, 2, 3, 4, 5, 6, 7, 8, 9, 10, 11, 12, 13, 14, 15]
    [104, 101, 108, 108, 111, 32, 119, 111, 114, 108, 100, 33, 33, 33, 33, 33]
    (List.replicate 16 0) [7, 7, 7] _ (by decide) (by decide) (by decide) (by decide)
    (by decide) (by decide) (by rw [List.length_replicate]; rfl)

/-- C3: the FIPS-197 AES-128 test vector.  With the key 000102030405060708090a0b0c0d0e0f
expanded by the key scheduler, `AESEncrypt` of the block
00112233445566778899aabbccddeeff is 69c4e0d86a7b0430d8cdb78070b4c55a. -/
theorem fips197_test_vector :
    AESEncrypt
      [0x00, 0x11, 0x22, 0x33, 0x44, 0x55, 0x66, 0x77, 0x88, 0x99, 0xaa, 0xbb, 0xcc, 0xdd, 0xee, 0xff]
      (KeyExpansion
        [0x00, 0x01, 0x02, 0x03, 0x04, 0x05, 0x06, 0x07, 0x08, 0x09, 0x0a, 0x0b, 0x0c, 0x0d, 0x0e, 0x0f])
      = [0x69, 0xc4, 0xe0, 0xd8, 0x6a, 0x7b, 0x04, 0x30, 0xd8, 0xcd, 0xb7, 0x80, 0x70, 0xb4, 0xc5, 0x5a] := by
  decide!

/-- C4: zero padding.  For a line buffer whose C string has length `L`, the `enc`
command's `paddedMessage` is those `L` bytes followed only by zero bytes, its length
`paddedMessageLen` is the least multiple of 16 that is at least `L`; when `L` is a
multiple of 16 no block is added, and when `1 <= L <= 15` the padded length is 16. -/
theorem zero_padding (message : List Nat) (L : Nat) (hL : strlen message = L) :
    paddedMessage message = message.take L ++ List.replicate (paddedMessageLen L - L) 0
      ∧ (paddedMessage message).length = paddedMessageLen L
      ∧ 16 ∣ paddedMessageLen L ∧ L ≤ paddedMessageLen L
      ∧ (∀ n, 16 ∣ n → L ≤ n → paddedMessageLen L ≤ n)
      ∧ (L % 16 = 0 → paddedMessageLen L = L)
      ∧ (1 ≤ L → L ≤ 15 → paddedMessageLen L = 16) := by
  subst hL
  refine ⟨paddedMessage_eq message, paddedMessage_length message,
    Nat.dvd_of_mod_eq_zero (paddedMessageLen_mod _), paddedMessageLen_ge _, ?_, ?_, ?_⟩
  · intro n hn hle
    unfold paddedMessageLen
    split <;> omega
  · intro h
    unfold paddedMessageLen
    split <;> omega
  · intro h1 h2
    unfold paddedMessageLen
    split <;> omega

theorem zero_padding_witness :
    paddedMessage [104, 101, 108, 108, 111, 0, 120, 121] =
        [104, 101, 108, 108, 111, 0, 120, 121].take 5 ++ List.replicate (paddedMessageLen 5 - 5) 0
      ∧ (paddedMessage [104, 101, 108, 108, 111, 0, 120, 121]).length = paddedMessageLen 5
      ∧ 16 ∣ paddedMessageLen 5 ∧ 5 ≤ paddedMessageLen 5
      ∧ (∀ n, 16 ∣ n → 5 ≤ n → paddedMessageLen 5 ≤ n)
      ∧ (5 % 16 = 0 → paddedMessageLen 5 = 5)
      ∧ (1 ≤ 5 → 5 ≤ 15 → paddedMessageLen 5 = 16) :=
  zero_padding [104, 101, 108, 108, 111, 0, 120, 121] 5 (by decide)

/-- C5: ECB chunking.  For every padded message of length `16 * m`, every expanded key
`ek` and every fresh output buffer of `16 * m` bytes, the output of the `enc` block
loop has length `16 * m` and its `i`-th 16-byte chunk, for every `i < m`, is
`AESEncrypt` of the `i`-th 16-byte chunk of the padded message under that same `ek`. -/
theorem ecb_chunking (pm ek out0 : List Nat) (m : Nat) (_hpm : pm.length = 16 * m)
    (h0 : out0.length = 16 * m) :
    (encryptBlocks pm ek (16 * m) out0).length = 16 * m ∧
      ∀ i, i < m → ((encryptBlocks pm ek (16 * m) out0).drop (16 * i)).take 16 =
        AESEncrypt ((pm.drop (16 * i)).take 16) ek :=
  ⟨(encryptBlocks_length pm ek out0 _).trans h0,
    fun i hi => encryptBlocks_chunk pm ek out0 m i h0 hi⟩

theorem ecb_chunking_witness :
    (encryptBlocks (List.replicate 16 65 ++ List.replicate 16 66) (List.replicate 176 1)
        (16 * 2) (List.replicate 32 0)).length = 16 * 2 ∧
      ∀ i, i < 2 →
        ((encryptBlocks (List.replicate 16 65 ++ List.replicate 16 66) (List.replicate 176 1)
          (16 * 2) (List.replicate 32 0)).drop (16 * i)).take 16 =
        AESEncrypt (((List.replicate 16 65 ++ List.replicate 16 66).drop (16 * i)).take 16)
          (List.replicate 176 1) :=
  ecb_chunking (List.replicate 16 65 ++ List.replicate 16 66) (List.replicate 176 1)
    (List.replicate 32 0) 2 (by decide) (by decide)

/-- C6: ECB determinism.  For every key and every padded message of `m` blocks, the
ciphertext produced by the `enc` block loop has `16 * m` bytes, its `i`-th and `j`-th
16-byte chunks are sixteen bytes each and are the encryptions, under the one expanded
key, of the `i`-th and `j`-th 16-byte plaintext chunks; so if these two plaintext
chunks are equal, the two ciphertext chunks are equal. -/
theorem ecb_equal_blocks (key pm out0 : List Nat) (m i j : Nat) (_hpm : pm.length = 16 * m)
    (h0 : out0.length = 16 * m) (hi : i < m) (hj : j < m)
    (heq : (pm.drop (16 * i)).take 16 = (pm.drop (16 * j)).take 16) :
    (encryptBlocks pm (KeyExpansion key) (16 * m) out0).length = 16 * m
      ∧ (((encryptBlocks pm (KeyExpansion key) (16 * m) out0).drop (16 * i)).take 16).length
          = 16
      ∧ (((encryptBlocks pm (KeyExpansion key) (16 * m) out0).drop (16 * j)).take 16).length
          = 16
      ∧ ((encryptBlocks pm (KeyExpansion key) (16 * m) out0).drop (16 * i)).take 16 =
          AESEncrypt ((pm.drop (16 * i)).take 16) (KeyExpansion key)
      ∧ ((encryptBlocks pm (KeyExpansion key) (16 * m) out0).drop (16 * j)).take 16 =
          AESEncrypt ((pm.drop (16 * j)).take 16) (KeyExpansion key)
      ∧ ((encryptBlocks pm (KeyExpansion key) (16 * m) out0).drop (16 * i)).take 16 =
          ((encryptBlocks pm (KeyExpansion key) (16 * m) out0).drop (16 * j)).take 16 := by
  have ci := encryptBlocks_chunk pm (KeyExpansion key) out0 m i h0 hi
  have cj := encryptBlocks_chunk pm (KeyExpansion key) out0 m j h0 hj
  refine ⟨(encryptBlocks_length pm _ out0 _).trans h0, ?_, ?_, ci, cj, ?_⟩
  · rw [ci]
    exact AESEncrypt_length _ _
  · rw [cj]
    exact AESEncrypt_length _ _
  · rw [ci, cj, heq]

theorem ecb_equal_blocks_witness :
    (encryptBlocks (List.replicate 16 65 ++ List.replicate 16 66 ++ List.replicate 16 65)
        (KeyExpansion (List.range 16)) (16 * 3) (List.replicate 48 0)).length = 16 * 3
      ∧ (((encryptBlocks (List.replicate 16 65 ++ List.replicate 16 66 ++ List.replicate 16 65)
          (KeyExpansion (List.range 16)) (16 * 3) (List.replicate 48 0)).drop
          (16 * 0)).take 16).length = 16
      ∧ (((encryptBlocks (List.replicate 16 65 ++ List.replicate 16 66 ++ List.replicate 16 65)
          (KeyExpansion (List.range 16)) (16 * 3) (List.replicate 48 0)).drop
          (16 * 2)).take 16).length = 16
      ∧ ((encryptBlocks (List.replicate 16 65 ++ List.replicate 16 66 ++ List.replicate 16 65)
          (KeyExpansion (List.range 16)) (16 * 3) (List.replicate 48 0)).drop
          (16 * 0)).take 16 =
          AESEncrypt (((List.replicate 16 65 ++ List.replicate 16 66
            ++ List.replicate 16 65).drop (16 * 0)).take 16) (KeyExpansion (List.range 16))
      ∧ ((encryptBlocks (List.replicate 16 65 ++ List.replicate 16 66 ++ List.replicate 16 65)
          (KeyExpansion (List.range 16)) (16 * 3) (List.replicate 48 0)).drop
          (16 * 2)).take 16 =
          AESEncrypt (((List.replicate 16 65 ++ List.replicate 16 66
            ++ List.replicate 16 65).drop (16 * 2)).take 16) (KeyExpansion (List.range 16))
      ∧ ((encryptBlocks (List.replicate 16 65 ++ List.replicate 16 66 ++ List.replicate 16 65)
          (KeyExpansion (List.range 16)) (16 * 3) (List.replicate 48 0)).drop
          (16 * 0)).take 16 =
          ((encryptBlocks (List.replicate 16 65 ++ List.replicate 16 66 ++ List.replicate 16 65)
            (KeyExpansion (List.range 16)) (16 * 3) (List.replicate 48 0)).drop
            (16 * 2)).take 16 :=
  ecb_equal_blocks (List.range 16)
    (List.replicate 16 65 ++ List.replicate 16 66 ++ List.replicate 16 65)
    (List.replicate 48 0) 3 0 2 (by decide) (by decide) (by decide) (by decide) (by decide)

/-- Every call `AESEncrypt(paddedMessage + i, ...)` of the `enc` block loop has `i` a
multiple of 16 with `i + 16 <= paddedMessageLen`: each chunk read lies inside the
padded message. -/
theorem encrypt_calls_in_bounds (L i : Nat) (hi : i ∈ blockOffsets (paddedMessageLen L)) :
    i % 16 = 0 ∧ i + 16 ≤ paddedMessageLen L := by
  rw [blockOffsets_eq] at hi
  obtain ⟨j, hj, rfl⟩ := List.mem_map.1 hi
  have h1 := List.mem_range.1 hj
  have h2 := paddedMessageLen_mod L
  omega

/-- C7: the `dec` half fails.  The hex line that `enc` prints for the 16 ciphertext
bytes 69 c4 e0 d8 6a 7b 04 30 d8 cd b7 80 70 b4 c5 5a has 47 characters; the `dec`
loop, bounded by that text length, calls `AESDecrypt(encryptedMessage + i, ...)` at
`i = 0, 16, 32`, and the calls at 16 and 32 read past the 16 ciphertext bytes (and
past the 23 bytes allocated for `encryptedMessage`). -/
theorem decrypt_loop_reads_past_ciphertext :
    (hexOutput [0x69, 0xc4, 0xe0, 0xd8, 0x6a, 0x7b, 0x04, 0x30, 0xd8, 0xcd, 0xb7, 0x80,
        0x70, 0xb4, 0xc5, 0x5a] 16).length = 47
      ∧ blockOffsets 47 = [0, 16, 32]
      ∧ 47 / 2 = 23
      ∧ ¬ (∀ i ∈ blockOffsets (hexOutput [0x69, 0xc4, 0xe0, 0xd8, 0x6a, 0x7b, 0x04, 0x30,
          0xd8, 0xcd, 0xb7, 0x80, 0x70, 0xb4, 0xc5, 0x5a] 16).length, i + 16 ≤ 16) := by
  decide

theorem readKey_eq (keyMem keyValues : List Nat) (h : keyValues.length ≤ keyMem.length) :
    readKey keyMem keyValues =
      (keyValues.map fun c => c % 256) ++ keyMem.drop keyValues.length := by
  unfold readKey
  rw [storeBytes_eq _ _ _ (by simpa using h)]
  simp

/-- C8, counterexample: a key line that yields only the three values 1, 2, 3 is not
rejected.  With the key buffer holding zeros beforehand, the `enc` command on the
message "hello" expands the buffer 01 02 03 00 ... 00 and prints the ciphertext
line; and a key line of seventeen values stores the seventeenth past `key[15]`. -/
theorem short_key_not_rejected :
    encryptCommand [104, 101, 108, 108, 111] (List.replicate 16 0) [1, 2, 3]
        (List.replicate 16 0) =
      ['8', 'd', ' ', '2', '3', ' ', 'd', ' ', '6', '0', ' ', 'e', '2', ' ', '9', '0', ' ',
       'e', 'd', ' ', 'c', '6', ' ', '2', '3', ' ', '9', '3', ' ', 'f', '9', ' ', '5', '9', ' ',
       '8', '2', ' ', '8', '9', ' ', 'a', '3', ' ', 'a', '0', ' ']
      ∧ (readKey (List.replicate 20 0)
          [1, 2, 3, 4, 5, 6, 7, 8, 9, 10, 11, 12, 13, 14, 15, 16, 17]).getD 16 0 = 17 := by
  decide!

/-- C8, amended: a key line that yields `k <= 16` values is not rejected.  Both
commands store the values, reduced modulo 256, in `key[0..k)`, leave the other bytes
of the key buffer as they were, run `KeyExpansion` on that buffer and go on to the
block loop and the output. -/
theorem short_key_is_expanded (message keyMem keyValues out0 : List Nat)
    (hk : keyValues.length ≤ 16) (hmem : 16 ≤ keyMem.length) :
    readKey keyMem keyValues = (keyValues.map fun c => c % 256) ++ keyMem.drop keyValues.length
      ∧ encryptCommand message keyMem keyValues out0 =
        hexOutput (encryptBlocks (paddedMessage message)
          (KeyExpansion ((keyValues.map fun c => c % 256) ++ keyMem.drop keyValues.length))
          (paddedMessageLen (strlen message)) out0) (paddedMessageLen (strlen message))
      ∧ ∀ (encryptedText : List Char) (cipherValues heap : List Nat) (pLengthInt : Nat),
        decryptCommand encryptedText cipherValues heap keyMem keyValues out0 pLengthInt =
          (List.range pLengthInt).map fun i =>
            (decryptBlocks (storeBytes heap 0 (cipherValues.map fun c => c % 256))
              (KeyExpansion ((keyValues.map fun c => c % 256) ++ keyMem.drop keyValues.length))
              encryptedText.length out0).getD i 0 := by
  have e := readKey_eq keyMem keyValues (by omega)
  refine ⟨e, ?_, ?_⟩
  · unfold encryptCommand
    rw [e]
  · intro encryptedText cipherValues heap pLengthInt
    unfold decryptCommand
    rw [e]

theorem short_key_is_expanded_witness :
    readKey (List.replicate 16 9) [0x101, 2, 3] =
        ([0x101, 2, 3].map fun c => c % 256) ++ (List.replicate 16 9).drop [0x101, 2, 3].length
      ∧ encryptCommand [104, 105] (List.replicate 16 9) [0x101, 2, 3] (List.replicate 16 0) =
        hexOutput (encryptBlocks (paddedMessage [104, 105])
          (KeyExpansion (([0x101, 2, 3].map fun c => c % 256)
            ++ (List.replicate 16 9).drop [0x101, 2, 3].length))
          (paddedMessageLen (strlen [104, 105])) (List.replicate 16 0))
          (paddedMessageLen (strlen [104, 105]))
      ∧ ∀ (encryptedText : List Char) (cipherValues heap : List Nat) (pLengthInt : Nat),
        decryptCommand encryptedText cipherValues heap (List.replicate 16 9) [0x101, 2, 3]
            (List.replicate 16 0) pLengthInt =
          (List.range pLengthInt).map fun i =>
            (decryptBlocks (storeBytes heap 0 (cipherValues.map fun c => c % 256))
              (KeyExpansion (([0x101, 2, 3].map fun c => c % 256)
                ++ (List.replicate 16 9).drop [0x101, 2, 3].length))
              encryptedText.length (List.replicate 16 0)).getD i 0 :=
  short_key_is_expanded [104, 105] (List.replicate 16 9) [0x101, 2, 3] (List.replicate 16 0)
    (by decide) (by decide)

/-- C9: table bijectivity.  For every byte `b`, `inv_s[s[b]] = b` and `s[inv_s[b]] = b`;
hence for every 16-byte state `st`, `SubBytesInverse (SubBytes st) = st` and
`SubBytes (SubBytesInverse st) = st`. -/
theorem sbox_bijective (b : Nat) (st : List Nat) (hb : b < 256) (hlen : st.length = 16)
    (hst : Bytes st) :
    inv_s.getD (s.getD b 0) 0 = b ∧ s.getD (inv_s.getD b 0) 0 = b
      ∧ SubBytesInverse (SubBytes st) = st ∧ SubBytes (SubBytesInverse st) = st :=
  ⟨inv_s_s b hb, s_inv_s b hb, SubBytesInverse_SubBytes st hlen hst,
    SubBytes_SubBytesInverse st hlen hst⟩

theorem sbox_bijective_witness :
    inv_s.getD (s.getD 0x53 0) 0 = 0x53 ∧ s.getD (inv_s.getD 0x53 0) 0 = 0x53
      ∧ SubBytesInverse (SubBytes (List.range 16)) = List.range 16
      ∧ SubBytes (SubBytesInverse (List.range 16)) = List.range 16 :=
  sbox_bijective 0x53 (List.range 16) (by decide) (by decide) (by decide)

theorem AddRoundKey_congr (st k₁ k₂ : List Nat) (h : ∀ j, j < 16 → k₁.getD j 0 = k₂.getD j 0) :
    AddRoundKey st k₁ = AddRoundKey st k₂ := by
  unfold AddRoundKey
  apply List.map_congr_left
  intro j hj
  rw [h j (List.mem_range.1 hj)]

theorem AddRoundKey_roundKey (st ek : List Nat) (r : Nat) :
    AddRoundKey st (ek.drop (16 * r)) = AddRoundKey st (roundKey ek r) :=
  AddRoundKey_congr _ _ _ fun j hj => (getD_take _ 16 j hj).symm

/-- C10: the forward pipeline.  For every 16-byte block and 176-byte expanded key,
`AESEncrypt` is the pipeline of the specification: AddRoundKey with round key 0, then
for `r = 1..9` SubBytes, ShiftRows, MixColumns, AddRoundKey with round key `r`, then
SubBytes, ShiftRows, AddRoundKey with round key 10 and no MixColumns; the round
keys it reads start at the offsets `0, 16, ..., 160`, each once and in this order. -/
theorem forward_pipeline (block ek : List Nat) (hb : block.length = 16)
    (_hek : ek.length = 176) :
    AESEncrypt block ek = specEncrypt block ek
      ∧ encryptKeyOffsets = (List.range 11).map fun r => 16 * r := by
  refine ⟨?_, by decide⟩
  have h9 : List.range 9 = [0, 1, 2, 3, 4, 5, 6, 7, 8] := by decide
  have hR : ∀ (st : List Nat) (r : Nat), Round st (ek.drop (16 * r)) =
      AddRoundKey (MixColumns (ShiftRows (SubBytes st))) (roundKey ek r) :=
    fun st r => AddRoundKey_roundKey _ ek r
  have h0 : AddRoundKey block ek = AddRoundKey block (roundKey ek 0) :=
    AddRoundKey_roundKey block ek 0
  have hF : ∀ st : List Nat, FinalRound st (ek.drop 160) =
      AddRoundKey (ShiftRows (SubBytes st)) (roundKey ek 10) :=
    fun st => AddRoundKey_roundKey _ ek 10
  unfold AESEncrypt specEncrypt
  change first16 (FinalRound (List.foldl _ (AddRoundKey (first16 block) ek) (List.range 9)) _) = _
  rw [first16_of_length _ (FinalRound_length _ _), first16_of_length block hb, h9, hF, h0]
  simp only [List.foldl_cons, List.foldl_nil]
  rw [hR _ (0 + 1), hR _ (1 + 1), hR _ (2 + 1), hR _ (3 + 1), hR _ (4 + 1), hR _ (5 + 1),
    hR _ (6 + 1), hR _ (7 + 1), hR _ (8 + 1)]

theorem forward_pipeline_witness :
    AESEncrypt (List.range 16) (List.replicate 176 1) =
        specEncrypt (List.range 16) (List.replicate 176 1)
      ∧ encryptKeyOffsets = (List.range 11).map fun r => 16 * r :=
  forward_pipeline (List.range 16) (List.replicate 176 1) (by decide) (by decide)

/-! ## MixColumns undoes InverseMixColumns -/

theorem mci_0_a (x : Nat) (hx : x < 256) :
    bitMix bits2 (bitMix bits14 x) ^^^ bitMix bits3 (bitMix bits9 x) ^^^ bitMix bits13 x ^^^ bitMix bits11 x = x := by
  have h := additive_eq (fun x => bitMix bits2 (bitMix bits14 x) ^^^ bitMix bits3 (bitMix bits9 x) ^^^ bitMix bits13 x ^^^ bitMix bits11 x)
    (by intro x y; simp only [bitMix_xor]; ac_rfl) [1, 2, 4, 8, 16, 32, 64, 128] (by decide!) x hx
  rw [bitMix_basis x hx] at h
  exact h

theorem mci_0_b (x : Nat) (hx : x < 256) :
    bitMix bits2 (bitMix bits11 x) ^^^ bitMix bits3 (bitMix bits14 x) ^^^ bitMix bits9 x ^^^ bitMix bits13 x = 0 := by
  have h := additive_eq (fun x => bitMix bits2 (bitMix bits11 x) ^^^ bitMix bits3 (bitMix bits14 x) ^^^ bitMix bits9 x ^^^ bitMix bits13 x)
    (by intro x y; simp only [bitMix_xor]; ac_rfl) [0, 0, 0, 0, 0, 0, 0, 0] (by decide!) x hx
  rw [bitMix_zero x] at h
  exact h

theorem mci_0_c (x : Nat) (hx : x < 256) :
    bitMix bits2 (bitMix bits13 x) ^^^ bitMix bits3 (bitMix bits11 x) ^^^ bitMix bits14 x ^^^ bitMix bits9 x = 0 := by
  have h := additive_eq (fun x => bitMix bits2 (bitMix bits13 x) ^^^ bitMix bits3 (bitMix bits11 x) ^^^ bitMix bits14 x ^^^ bitMix bits9 x)
    (by intro x y; simp only [bitMix_xor]; ac_rfl) [0, 0, 0, 0, 0, 0, 0, 0] (by decide!) x hx
  rw [bitMix_zero x] at h
  exact h

theorem mci_0_d (x : Nat) (hx : x < 256) :
    bitMix bits2 (bitMix bits9 x) ^^^ bitMix bits3 (bitMix bits13 x) ^^^ bitMix bits11 x ^^^ bitMix bits14 x = 0 := by
  have h := additive_eq (fun x => bitMix bits2 (bitMix bits9 x) ^^^ bitMix bits3 (bitMix bits13 x) ^^^ bitMix bits11 x ^^^ bitMix bits14 x)
    (by intro x y; simp only [bitMix_xor]; ac_rfl) [0, 0, 0, 0, 0, 0, 0, 0] (by decide!) x hx
  rw [bitMix_zero x] at h
  exact h

theorem mci_1_a (x : Nat) (hx : x < 256) :
    bitMix bits14 x ^^^ bitMix bits2 (bitMix bits9 x) ^^^ bitMix bits3 (bitMix bits13 x) ^^^ bitMix bits11 x = 0 := by
  have h := additive_eq (fun x => bitMix bits14 x ^^^ bitMix bits2 (bitMix bits9 x) ^^^ bitMix bits3 (bitMix bits13 x) ^^^ bitMix bits11 x)
    (by intro x y; simp only [bitMix_xor]; ac_rfl) [0, 0, 0, 0, 0, 0, 0, 0] (by decide!) x hx
  rw [bitMix_zero x] at h
  exact h

theorem mci_1_b (x : Nat) (hx : x < 256) :
    bitMix bits11 x ^^^ bitMix bits2 (bitMix bits14 x) ^^^ bitMix bits3 (bitMix bits9 x) ^^^ bitMix bits13 x = x := by
  have h := additive_eq (fun x => bitMix bits11 x ^^^ bitMix bits2 (bitMix bits14 x) ^^^ bitMix bits3 (bitMix bits9 x) ^^^ bitMix bits13 x)
    (by intro x y; simp only [bitMix_xor]; ac_rfl) [1, 2, 4, 8, 16, 32, 64, 128] (by decide!) x hx
  rw [bitMix_basis x hx] at h
  exact h

theorem mci_1_c (x : Nat) (hx : x < 256) :
    bitMix bits13 x ^^^ bitMix bits2 (bitMix bits11 x) ^^^ bitMix bits3 (bitMix bits14 x) ^^^ bitMix bits9 x = 0 := by
  have h := additive_eq (fun x => bitMix bits13 x ^^^ bitMix bits2 (bitMix bits11 x) ^^^ bitMix bits3 (bitMix bits14 x) ^^^ bitMix bits9 x)
    (by intro x y; simp only [bitMix_xor]; ac_rfl) [0, 0, 0, 0, 0, 0, 0, 0] (by decide!) x hx
  rw [bitMix_zero x] at h
  exact h

theorem mci_1_d (x : Nat) (hx : x < 256) :
    bitMix bits9 x ^^^ bitMix bits2 (bitMix bits13 x) ^^^ bitMix bits3 (bitMix bits11 x) ^^^ bitMix bits14 x = 0 := by
  have h := additive_eq (fun x => bitMix bits9 x ^^^ bitMix bits2 (bitMix bits13 x) ^^^ bitMix bits3 (bitMix bits11 x) ^^^ bitMix bits14 x)
    (by intro x y; simp only [bitMix_xor]; ac_rfl) [0, 0, 0, 0, 0, 0, 0, 0] (by decide!) x hx
  rw [bitMix_zero x] at h
  exact h

theorem mci_2_a (x : Nat) (hx : x < 256) :
    bitMix bits14 x ^^^ bitMix bits9 x ^^^ bitMix bits2 (bitMix bits13 x) ^^^ bitMix bits3 (bitMix bits11 x) = 0 := by
  have h := additive_eq (fun x => bitMix bits14 x ^^^ bitMix bits9 x ^^^ bitMix bits2 (bitMix bits13 x) ^^^ bitMix bits3 (bitMix bits11 x))
    (by intro x y; simp only [bitMix_xor]; ac_rfl) [0, 0, 0, 0, 0, 0, 0, 0] (by decide!) x hx
  rw [bitMix_zero x] at h
  exact h

theorem mci_2_b (x : Nat) (hx : x < 256) :
    bitMix bits11 x ^^^ bitMix bits14 x ^^^ bitMix bits2 (bitMix bits9 x) ^^^ bitMix bits3 (bitMix bits13 x) = 0 := by
  have h := additive_eq (fun x => bitMix bits11 x ^^^ bitMix bits14 x ^^^ bitMix bits2 (bitMix bits9 x) ^^^ bitMix bits3 (bitMix bits13 x))
    (by intro x y; simp only [bitMix_xor]; ac_rfl) [0, 0, 0, 0, 0, 0, 0, 0] (by decide!) x hx
  rw [bitMix_zero x] at h
  exact h

theorem mci_2_c (x : Nat) (hx : x < 256) :
    bitMix bits13 x ^^^ bitMix bits11 x ^^^ bitMix bits2 (bitMix bits14 x) ^^^ bitMix bits3 (bitMix bits9 x) = x := by
  have h := additive_eq (fun x => bitMix bits13 x ^^^ bitMix bits11 x ^^^ bitMix bits2 (bitMix bits14 x) ^^^ bitMix bits3 (bitMix bits9 x))
    (by intro x y; simp only [bitMix_xor]; ac_rfl) [1, 2, 4, 8, 16, 32, 64, 128] (by decide!) x hx
  rw [bitMix_basis x hx] at h
  exact h

theorem mci_2_d (x : Nat) (hx : x < 256) :
    bitMix bits9 x ^^^ bitMix bits13 x ^^^ bitMix bits2 (bitMix bits11 x) ^^^ bitMix bits3 (bitMix bits14 x) = 0 := by
  have h := additive_eq (fun x => bitMix bits9 x ^^^ bitMix bits13 x ^^^ bitMix bits2 (bitMix bits11 x) ^^^ bitMix bits3 (bitMix bits14 x))
    (by intro x y; simp only [bitMix_xor]; ac_rfl) [0, 0, 0, 0, 0, 0, 0, 0] (by decide!) x hx
  rw [bitMix_zero x] at h
  exact h

theorem mci_3_a (x : Nat) (hx : x < 256) :
    bitMix bits3 (bitMix bits14 x) ^^^ bitMix bits9 x ^^^ bitMix bits13 x ^^^ bitMix bits2 (bitMix bits11 x) = 0 := by
  have h := additive_eq (fun x => bitMix bits3 (bitMix bits14 x) ^^^ bitMix bits9 x ^^^ bitMix bits13 x ^^^ bitMix bits2 (bitMix bits11 x))
    (by intro x y; simp only [bitMix_xor]; ac_rfl) [0, 0, 0, 0, 0, 0, 0, 0] (by decide!) x hx
  rw [bitMix_zero x] at h
  exact h

theorem mci_3_b (x : Nat) (hx : x < 256) :
    bitMix bits3 (bitMix bits11 x) ^^^ bitMix bits14 x ^^^ bitMix bits9 x ^^^ bitMix bits2 (bitMix bits13 x) = 0 := by
  have h := additive_eq (fun x => bitMix bits3 (bitMix bits11 x) ^^^ bitMix bits14 x ^^^ bitMix bits9 x ^^^ bitMix bits2 (bitMix bits13 x))
    (by intro x y; simp only [bitMix_xor]; ac_rfl) [0, 0, 0, 0, 0, 0, 0, 0] (by decide!) x hx
  rw [bitMix_zero x] at h
  exact h

theorem mci_3_c (x : Nat) (hx : x < 256) :
    bitMix bits3 (bitMix bits13 x) ^^^ bitMix bits11 x ^^^ bitMix bits14 x ^^^ bitMix bits2 (bitMix bits9 x) = 0 := by
  have h := additive_eq (fun x => bitMix bits3 (bitMix bits13 x) ^^^ bitMix bits11 x ^^^ bitMix bits14 x ^^^ bitMix bits2 (bitMix bits9 x))
    (by intro x y; simp only [bitMix_xor]; ac_rfl) [0, 0, 0, 0, 0, 0, 0, 0] (by decide!) x hx
  rw [bitMix_zero x] at h
  exact h

theorem mci_3_d (x : Nat) (hx : x < 256) :
    bitMix bits3 (bitMix bits9 x) ^^^ bitMix bits13 x ^^^ bitMix bits11 x ^^^ bitMix bits2 (bitMix bits14 x) = x := by
  have h := additive_eq (fun x => bitMix bits3 (bitMix bits9 x) ^^^ bitMix bits13 x ^^^ bitMix bits11 x ^^^ bitMix bits2 (bitMix bits14 x))
    (by intro x y; simp only [bitMix_xor]; ac_rfl) [1, 2, 4, 8, 16, 32, 64, 128] (by decide!) x hx
  rw [bitMix_basis x hx] at h
  exact h

/-- MixColumns after InverseMixColumns, row 0 of a column. -/
theorem mci_row0 (a b c d : Nat) (ha : a < 256) (hb : b < 256) (hc : c < 256)
    (hd : d < 256) :
    mul2.getD (mul14.getD a 0 ^^^ mul11.getD b 0 ^^^ mul13.getD c 0 ^^^ mul9.getD d 0) 0
      ^^^ mul3.getD (mul9.getD a 0 ^^^ mul14.getD b 0 ^^^ mul11.getD c 0 ^^^ mul13.getD d 0) 0
      ^^^ (mul13.getD a 0 ^^^ mul9.getD b 0 ^^^ mul14.getD c 0 ^^^ mul11.getD d 0)
      ^^^ (mul11.getD a 0 ^^^ mul13.getD b 0 ^^^ mul9.getD c 0 ^^^ mul14.getD d 0) = a := by
  have hm0 : mul14.getD a 0 ^^^ mul11.getD b 0 ^^^ mul13.getD c 0 ^^^ mul9.getD d 0 < 256 :=
    xor4_lt _ _ _ _ (mul14_lt a) (mul11_lt b) (mul13_lt c) (mul9_lt d)
  have hm1 : mul9.getD a 0 ^^^ mul14.getD b 0 ^^^ mul11.getD c 0 ^^^ mul13.getD d 0 < 256 :=
    xor4_lt _ _ _ _ (mul9_lt a) (mul14_lt b) (mul11_lt c) (mul13_lt d)
  have hm2 : mul13.getD a 0 ^^^ mul9.getD b 0 ^^^ mul14.getD c 0 ^^^ mul11.getD d 0 < 256 :=
    xor4_lt _ _ _ _ (mul13_lt a) (mul9_lt b) (mul14_lt c) (mul11_lt d)
  have hm3 : mul11.getD a 0 ^^^ mul13.getD b 0 ^^^ mul9.getD c 0 ^^^ mul14.getD d 0 < 256 :=
    xor4_lt _ _ _ _ (mul11_lt a) (mul13_lt b) (mul9_lt c) (mul14_lt d)
  rw [mul2_bits _ hm0, mul3_bits _ hm1]
  simp only [mul9_bits a ha, mul9_bits b hb, mul9_bits c hc, mul9_bits d hd, mul11_bits a ha, mul11_bits b hb, mul11_bits c hc, mul11_bits d hd, mul13_bits a ha, mul13_bits b hb, mul13_bits c hc, mul13_bits d hd, mul14_bits a ha, mul14_bits b hb, mul14_bits c hc, mul14_bits d hd, bitMix_xor4]
  calc _ = (bitMix bits2 (bitMix bits14 a) ^^^ bitMix bits3 (bitMix bits9 a) ^^^ bitMix bits13 a ^^^ bitMix bits11 a)
        ^^^ (bitMix bits2 (bitMix bits11 b) ^^^ bitMix bits3 (bitMix bits14 b) ^^^ bitMix bits9 b ^^^ bitMix bits13 b)
        ^^^ (bitMix bits2 (bitMix bits13 c) ^^^ bitMix bits3 (bitMix bits11 c) ^^^ bitMix bits14 c ^^^ bitMix bits9 c)
        ^^^ (bitMix bits2 (bitMix bits9 d) ^^^ bitMix bits3 (bitMix bits13 d) ^^^ bitMix bits11 d ^^^ bitMix bits14 d) := by ac_rfl
    _ = a := by
      rw [mci_0_a a ha, mci_0_b b hb, mci_0_c c hc, mci_0_d d hd]
      simp

/-- MixColumns after InverseMixColumns, row 1 of a column. -/
theorem mci_row1 (a b c d : Nat) (ha : a < 256) (hb : b < 256) (hc : c < 256)
    (hd : d < 256) :
    (mul14.getD a 0 ^^^ mul11.getD b 0 ^^^ mul13.getD c 0 ^^^ mul9.getD d 0)
      ^^^ mul2.getD (mul9.getD a 0 ^^^ mul14.getD b 0 ^^^ mul11.getD c 0 ^^^ mul13.getD d 0) 0
      ^^^ mul3.getD (mul13.getD a 0 ^^^ mul9.getD b 0 ^^^ mul14.getD c 0 ^^^ mul11.getD d 0) 0
      ^^^ (mul11.getD a 0 ^^^ mul13.getD b 0 ^^^ mul9.getD c 0 ^^^ mul14.getD d 0) = b := by
  have hm0 : mul14.getD a 0 ^^^ mul11.getD b 0 ^^^ mul13.getD c 0 ^^^ mul9.getD d 0 < 256 :=
    xor4_lt _ _ _ _ (mul14_lt a) (mul11_lt b) (mul13_lt c) (mul9_lt d)
  have hm1 : mul9.getD a 0 ^^^ mul14.getD b 0 ^^^ mul11.getD c 0 ^^^ mul13.getD d 0 < 256 :=
    xor4_lt _ _ _ _ (mul9_lt a) (mul14_lt b) (mul11_lt c) (mul13_lt d)
  have hm2 : mul13.getD a 0 ^^^ mul9.getD b 0 ^^^ mul14.getD c 0 ^^^ mul11.getD d 0 < 256 :=
    xor4_lt _ _ _ _ (mul13_lt a) (mul9_lt b) (mul14_lt c) (mul11_lt d)
  have hm3 : mul11.getD a 0 ^^^ mul13.getD b 0 ^^^ mul9.getD c 0 ^^^ mul14.getD d 0 < 256 :=
    xor4_lt _ _ _ _ (mul11_lt a) (mul13_lt b) (mul9_lt c) (mul14_lt d)
  rw [mul2_bits _ hm1, mul3_bits _ hm2]
  simp only [mul9_bits a ha, mul9_bits b hb, mul9_bits c hc, mul9_bits d hd, mul11_bits a ha, mul11_bits b hb, mul11_bits c hc, mul11_bits d hd, mul13_bits a ha, mul13_bits b hb, mul13_bits c hc, mul13_bits d hd, mul14_bits a ha, mul14_bits b hb, mul14_bits c hc, mul14_bits d hd, bitMix_xor4]
  calc _ = (bitMix bits14 a ^^^ bitMix bits2 (bitMix bits9 a) ^^^ bitMix bits3 (bitMix bits13 a) ^^^ bitMix bits11 a)
        ^^^ (bitMix bits11 b ^^^ bitMix bits2 (bitMix bits14 b) ^^^ bitMix bits3 (bitMix bits9 b) ^^^ bitMix bits13 b)
        ^^^ (bitMix bits13 c ^^^ bitMix bits2 (bitMix bits11 c) ^^^ bitMix bits3 (bitMix bits14 c) ^^^ bitMix bits9 c)
        ^^^ (bitMix bits9 d ^^^ bitMix bits2 (bitMix bits13 d) ^^^ bitMix bits3 (bitMix bits11 d) ^^^ bitMix bits14 d) := by ac_rfl
    _ = b := by
      rw [mci_1_a a ha, mci_1_b b hb, mci_1_c c hc, mci_1_d d hd]
      simp

/-- MixColumns after InverseMixColumns, row 2 of a column. -/
theorem mci_row2 (a b c d : Nat) (ha : a < 256) (hb : b < 256) (hc : c < 256)
    (hd : d < 256) :
    (mul14.getD a 0 ^^^ mul11.getD b 0 ^^^ mul13.getD c 0 ^^^ mul9.getD d 0)
      ^^^ (mul9.getD a 0 ^^^ mul14.getD b 0 ^^^ mul11.getD c 0 ^^^ mul13.getD d 0)
      ^^^ mul2.getD (mul13.getD a 0 ^^^ mul9.getD b 0 ^^^ mul14.getD c 0 ^^^ mul11.getD d 0) 0
      ^^^ mul3.getD (mul11.getD a 0 ^^^ mul13.getD b 0 ^^^ mul9.getD c 0 ^^^ mul14.getD d 0) 0 = c := by
  have hm0 : mul14.getD a 0 ^^^ mul11.getD b 0 ^^^ mul13.getD c 0 ^^^ mul9.getD d 0 < 256 :=
    xor4_lt _ _ _ _ (mul14_lt a) (mul11_lt b) (mul13_lt c) (mul9_lt d)
  have hm1 : mul9.getD a 0 ^^^ mul14.getD b 0 ^^^ mul11.getD c 0 ^^^ mul13.getD d 0 < 256 :=
    xor4_lt _ _ _ _ (mul9_lt a) (mul14_lt b) (mul11_lt c) (mul13_lt d)
  have hm2 : mul13.getD a 0 ^^^ mul9.getD b 0 ^^^ mul14.getD c 0 ^^^ mul11.getD d 0 < 256 :=
    xor4_lt _ _ _ _ (mul13_lt a) (mul9_lt b) (mul14_lt c) (mul11_lt d)
  have hm3 : mul11.getD a 0 ^^^ mul13.getD b 0 ^^^ mul9.getD c 0 ^^^ mul14.getD d 0 < 256 :=
    xor4_lt _ _ _ _ (mul11_lt a) (mul13_lt b) (mul9_lt c) (mul14_lt d)
  rw [mul2_bits _ hm2, mul3_bits _ hm3]
  simp only [mul9_bits a ha, mul9_bits b hb, mul9_bits c hc, mul9_bits d hd, mul11_bits a ha, mul11_bits b hb, mul11_bits c hc, mul11_bits d hd, mul13_bits a ha, mul13_bits b hb, mul13_bits c hc, mul13_bits d hd, mul14_bits a ha, mul14_bits b hb, mul14_bits c hc, mul14_bits d hd, bitMix_xor4]
  calc _ = (bitMix bits14 a ^^^ bitMix bits9 a ^^^ bitMix bits2 (bitMix bits13 a) ^^^ bitMix bits3 (bitMix bits11 a))
        ^^^ (bitMix bits11 b ^^^ bitMix bits14 b ^^^ bitMix bits2 (bitMix bits9 b) ^^^ bitMix bits3 (bitMix bits13 b))
        ^^^ (bitMix bits13 c ^^^ bitMix bits11 c ^^^ bitMix bits2 (bitMix bits14 c) ^^^ bitMix bits3 (bitMix bits9 c))
        ^^^ (bitMix bits9 d ^^^ bitMix bits13 d ^^^ bitMix bits2 (bitMix bits11 d) ^^^ bitMix bits3 (bitMix bits14 d)) := by ac_rfl
    _ = c := by
      rw [mci_2_a a ha, mci_2_b b hb, mci_2_c c hc, mci_2_d d hd]
      simp

/-- MixColumns after InverseMixColumns, row 3 of a column. -/
theorem mci_row3 (a b c d : Nat) (ha : a < 256) (hb : b < 256) (hc : c < 256)
    (hd : d < 256) :
    mul3.getD (mul14.getD a 0 ^^^ mul11.getD b 0 ^^^ mul13.getD c 0 ^^^ mul9.getD d 0) 0
      ^^^ (mul9.getD a 0 ^^^ mul14.getD b 0 ^^^ mul11.getD c 0 ^^^ mul13.getD d 0)
      ^^^ (mul13.getD a 0 ^^^ mul9.getD b 0 ^^^ mul14.getD c 0 ^^^ mul11.getD d 0)
      ^^^ mul2.getD (mul11.getD a 0 ^^^ mul13.getD b 0 ^^^ mul9.getD c 0 ^^^ mul14.getD d 0) 0 = d := by
  have hm0 : mul14.getD a 0 ^^^ mul11.getD b 0 ^^^ mul13.getD c 0 ^^^ mul9.getD d 0 < 256 :=
    xor4_lt _ _ _ _ (mul14_lt a) (mul11_lt b) (mul13_lt c) (mul9_lt d)
  have hm1 : mul9.getD a 0 ^^^ mul14.getD b 0 ^^^ mul11.getD c 0 ^^^ mul13.getD d 0 < 256 :=
    xor4_lt _ _ _ _ (mul9_lt a) (mul14_lt b) (mul11_lt c) (mul13_lt d)
  have hm2 : mul13.getD a 0 ^^^ mul9.getD b 0 ^^^ mul14.getD c 0 ^^^ mul11.getD d 0 < 256 :=
    xor4_lt _ _ _ _ (mul13_lt a) (mul9_lt b) (mul14_lt c) (mul11_lt d)
  have hm3 : mul11.getD a 0 ^^^ mul13.getD b 0 ^^^ mul9.getD c 0 ^^^ mul14.getD d 0 < 256 :=
    xor4_lt _ _ _ _ (mul11_lt a) (mul13_lt b) (mul9_lt c) (mul14_lt d)
  rw [mul3_bits _ hm0, mul2_bits _ hm3]
  simp only [mul9_bits a ha, mul9_bits b hb, mul9_bits c hc, mul9_bits d hd, mul11_bits a ha, mul11_bits b hb, mul11_bits c hc, mul11_bits d hd, mul13_bits a ha, mul13_bits b hb, mul13_bits c hc, mul13_bits d hd, mul14_bits a ha, mul14_bits b hb, mul14_bits c hc, mul14_bits d hd, bitMix_xor4]
  calc _ = (bitMix bits3 (bitMix bits14 a) ^^^ bitMix bits9 a ^^^ bitMix bits13 a ^^^ bitMix bits2 (bitMix bits11 a))
        ^^^ (bitMix bits3 (bitMix bits11 b) ^^^ bitMix bits14 b ^^^ bitMix bits9 b ^^^ bitMix bits2 (bitMix bits13 b))
        ^^^ (bitMix bits3 (bitMix bits13 c) ^^^ bitMix bits11 c ^^^ bitMix bits14 c ^^^ bitMix bits2 (bitMix bits9 c))
        ^^^ (bitMix bits3 (bitMix bits9 d) ^^^ bitMix bits13 d ^^^ bitMix bits11 d ^^^ bitMix bits2 (bitMix bits14 d)) := by ac_rfl
    _ = d := by
      rw [mci_3_a a ha, mci_3_b b hb, mci_3_c c hc, mci_3_d d hd]
      simp

theorem mixColumn_inverseMixColumn (a b c d : Nat) (ha : a < 256) (hb : b < 256)
    (hc : c < 256) (hd : d < 256) :
    mixColumn (inverseMixColumn [a, b, c, d] 0) 0 = [a, b, c, d] := by
  have e : mixColumn (inverseMixColumn [a, b, c, d] 0) 0 =
      [mul2.getD (mul14.getD a 0 ^^^ mul11.getD b 0 ^^^ mul13.getD c 0 ^^^ mul9.getD d 0) 0
        ^^^ mul3.getD (mul9.getD a 0 ^^^ mul14.getD b 0 ^^^ mul11.getD c 0 ^^^ mul13.getD d 0) 0
        ^^^ (mul13.getD a 0 ^^^ mul9.getD b 0 ^^^ mul14.getD c 0 ^^^ mul11.getD d 0)
        ^^^ (mul11.getD a 0 ^^^ mul13.getD b 0 ^^^ mul9.getD c 0 ^^^ mul14.getD d 0),
       (mul14.getD a 0 ^^^ mul11.getD b 0 ^^^ mul13.getD c 0 ^^^ mul9.getD d 0)
        ^^^ mul2.getD (mul9.getD a 0 ^^^ mul14.getD b 0 ^^^ mul11.getD c 0 ^^^ mul13.getD d 0) 0
        ^^^ mul3.getD (mul13.getD a 0 ^^^ mul9.getD b 0 ^^^ mul14.getD c 0 ^^^ mul11.getD d 0) 0
        ^^^ (mul11.getD a 0 ^^^ mul13.getD b 0 ^^^ mul9.getD c 0 ^^^ mul14.getD d 0),
       (mul14.getD a 0 ^^^ mul11.getD b 0 ^^^ mul13.getD c 0 ^^^ mul9.getD d 0)
        ^^^ (mul9.getD a 0 ^^^ mul14.getD b 0 ^^^ mul11.getD c 0 ^^^ mul13.getD d 0)
        ^^^ mul2.getD (mul13.getD a 0 ^^^ mul9.getD b 0 ^^^ mul14.getD c 0 ^^^ mul11.getD d 0) 0
        ^^^ mul3.getD (mul11.getD a 0 ^^^ mul13.getD b 0 ^^^ mul9.getD c 0 ^^^ mul14.getD d 0) 0,
       mul3.getD (mul14.getD a 0 ^^^ mul11.getD b 0 ^^^ mul13.getD c 0 ^^^ mul9.getD d 0) 0
        ^^^ (mul9.getD a 0 ^^^ mul14.getD b 0 ^^^ mul11.getD c 0 ^^^ mul13.getD d 0)
        ^^^ (mul13.getD a 0 ^^^ mul9.getD b 0 ^^^ mul14.getD c 0 ^^^ mul11.getD d 0)
        ^^^ mul2.getD (mul11.getD a 0 ^^^ mul13.getD b 0 ^^^ mul9.getD c 0 ^^^ mul14.getD d 0) 0] :=
    rfl
  rw [e, mci_row0 a b c d ha hb hc hd, mci_row1 a b c d ha hb hc hd,
    mci_row2 a b c d ha hb hc hd, mci_row3 a b c d ha hb hc hd]

theorem MixColumns_InverseMixColumns (st : List Nat) (h : st.length = 16) (hb : Bytes st) :
    MixColumns (InverseMixColumns st) = st := by
  obtain ⟨a0, a1, a2, a3, a4, a5, a6, a7, a8, a9, a10, a11, a12, a13, a14, a15, rfl⟩ :=
    list16 st h
  have e : MixColumns (InverseMixColumns
      [a0, a1, a2, a3, a4, a5, a6, a7, a8, a9, a10, a11, a12, a13, a14, a15]) =
      mixColumn (inverseMixColumn [a0, a1, a2, a3] 0) 0
        ++ mixColumn (inverseMixColumn [a4, a5, a6, a7] 0) 0
        ++ mixColumn (inverseMixColumn [a8, a9, a10, a11] 0) 0
        ++ mixColumn (inverseMixColumn [a12, a13, a14, a15] 0) 0 := rfl
  rw [e, mixColumn_inverseMixColumn a0 a1 a2 a3 (hb _ (by simp)) (hb _ (by simp))
      (hb _ (by simp)) (hb _ (by simp)),
    mixColumn_inverseMixColumn a4 a5 a6 a7 (hb _ (by simp)) (hb _ (by simp))
      (hb _ (by simp)) (hb _ (by simp)),
    mixColumn_inverseMixColumn a8 a9 a10 a11 (hb _ (by simp)) (hb _ (by simp))
      (hb _ (by simp)) (hb _ (by simp)),
    mixColumn_inverseMixColumn a12 a13 a14 a15 (hb _ (by simp)) (hb _ (by simp))
      (hb _ (by simp)) (hb _ (by simp))]
  rfl

/-! ## Encryption undoes decryption -/

theorem SubRoundKey_length (st key : List Nat) : (SubRoundKey st key).length = 16 :=
  AddRoundKey_length st key

theorem SubRoundKey_bytes (st key : List Nat) (hs : Bytes st) (hk : Bytes key) :
    Bytes (SubRoundKey st key) :=
  AddRoundKey_bytes st key hs hk

theorem AddRoundKey_SubRoundKey (st key : List Nat) (h : st.length = 16) :
    AddRoundKey (SubRoundKey st key) key = st :=
  SubRoundKey_AddRoundKey st key h

theorem RoundInverse_length (st key : List Nat) : (RoundInverse st key).length = 16 :=
  SubBytesInverse_length _

theorem RoundInverse_bytes (st key : List Nat) : Bytes (RoundInverse st key) :=
  SubBytesInverse_bytes _

theorem InitialRoundInverse_length (st key : List Nat) :
    (InitialRoundInverse st key).length = 16 :=
  SubBytesInverse_length _

theorem InitialRoundInverse_bytes (st key : List Nat) : Bytes (InitialRoundInverse st key) :=
  SubBytesInverse_bytes _

theorem Round_RoundInverse (st key : List Nat) (h : st.length = 16) (hb : Bytes st)
    (hk : Bytes key) : Round (RoundInverse st key) key = st := by
  unfold Round RoundInverse
  rw [SubBytes_SubBytesInverse _ (ShiftRowsInverse_length _)
      (ShiftRowsInverse_bytes _ (InverseMixColumns_bytes _)),
    ShiftRows_ShiftRowsInverse _ (InverseMixColumns_length _),
    MixColumns_InverseMixColumns _ (SubRoundKey_length _ _) (SubRoundKey_bytes _ _ hb hk),
    AddRoundKey_SubRoundKey _ _ h]

theorem FinalRound_InitialRoundInverse (st key : List Nat) (h : st.length = 16)
    (hb : Bytes st) (hk : Bytes key) : FinalRound (InitialRoundInverse st key) key = st := by
  unfold FinalRound InitialRoundInverse
  rw [SubBytes_SubBytesInverse _ (ShiftRowsInverse_length _)
      (ShiftRowsInverse_bytes _ (SubRoundKey_bytes _ _ hb hk)),
    ShiftRows_ShiftRowsInverse _ (SubRoundKey_length _ _), AddRoundKey_SubRoundKey _ _ h]

theorem inverse_rounds_length (ek : List Nat) (l : List Nat) (st : List Nat)
    (h : st.length = 16) :
    (l.foldl (fun st i => RoundInverse st (ek.drop (16 * (i + 1)))) st).length = 16 := by
  induction l generalizing st with
  | nil => simpa using h
  | cons i l ih => exact ih _ (RoundInverse_length _ _)

theorem inverse_rounds_bytes (ek : List Nat) (l : List Nat) (st : List Nat) (hb : Bytes st) :
    Bytes (l.foldl (fun st i => RoundInverse st (ek.drop (16 * (i + 1)))) st) := by
  induction l generalizing st with
  | nil => simpa using hb
  | cons i l ih => exact ih _ (RoundInverse_bytes _ _)

theorem rounds_inverse_rounds (ek : List Nat) (hek : Bytes ek) (l : List Nat) (st : List Nat)
    (h : st.length = 16) (hb : Bytes st) :
    l.foldl (fun st i => Round st (ek.drop (16 * (i + 1))))
      (l.reverse.foldl (fun st i => RoundInverse st (ek.drop (16 * (i + 1)))) st) = st := by
  induction l with
  | nil => rfl
  | cons i l ih =>
    simp only [List.reverse_cons, List.foldl_append, List.foldl_cons, List.foldl_nil]
    rw [Round_RoundInverse _ _ (inverse_rounds_length ek _ _ h)
      (inverse_rounds_bytes ek _ _ hb) (bytes_drop ek hek _)]
    exact ih

/-- Encryption undoes decryption for any expanded key made of bytes: the result is the
sixteen ciphertext bytes read by `AESDecrypt`. -/
theorem AESEncrypt_AESDecrypt (message ek : List Nat) (hm : Bytes message) (hek : Bytes ek) :
    AESEncrypt (AESDecrypt message ek) ek = first16 message := by
  have h0 : (InitialRoundInverse (first16 message) (ek.drop 160)).length = 16 :=
    InitialRoundInverse_length _ _
  have b0 : Bytes (InitialRoundInverse (first16 message) (ek.drop 160)) :=
    InitialRoundInverse_bytes _ _
  have h9 := inverse_rounds_length ek (List.range 9).reverse _ h0
  have hrev : [8, 7, 6, 5, 4, 3, 2, 1, 0] = (List.range 9).reverse := by decide
  unfold AESEncrypt AESDecrypt
  simp only []
  rw [hrev]
  change first16 (FinalRound (List.foldl _ (AddRoundKey (first16 (first16 (SubRoundKey
    (List.foldl _ (InitialRoundInverse (first16 message) (ek.drop 160)) (List.range 9).reverse)
    ek))) ek) (List.range 9)) (ek.drop 160)) = _
  rw [first16_of_length _ (SubRoundKey_length _ _), first16_of_length _ (SubRoundKey_length _ _),
    AddRoundKey_SubRoundKey _ _ h9,
    rounds_inverse_rounds ek hek _ _ h0 b0,
    FinalRound_InitialRoundInverse _ _ (first16_length _) (first16_bytes _ hm)
      (bytes_drop ek hek _),
    first16_of_length _ (first16_length _)]

/-! ## The tables are multiplication in GF(2^8) -/

theorem mul2_gf (b : Nat) (hb : b < 256) : mul2.getD b 0 = gfMul b 2 := by
  have h := checkFrom_spec (fun i v => v == gfMul i 2) mul2 0 (by decide!) b (by simpa using hb)
  simpa using h

theorem mul3_gf (b : Nat) (hb : b < 256) : mul3.getD b 0 = gfMul b 3 := by
  have h := checkFrom_spec (fun i v => v == gfMul i 3) mul3 0 (by decide!) b (by simpa using hb)
  simpa using h

theorem mul9_gf (b : Nat) (hb : b < 256) : mul9.getD b 0 = gfMul b 9 := by
  have h := checkFrom_spec (fun i v => v == gfMul i 9) mul9 0 (by decide!) b (by simpa using hb)
  simpa using h

theorem mul11_gf (b : Nat) (hb : b < 256) : mul11.getD b 0 = gfMul b 11 := by
  have h := checkFrom_spec (fun i v => v == gfMul i 11) mul11 0 (by decide!) b
    (by simpa using hb)
  simpa using h

theorem mul13_gf (b : Nat) (hb : b < 256) : mul13.getD b 0 = gfMul b 13 := by
  have h := checkFrom_spec (fun i v => v == gfMul i 13) mul13 0 (by decide!) b
    (by simpa using hb)
  simpa using h

theorem mul14_gf (b : Nat) (hb : b < 256) : mul14.getD b 0 = gfMul b 14 := by
  have h := checkFrom_spec (fun i v => v == gfMul i 14) mul14 0 (by decide!) b
    (by simpa using hb)
  simpa using h

theorem mixColumn_eq_spec (a b c d : Nat) (ha : a < 256) (hb : b < 256) (hc : c < 256)
    (hd : d < 256) : mixColumn [a, b, c, d] 0 = specMixColumn a b c d := by
  unfold specMixColumn
  rw [← mul2_gf a ha, ← mul2_gf b hb, ← mul2_gf c hc, ← mul2_gf d hd, ← mul3_gf a ha,
    ← mul3_gf b hb, ← mul3_gf c hc, ← mul3_gf d hd]
  rfl

/-- C14: MixColumns is the GF(2^8) column transform.  For every byte `b`,
`mul2[b] = b*2` and `mul3[b] = b*3` in GF(2^8) modulo x^8+x^4+x^3+x+1, and for every
16-byte state MixColumns replaces each column `[c0, c1, c2, c3]` (bytes `4j..4j+3`,
`j = 0..3`) with `[2*c0 + 3*c1 + c2 + c3, c0 + 2*c1 + 3*c2 + c3, c0 + c1 + 2*c2 + 3*c3,
3*c0 + c1 + c2 + 2*c3]`, `+` being XOR. -/
theorem mix_columns_formula (st : List Nat) (b : Nat) (hst : st.length = 16)
    (hbytes : Bytes st) (hb : b < 256) :
    mul2.getD b 0 = gfMul b 2 ∧ mul3.getD b 0 = gfMul b 3
      ∧ MixColumns st = (List.range 4).flatMap fun j =>
          specMixColumn (st.getD (4 * j) 0) (st.getD (4 * j + 1) 0) (st.getD (4 * j + 2) 0)
            (st.getD (4 * j + 3) 0) := by
  refine ⟨mul2_gf b hb, mul3_gf b hb, ?_⟩
  obtain ⟨a0, a1, a2, a3, a4, a5, a6, a7, a8, a9, a10, a11, a12, a13, a14, a15, rfl⟩ :=
    list16 st hst
  have e₁ : MixColumns [a0, a1, a2, a3, a4, a5, a6, a7, a8, a9, a10, a11, a12, a13, a14, a15] =
      mixColumn [a0, a1, a2, a3] 0 ++ mixColumn [a4, a5, a6, a7] 0
        ++ mixColumn [a8, a9, a10, a11] 0 ++ mixColumn [a12, a13, a14, a15] 0 := rfl
  have e₂ : ((List.range 4).flatMap fun j =>
      specMixColumn
        ([a0, a1, a2, a3, a4, a5, a6, a7, a8, a9, a10, a11, a12, a13, a14, a15].getD (4 * j) 0)
        ([a0, a1, a2, a3, a4, a5, a6, a7, a8, a9, a10, a11, a12, a13, a14, a15].getD
          (4 * j + 1) 0)
        ([a0, a1, a2, a3, a4, a5, a6, a7, a8, a9, a10, a11, a12, a13, a14, a15].getD
          (4 * j + 2) 0)
        ([a0, a1, a2, a3, a4, a5, a6, a7, a8, a9, a10, a11, a12, a13, a14, a15].getD
          (4 * j + 3) 0)) =
      specMixColumn a0 a1 a2 a3 ++ specMixColumn a4 a5 a6 a7
        ++ specMixColumn a8 a9 a10 a11 ++ specMixColumn a12 a13 a14 a15 := rfl
  rw [e₁, e₂,
    mixColumn_eq_spec a0 a1 a2 a3 (hbytes _ (by simp)) (hbytes _ (by simp))
      (hbytes _ (by simp)) (hbytes _ (by simp)),
    mixColumn_eq_spec a4 a5 a6 a7 (hbytes _ (by simp)) (hbytes _ (by simp))
      (hbytes _ (by simp)) (hbytes _ (by simp)),
    mixColumn_eq_spec a8 a9 a10 a11 (hbytes _ (by simp)) (hbytes _ (by simp))
      (hbytes _ (by simp)) (hbytes _ (by simp)),
    mixColumn_eq_spec a12 a13 a14 a15 (hbytes _ (by simp)) (hbytes _ (by simp))
      (hbytes _ (by simp)) (hbytes _ (by simp))]

theorem mix_columns_formula_witness :
    mul2.getD 0x80 0 = gfMul 0x80 2 ∧ mul3.getD 0x80 0 = gfMul 0x80 3
      ∧ MixColumns (List.range 16) = (List.range 4).flatMap fun j =>
          specMixColumn ((List.range 16).getD (4 * j) 0) ((List.range 16).getD (4 * j + 1) 0)
            ((List.range 16).getD (4 * j + 2) 0) ((List.range 16).getD (4 * j + 3) 0) :=
  mix_columns_formula (List.range 16) 0x80 (by decide) (by decide) (by decide)

/-- C15: InverseMixColumns reverses MixColumns.  For every 16-byte state `st`,
`InverseMixColumns (MixColumns st) = st`; the tables `mul9`, `mul11`, `mul13`, `mul14`
are multiplication by their constant in GF(2^8), and the circulant matrix of
14, 11, 13, 9 times the circulant matrix of 2, 3, 1, 1 is the identity over GF(2^8). -/
theorem inverse_mix_columns_reverses (st : List Nat) (b : Nat) (hst : st.length = 16)
    (hbytes : Bytes st) (hb : b < 256) :
    InverseMixColumns (MixColumns st) = st
      ∧ (mul9.getD b 0 = gfMul b 9 ∧ mul11.getD b 0 = gfMul b 11
        ∧ mul13.getD b 0 = gfMul b 13 ∧ mul14.getD b 0 = gfMul b 14)
      ∧ ∀ i, i < 4 → ∀ j, j < 4 →
          gfMatMul (circulant [14, 11, 13, 9]) (circulant [2, 3, 1, 1]) i j
            = if i = j then 1 else 0 :=
  ⟨InverseMixColumns_MixColumns st hst hbytes,
    ⟨mul9_gf b hb, mul11_gf b hb, mul13_gf b hb, mul14_gf b hb⟩, by decide!⟩

theorem inverse_mix_columns_reverses_witness :
    InverseMixColumns (MixColumns (List.range 16)) = List.range 16
      ∧ (mul9.getD 0x57 0 = gfMul 0x57 9 ∧ mul11.getD 0x57 0 = gfMul 0x57 11
        ∧ mul13.getD 0x57 0 = gfMul 0x57 13 ∧ mul14.getD 0x57 0 = gfMul 0x57 14)
      ∧ ∀ i, i < 4 → ∀ j, j < 4 →
          gfMatMul (circulant [14, 11, 13, 9]) (circulant [2, 3, 1, 1]) i j
            = if i = j then 1 else 0 :=
  inverse_mix_columns_reverses (List.range 16) 0x57 (by decide) (by decide) (by decide)

/-- C18: AESDecrypt is also a right inverse.  For every 16-byte block `C` and every
176-byte expanded key `ek`, `AESEncrypt (AESDecrypt C ek) ek = C`; and `AESEncrypt`
is injective on 16-byte blocks: distinct plaintext blocks encrypt to distinct
ciphertext blocks under the same `ek`. -/
theorem block_transform_bijective (C B₁ B₂ ek : List Nat) (hC : C.length = 16)
    (hCb : Bytes C) (_hek : ek.length = 176) (hekb : Bytes ek) (h₁ : B₁.length = 16)
    (hb₁ : Bytes B₁) (h₂ : B₂.length = 16) (hb₂ : Bytes B₂) :
    AESEncrypt (AESDecrypt C ek) ek = C
      ∧ (B₁ ≠ B₂ → AESEncrypt B₁ ek ≠ AESEncrypt B₂ ek) := by
  refine ⟨?_, ?_⟩
  · rw [AESEncrypt_AESDecrypt C ek hCb hekb, first16_of_length C hC]
  · intro hne heq
    apply hne
    have e₁ := AESDecrypt_AESEncrypt B₁ ek hb₁ hekb
    have e₂ := AESDecrypt_AESEncrypt B₂ ek hb₂ hekb
    rw [first16_of_length B₁ h₁] at e₁
    rw [first16_of_length B₂ h₂] at e₂
    rw [← e₁, ← e₂, heq]

theorem block_transform_bijective_witness :
    AESEncrypt (AESDecrypt (List.range 16) (List.replicate 176 3)) (List.replicate 176 3)
        = List.range 16
      ∧ (List.range 16 ≠ List.replicate 16 0 →
        AESEncrypt (List.range 16) (List.replicate 176 3)
          ≠ AESEncrypt (List.replicate 16 0) (List.replicate 176 3)) :=
  block_transform_bijective (List.range 16) (List.range 16) (List.replicate 16 0)
    (List.replicate 176 3) (by decide) (by decide) (by decide) (by decide) (by decide)
    (by decide) (by decide) (by decide)

/-! ## The pipeline and the row shifts -/

theorem SubRoundKey_eq_AddRoundKey (st key : List Nat) :
    SubRoundKey st key = AddRoundKey st key := rfl

/-- C11: the inverse pipeline.  For every 16-byte block and 176-byte expanded key,
`AESDecrypt` is the pipeline of the specification: AddRoundKey with round key 10,
ShiftRowsInverse, SubBytesInverse; then for `r = 9` down to `1` AddRoundKey with round
key `r`, InverseMixColumns (applied to the XOR result, before the row and byte
inversions), ShiftRowsInverse, SubBytesInverse; then AddRoundKey with round key 0. -/
theorem inverse_pipeline (block ek : List Nat) (hb : block.length = 16)
    (_hek : ek.length = 176) :
    AESDecrypt block ek = specDecrypt block ek := by
  have hR : ∀ (st : List Nat) (r : Nat), RoundInverse st (ek.drop (16 * r)) =
      SubBytesInverse (ShiftRowsInverse (InverseMixColumns
        (AddRoundKey st (roundKey ek r)))) := by
    intro st r
    unfold RoundInverse
    rw [SubRoundKey_eq_AddRoundKey, AddRoundKey_roundKey]
  have hI : ∀ st : List Nat, InitialRoundInverse st (ek.drop 160) =
      SubBytesInverse (ShiftRowsInverse (AddRoundKey st (roundKey ek 10))) := by
    intro st
    unfold InitialRoundInverse
    rw [SubRoundKey_eq_AddRoundKey]
    exact congrArg (fun x => SubBytesInverse (ShiftRowsInverse x)) (AddRoundKey_roundKey st ek 10)
  have h0 : ∀ st : List Nat, SubRoundKey st ek = AddRoundKey st (roundKey ek 0) :=
    fun st => AddRoundKey_roundKey st ek 0
  unfold AESDecrypt specDecrypt
  change first16 (SubRoundKey (List.foldl _ (InitialRoundInverse (first16 block) _) _) ek) = _
  rw [first16_of_length block hb, h0, first16_of_length _ (AddRoundKey_length _ _), hI]
  simp only [List.foldl_cons, List.foldl_nil]
  rw [hR _ (8 + 1), hR _ (7 + 1), hR _ (6 + 1), hR _ (5 + 1), hR _ (4 + 1), hR _ (3 + 1),
    hR _ (2 + 1), hR _ (1 + 1), hR _ (0 + 1)]

theorem inverse_pipeline_witness :
    AESDecrypt (List.range 16) (List.replicate 176 1) =
      specDecrypt (List.range 16) (List.replicate 176 1) :=
  inverse_pipeline (List.range 16) (List.replicate 176 1) (by decide) (by decide)

/-- C12: ShiftRows rotates row `r` left by `r` positions on the column-major state.
For every 16-byte state `st`, row `r < 4` and column `c < 4`,
`ShiftRows(st)[4c + r] = st[4((c + r) mod 4) + r]`. -/
theorem shift_rows_rotates_left (st : List Nat) (r c : Nat) (_hst : st.length = 16)
    (hr : r < 4) (hc : c < 4) :
    (ShiftRows st).getD (4 * c + r) 0 = st.getD (4 * ((c + r) % 4) + r) 0 := by
  interval_cases r <;> interval_cases c <;> rfl

theorem shift_rows_rotates_left_witness :
    (ShiftRows (List.range 16)).getD (4 * 2 + 3) 0
      = (List.range 16).getD (4 * ((2 + 3) % 4) + 3) 0 :=
  shift_rows_rotates_left (List.range 16) 3 2 (by decide) (by decide) (by decide)

/-- C13: ShiftRowsInverse rotates row `r` right by `r` positions,
`ShiftRowsInverse(st)[4c + r] = st[4((c - r) mod 4) + r]` (the difference taken in the
integers), and is the two-sided inverse of ShiftRows on 16-byte states. -/
theorem shift_rows_inverse_rotates_right (st : List Nat) (r c : Nat) (hst : st.length = 16)
    (hr : r < 4) (hc : c < 4) :
    (ShiftRowsInverse st).getD (4 * c + r) 0
        = st.getD (4 * (((c : Int) - (r : Int)) % 4).toNat + r) 0
      ∧ ShiftRowsInverse (ShiftRows st) = st ∧ ShiftRows (ShiftRowsInverse st) = st := by
  refine ⟨?_, ShiftRowsInverse_ShiftRows st hst, ShiftRows_ShiftRowsInverse st hst⟩
  interval_cases r <;> interval_cases c <;> rfl

theorem shift_rows_inverse_rotates_right_witness :
    (ShiftRowsInverse (List.range 16)).getD (4 * 1 + 3) 0
        = (List.range 16).getD (4 * ((((1 : Nat) : Int) - ((3 : Nat) : Int)) % 4).toNat + 3) 0
      ∧ ShiftRowsInverse (ShiftRows (List.range 16)) = List.range 16
      ∧ ShiftRows (ShiftRowsInverse (List.range 16)) = List.range 16 :=
  shift_rows_inverse_rotates_right (List.range 16) 3 1 (by decide) (by decide) (by decide)

theorem AddRoundKey_eq_xorBytes (st key : List Nat) (hst : st.length = 16)
    (hk : key.length = 16) : AddRoundKey st key = xorBytes st key := by
  obtain ⟨a0, a1, a2, a3, a4, a5, a6, a7, a8, a9, a10, a11, a12, a13, a14, a15, rfl⟩ :=
    list16 st hst
  obtain ⟨k0, k1, k2, k3, k4, k5, k6, k7, k8, k9, k10, k11, k12, k13, k14, k15, rfl⟩ :=
    list16 key hk
  rfl

/-- C16: SubRoundKey does the same as AddRoundKey.  For every 16-byte state `st` and
16-byte round key `k`, `SubRoundKey st k = AddRoundKey st k`, both are the bytewise
XOR of `st` and `k`, and `SubRoundKey (AddRoundKey st k) k = st`. -/
theorem sub_round_key_is_add_round_key (st k : List Nat) (hst : st.length = 16)
    (hk : k.length = 16) :
    SubRoundKey st k = AddRoundKey st k ∧ AddRoundKey st k = xorBytes st k
      ∧ SubRoundKey (AddRoundKey st k) k = st :=
  ⟨SubRoundKey_eq_AddRoundKey st k, AddRoundKey_eq_xorBytes st k hst hk,
    SubRoundKey_AddRoundKey st k hst⟩

theorem sub_round_key_is_add_round_key_witness :
    SubRoundKey (List.range 16) (List.replicate 16 0xa5)
        = AddRoundKey (List.range 16) (List.replicate 16 0xa5)
      ∧ AddRoundKey (List.range 16) (List.replicate 16 0xa5)
        = xorBytes (List.range 16) (List.replicate 16 0xa5)
      ∧ SubRoundKey (AddRoundKey (List.range 16) (List.replicate 16 0xa5))
        (List.replicate 16 0xa5) = List.range 16 :=
  sub_round_key_is_add_round_key (List.range 16) (List.replicate 16 0xa5) (by decide)
    (by decide)

/-- C17: the single-block round trip does not depend on the key schedule.  For every
16-byte block `B` and every 176-byte array `ek` whatsoever,
`AESDecrypt (AESEncrypt B ek) ek = B`. -/
theorem round_trip_any_expanded_key (B ek : List Nat) (hB : B.length = 16) (hBb : Bytes B)
    (_hek : ek.length = 176) (hekb : Bytes ek) :
    AESDecrypt (AESEncrypt B ek) ek = B := by
  rw [AESDecrypt_AESEncrypt B ek hBb hekb, first16_of_length B hB]

theorem round_trip_any_expanded_key_witness :
    AESDecrypt (AESEncrypt (List.range 16) (List.replicate 176 0xff)) (List.replicate 176 0xff)
      = List.range 16 :=
  round_trip_any_expanded_key (List.range 16) (List.replicate 176 0xff) (by decide)
    (by decide) (by decide) (by decide)

/-- C19: the empty message.  When the line is empty (`strlen` is 0) the `enc` command
computes `paddedMessageLen = 0` and an empty `paddedMessage`, its block loop makes no
`AESEncrypt` call and leaves the output buffer untouched, and the printed ciphertext
line is empty: no padding block is produced. -/
theorem empty_message (message keyMem keyValues out0 : List Nat) (h : strlen message = 0) :
    paddedMessageLen (strlen message) = 0 ∧ paddedMessage message = []
      ∧ blockOffsets (paddedMessageLen (strlen message)) = []
      ∧ encryptBlocks (paddedMessage message) (KeyExpansion (readKey keyMem keyValues))
          (paddedMessageLen (strlen message)) out0 = out0
      ∧ encryptCommand message keyMem keyValues out0 = [] := by
  have h0 : paddedMessageLen (strlen message) = 0 := by rw [h]; rfl
  have h1 : paddedMessage message = [] := by
    apply List.eq_nil_of_length_eq_zero
    rw [paddedMessage_length, h0]
  refine ⟨h0, h1, by rw [h0]; rfl, by rw [h0]; rfl, ?_⟩
  unfold encryptCommand
  simp only [h0]
  rfl

theorem empty_message_witness :
    paddedMessageLen (strlen []) = 0 ∧ paddedMessage [] = []
      ∧ blockOffsets (paddedMessageLen (strlen [])) = []
      ∧ encryptBlocks (paddedMessage []) (KeyExpansion (readKey (List.replicate 16 0)
          (List.range 16))) (paddedMessageLen (strlen [])) [] = []
      ∧ encryptCommand [] (List.replicate 16 0) (List.range 16) [] = [] :=
  empty_message [] (List.replicate 16 0) (List.range 16) [] (by decide)

end PassEncrypter
